import Mathlib

/-!
# Intel 8008 emulator (g8b): execution engine

A shallow embedding of `src/cpu/cpu.go`, `src/cpu/intel_8008.go` and
`src/cpu/intel_8008_instructions.go`.

* `uint8` and `uint16` values are natural numbers; every Go operation that can
  leave the range is followed by an explicit `% 256` or `% 65536`.
* The Go methods mutate the receiver in place.  Here every method takes the
  engine and returns an `Outcome`: the engine as it stands when the method
  stops, and the reason it stopped early, if any (`os.Exit`, or the run-time
  error of an out-of-range slice index).
* A Go `switch` on the mnemonic is an `if … else if …` chain in the same case
  order.
-/

set_option maxRecDepth 100000

namespace G8b

/-- The addressing modes of `cpu.go`. -/
inductive AddressingMode
  | Immediate
  | Absolute
  | Relative
  | Implied
deriving DecidableEq, Repr

/-- The record `Instruction` of `cpu.go`; the free-text `Description` field,
which no code reads, is left out. -/
structure Instruction where
  Opcode : Nat
  Mnemonic : String
  Mode : AddressingMode
  Size : Nat
  Cycles : Nat
deriving DecidableEq, Repr

/-- The anonymous struct behind `Intel8008.Flags`. -/
structure FlagBits where
  Carry : Bool
  Zero : Bool
  Sign : Bool
  Parity : Bool
deriving DecidableEq, Repr

/-- The struct `Intel8008` with the embedded `CPU`.  `Memory` is the byte
slice; `startTime` and `stopTime` (wall-clock readings) are left out.  The
cycle counter is a Go `int`, kept here as an unbounded integer. -/
structure Intel8008 where
  Name : String
  Instructions : List (Nat × Instruction)
  PC : Nat
  SP : Nat
  Memory : List Nat
  Cycles : Int
  Speed : Nat
  running : Bool
  verbose : Bool
  A : Nat
  B : Nat
  C : Nat
  D : Nat
  E : Nat
  H : Nat
  L : Nat
  Flags : FlagBits
deriving DecidableEq, Repr

/-- Why a method stopped before its end. -/
inductive Fault
  /-- The call `os.Exit(1)` that follows the message "Unknown opcode". -/
  | unknownOpcode (opcode pc : Nat)
  /-- The call `os.Exit(1)` that follows the message "instruction not implemented". -/
  | notImplemented (mnemonic : String)
  /-- A bare `os.Exit(code)`. -/
  | exit (code : Nat)
  /-- The run-time error of indexing `Memory` outside its length. -/
  | indexOutOfRange (index : Nat)
deriving DecidableEq, Repr

/-- The engine when a method stops, and the fault that stopped it, if any. -/
structure Outcome where
  cpu : Intel8008
  fault : Option Fault
deriving DecidableEq, Repr

/-- The method ran to its end. -/
def Outcome.ok (c : Intel8008) : Outcome := ⟨c, none⟩

/-- The method stopped at a fault, the engine being `c` at that point. -/
def Outcome.stop (c : Intel8008) (f : Fault) : Outcome := ⟨c, some f⟩

/-- The read `c.Memory[index]`, then the rest `k` of the method. -/
def Outcome.read (c : Intel8008) (index : Nat) (k : Nat → Outcome) : Outcome :=
  match c.Memory[index]? with
  | some v => k v
  | none => Outcome.stop c (Fault.indexOutOfRange index)

/-- The assignment `c.Memory[index] = value`, then the rest `k` of the method. -/
def Outcome.write (c : Intel8008) (index value : Nat) (k : Intel8008 → Outcome) : Outcome :=
  if index < c.Memory.length then
    k { c with Memory := c.Memory.set index value }
  else
    Outcome.stop c (Fault.indexOutOfRange index)

/-- Run `k` on the engine of an outcome without fault. -/
def Outcome.andThen (r : Outcome) (k : Intel8008 → Outcome) : Outcome :=
  match r.fault with
  | none => k r.cpu
  | some _ => r

/-- The map `Intel8008Instructions`, as the list of its key/value pairs in the
order of the source file.  The keys are pairwise distinct. -/
def Intel8008Instructions : List (Nat × Instruction) := [
  (0xC1, Instruction.mk 0xC1 "LAB" .Implied 1 5),
  (0xC2, Instruction.mk 0xC2 "LAC" .Implied 1 5),
  (0xC3, Instruction.mk 0xC3 "LAD" .Implied 1 5),
  (0xC4, Instruction.mk 0xC4 "LAE" .Implied 1 5),
  (0xC5, Instruction.mk 0xC5 "LAH" .Implied 1 5),
  (0xC6, Instruction.mk 0xC6 "LAL" .Implied 1 5),
  (0xC8, Instruction.mk 0xC8 "LBA" .Implied 1 5),
  (0xCA, Instruction.mk 0xCA "LBC" .Implied 1 5),
  (0xCB, Instruction.mk 0xCB "LBD" .Implied 1 5),
  (0xCC, Instruction.mk 0xCC "LBE" .Implied 1 5),
  (0xCD, Instruction.mk 0xCD "LBH" .Implied 1 5),
  (0xCE, Instruction.mk 0xCE "LBL" .Implied 1 5),
  (0xD0, Instruction.mk 0xD0 "LCA" .Implied 1 5),
  (0xD1, Instruction.mk 0xD1 "LCB" .Implied 1 5),
  (0xD3, Instruction.mk 0xD3 "LCD" .Implied 1 5),
  (0xD4, Instruction.mk 0xD4 "LCE" .Implied 1 5),
  (0xD5, Instruction.mk 0xD5 "LCH" .Implied 1 5),
  (0xD6, Instruction.mk 0xD6 "LCL" .Implied 1 5),
  (0xD8, Instruction.mk 0xD8 "LDA" .Implied 1 5),
  (0xD9, Instruction.mk 0xD9 "LDB" .Implied 1 5),
  (0xDA, Instruction.mk 0xDA "LDC" .Implied 1 5),
  (0xDC, Instruction.mk 0xDC "LDE" .Implied 1 5),
  (0xDD, Instruction.mk 0xDD "LDH" .Implied 1 5),
  (0xDE, Instruction.mk 0xDE "LDL" .Implied 1 5),
  (0xE0, Instruction.mk 0xE0 "LEA" .Implied 1 5),
  (0xE1, Instruction.mk 0xE1 "LEB" .Implied 1 5),
  (0xE2, Instruction.mk 0xE2 "LEC" .Implied 1 5),
  (0xE3, Instruction.mk 0xE3 "LED" .Implied 1 5),
  (0xE5, Instruction.mk 0xE5 "LEH" .Implied 1 5),
  (0xE6, Instruction.mk 0xE6 "LEL" .Implied 1 5),
  (0xE8, Instruction.mk 0xE8 "LHA" .Implied 1 5),
  (0xE9, Instruction.mk 0xE9 "LHB" .Implied 1 5),
  (0xEA, Instruction.mk 0xEA "LHC" .Implied 1 5),
  (0xEB, Instruction.mk 0xEB "LHD" .Implied 1 5),
  (0xEC, Instruction.mk 0xEC "LHE" .Implied 1 5),
  (0xEE, Instruction.mk 0xEE "LHL" .Implied 1 5),
  (0xF0, Instruction.mk 0xF0 "LLA" .Implied 1 5),
  (0xF1, Instruction.mk 0xF1 "LLB" .Implied 1 5),
  (0xF2, Instruction.mk 0xF2 "LLC" .Implied 1 5),
  (0xF3, Instruction.mk 0xF3 "LLD" .Implied 1 5),
  (0xF4, Instruction.mk 0xF4 "LLE" .Implied 1 5),
  (0xF5, Instruction.mk 0xF5 "LLH" .Implied 1 5),
  (0xC7, Instruction.mk 0xC7 "LAM" .Implied 1 8),
  (0xCF, Instruction.mk 0xCF "LBM" .Implied 1 8),
  (0xD7, Instruction.mk 0xD7 "LCM" .Implied 1 8),
  (0xDF, Instruction.mk 0xDF "LDM" .Implied 1 8),
  (0xE7, Instruction.mk 0xE7 "LEM" .Implied 1 8),
  (0xEF, Instruction.mk 0xEF "LHM" .Implied 1 8),
  (0xF7, Instruction.mk 0xF7 "LLM" .Implied 1 8),
  (0xF8, Instruction.mk 0xF8 "LMA" .Implied 1 7),
  (0xF9, Instruction.mk 0xF9 "LMB" .Implied 1 7),
  (0xFA, Instruction.mk 0xFA "LMC" .Implied 1 7),
  (0xFB, Instruction.mk 0xFB "LMD" .Implied 1 7),
  (0xFC, Instruction.mk 0xFC "LME" .Implied 1 7),
  (0xFD, Instruction.mk 0xFD "LMH" .Implied 1 7),
  (0xFE, Instruction.mk 0xFE "LML" .Implied 1 7),
  (0x06, Instruction.mk 0x06 "LAI" .Immediate 2 8),
  (0x0E, Instruction.mk 0x0E "LBI" .Immediate 2 8),
  (0x16, Instruction.mk 0x16 "LCI" .Immediate 2 8),
  (0x1E, Instruction.mk 0x1E "LDI" .Immediate 2 8),
  (0x26, Instruction.mk 0x26 "LEI" .Immediate 2 8),
  (0x2E, Instruction.mk 0x2E "LHI" .Immediate 2 8),
  (0x36, Instruction.mk 0x36 "LLI" .Immediate 2 8),
  (0x3E, Instruction.mk 0x3E "LMI" .Immediate 2 9),
  (0x08, Instruction.mk 0x08 "INB" .Implied 1 5),
  (0x10, Instruction.mk 0x10 "INC" .Implied 1 5),
  (0x18, Instruction.mk 0x18 "IND" .Implied 1 5),
  (0x20, Instruction.mk 0x20 "INE" .Implied 1 5),
  (0x28, Instruction.mk 0x28 "INH" .Implied 1 5),
  (0x30, Instruction.mk 0x30 "INL" .Implied 1 5),
  (0x09, Instruction.mk 0x09 "DCB" .Implied 1 5),
  (0x11, Instruction.mk 0x11 "DCC" .Implied 1 5),
  (0x19, Instruction.mk 0x19 "DCD" .Implied 1 5),
  (0x21, Instruction.mk 0x21 "DCE" .Implied 1 5),
  (0x29, Instruction.mk 0x29 "DCH" .Implied 1 5),
  (0x31, Instruction.mk 0x31 "DCL" .Implied 1 5),
  (0x80, Instruction.mk 0x80 "ADA" .Implied 1 5),
  (0x81, Instruction.mk 0x81 "ADB" .Implied 1 5),
  (0x82, Instruction.mk 0x82 "ADC" .Implied 1 5),
  (0x83, Instruction.mk 0x83 "ADD" .Implied 1 5),
  (0x84, Instruction.mk 0x84 "ADE" .Implied 1 5),
  (0x85, Instruction.mk 0x85 "ADH" .Implied 1 5),
  (0x86, Instruction.mk 0x86 "ADL" .Implied 1 5),
  (0x87, Instruction.mk 0x87 "ADM" .Implied 1 8),
  (0x04, Instruction.mk 0x04 "ADI" .Immediate 2 8),
  (0x88, Instruction.mk 0x88 "ACA" .Implied 1 5),
  (0x89, Instruction.mk 0x89 "ACB" .Implied 1 5),
  (0x8A, Instruction.mk 0x8A "ACC" .Implied 1 5),
  (0x8B, Instruction.mk 0x8B "ACD" .Implied 1 5),
  (0x8C, Instruction.mk 0x8C "ACE" .Implied 1 5),
  (0x8D, Instruction.mk 0x8D "ACH" .Implied 1 5),
  (0x8E, Instruction.mk 0x8E "ACL" .Implied 1 5),
  (0x8F, Instruction.mk 0x8F "ACM" .Implied 1 8),
  (0x0C, Instruction.mk 0x0C "ACI" .Immediate 2 8),
  (0x90, Instruction.mk 0x90 "SUA" .Implied 1 5),
  (0x91, Instruction.mk 0x91 "SUB" .Implied 1 5),
  (0x92, Instruction.mk 0x92 "SUC" .Implied 1 5),
  (0x93, Instruction.mk 0x93 "SUD" .Implied 1 5),
  (0x94, Instruction.mk 0x94 "SUE" .Implied 1 5),
  (0x95, Instruction.mk 0x95 "SUH" .Implied 1 5),
  (0x96, Instruction.mk 0x96 "SUL" .Implied 1 5),
  (0x97, Instruction.mk 0x97 "SUM" .Implied 1 8),
  (0x14, Instruction.mk 0x14 "SUI" .Immediate 2 8),
  (0x98, Instruction.mk 0x98 "SBA" .Implied 1 5),
  (0x99, Instruction.mk 0x99 "SBB" .Implied 1 5),
  (0x9A, Instruction.mk 0x9A "SBC" .Implied 1 5),
  (0x9B, Instruction.mk 0x9B "SBD" .Implied 1 5),
  (0x9C, Instruction.mk 0x9C "SBE" .Implied 1 5),
  (0x9D, Instruction.mk 0x9D "SBH" .Implied 1 5),
  (0x9E, Instruction.mk 0x9E "SBL" .Implied 1 5),
  (0x9F, Instruction.mk 0x9F "SBM" .Implied 1 8),
  (0x1C, Instruction.mk 0x1C "SBI" .Immediate 2 8),
  (0xA0, Instruction.mk 0xA0 "NDA" .Implied 1 5),
  (0xA1, Instruction.mk 0xA1 "NDB" .Implied 1 5),
  (0xA2, Instruction.mk 0xA2 "NDC" .Implied 1 5),
  (0xA3, Instruction.mk 0xA3 "NDD" .Implied 1 5),
  (0xA4, Instruction.mk 0xA4 "NDE" .Implied 1 5),
  (0xA5, Instruction.mk 0xA5 "NDH" .Implied 1 5),
  (0xA6, Instruction.mk 0xA6 "NDL" .Implied 1 5),
  (0xA7, Instruction.mk 0xA7 "NDM" .Implied 1 8),
  (0x24, Instruction.mk 0x24 "NDI" .Immediate 2 8),
  (0xA8, Instruction.mk 0xA8 "XRA" .Implied 1 5),
  (0xA9, Instruction.mk 0xA9 "XRB" .Implied 1 5),
  (0xAA, Instruction.mk 0xAA "XRC" .Implied 1 5),
  (0xAB, Instruction.mk 0xAB "XRD" .Implied 1 5),
  (0xAC, Instruction.mk 0xAC "XRE" .Implied 1 5),
  (0xAD, Instruction.mk 0xAD "XRH" .Implied 1 5),
  (0xAE, Instruction.mk 0xAE "XRL" .Implied 1 5),
  (0xAF, Instruction.mk 0xAF "XRM" .Implied 1 8),
  (0x2C, Instruction.mk 0x2C "XRI" .Immediate 2 8),
  (0xB0, Instruction.mk 0xB0 "ORA" .Implied 1 5),
  (0xB1, Instruction.mk 0xB1 "ORB" .Implied 1 5),
  (0xB2, Instruction.mk 0xB2 "ORC" .Implied 1 5),
  (0xB3, Instruction.mk 0xB3 "ORD" .Implied 1 5),
  (0xB4, Instruction.mk 0xB4 "ORE" .Implied 1 5),
  (0xB5, Instruction.mk 0xB5 "ORH" .Implied 1 5),
  (0xB6, Instruction.mk 0xB6 "ORL" .Implied 1 5),
  (0xB7, Instruction.mk 0xB7 "ORM" .Implied 1 8),
  (0x34, Instruction.mk 0x34 "ORI" .Immediate 2 8),
  (0xB8, Instruction.mk 0xB8 "CPA" .Implied 1 5),
  (0xB9, Instruction.mk 0xB9 "CPB" .Implied 1 5),
  (0xBA, Instruction.mk 0xBA "CPC" .Implied 1 5),
  (0xBB, Instruction.mk 0xBB "CPD" .Implied 1 5),
  (0xBC, Instruction.mk 0xBC "CPE" .Implied 1 5),
  (0xBD, Instruction.mk 0xBD "CPH" .Implied 1 5),
  (0xBE, Instruction.mk 0xBE "CPL" .Implied 1 5),
  (0xBF, Instruction.mk 0xBF "CPM" .Implied 1 8),
  (0x3C, Instruction.mk 0x3C "CPI" .Immediate 2 8),
  (0x02, Instruction.mk 0x02 "RLC" .Implied 1 5),
  (0x0A, Instruction.mk 0x0A "RRC" .Implied 1 5),
  (0x12, Instruction.mk 0x12 "RAL" .Implied 1 5),
  (0x1A, Instruction.mk 0x1A "RAR" .Implied 1 5),
  (0x44, Instruction.mk 0x44 "JMP" .Absolute 3 11),
  (0x4C, Instruction.mk 0x4C "JMP" .Absolute 3 11),
  (0x54, Instruction.mk 0x54 "JMP" .Absolute 3 11),
  (0x5C, Instruction.mk 0x5C "JMP" .Absolute 3 11),
  (0x64, Instruction.mk 0x64 "JMP" .Absolute 3 11),
  (0x6C, Instruction.mk 0x6C "JMP" .Absolute 3 11),
  (0x74, Instruction.mk 0x74 "JMP" .Absolute 3 11),
  (0x7C, Instruction.mk 0x7C "JMP" .Absolute 3 11),
  (0x40, Instruction.mk 0x40 "JFC" .Absolute 3 11),
  (0x48, Instruction.mk 0x48 "JFZ" .Absolute 3 11),
  (0x50, Instruction.mk 0x50 "JFS" .Absolute 3 11),
  (0x58, Instruction.mk 0x58 "JFP" .Absolute 3 11),
  (0x60, Instruction.mk 0x60 "JTC" .Absolute 3 11),
  (0x68, Instruction.mk 0x68 "JTZ" .Absolute 3 11),
  (0x70, Instruction.mk 0x70 "JTS" .Absolute 3 11),
  (0x78, Instruction.mk 0x78 "JTP" .Absolute 3 11),
  (0x46, Instruction.mk 0x46 "CAL" .Absolute 3 11),
  (0x4E, Instruction.mk 0x4E "CAL" .Absolute 3 11),
  (0x56, Instruction.mk 0x56 "CAL" .Absolute 3 11),
  (0x5E, Instruction.mk 0x5E "CAL" .Absolute 3 11),
  (0x66, Instruction.mk 0x66 "CAL" .Absolute 3 11),
  (0x6E, Instruction.mk 0x6E "CAL" .Absolute 3 11),
  (0x76, Instruction.mk 0x76 "CAL" .Absolute 3 11),
  (0x7E, Instruction.mk 0x7E "CAL" .Absolute 3 11),
  (0x42, Instruction.mk 0x42 "CFC" .Absolute 3 11),
  (0x4A, Instruction.mk 0x4A "CFZ" .Absolute 3 11),
  (0x52, Instruction.mk 0x52 "CFS" .Absolute 3 11),
  (0x5A, Instruction.mk 0x5A "CFP" .Absolute 3 11),
  (0x62, Instruction.mk 0x62 "CTC" .Absolute 3 11),
  (0x6A, Instruction.mk 0x6A "CTZ" .Absolute 3 11),
  (0x72, Instruction.mk 0x72 "CTS" .Absolute 3 11),
  (0x7A, Instruction.mk 0x7A "CTP" .Absolute 3 11),
  (0x07, Instruction.mk 0x07 "RET" .Implied 1 5),
  (0x0F, Instruction.mk 0x0F "RET" .Implied 1 5),
  (0x17, Instruction.mk 0x17 "RET" .Implied 1 5),
  (0x1F, Instruction.mk 0x1F "RET" .Implied 1 5),
  (0x27, Instruction.mk 0x27 "RET" .Implied 1 5),
  (0x2F, Instruction.mk 0x2F "RET" .Implied 1 5),
  (0x37, Instruction.mk 0x37 "RET" .Implied 1 5),
  (0x3F, Instruction.mk 0x3F "RET" .Implied 1 5),
  (0x03, Instruction.mk 0x03 "RFC" .Implied 1 5),
  (0x0B, Instruction.mk 0x0B "RFZ" .Implied 1 5),
  (0x13, Instruction.mk 0x13 "RFS" .Implied 1 5),
  (0x1B, Instruction.mk 0x1B "RFP" .Implied 1 5),
  (0x23, Instruction.mk 0x23 "RTC" .Implied 1 5),
  (0x2B, Instruction.mk 0x2B "RTZ" .Implied 1 5),
  (0x33, Instruction.mk 0x33 "RTS" .Implied 1 5),
  (0x3B, Instruction.mk 0x3B "RTP" .Implied 1 5),
  (0x05, Instruction.mk 0x05 "RST" .Implied 1 5),
  (0x0D, Instruction.mk 0x0D "RST" .Implied 1 5),
  (0x15, Instruction.mk 0x15 "RST" .Implied 1 5),
  (0x1D, Instruction.mk 0x1D "RST" .Implied 1 5),
  (0x25, Instruction.mk 0x25 "RST" .Implied 1 5),
  (0x2D, Instruction.mk 0x2D "RST" .Implied 1 5),
  (0x35, Instruction.mk 0x35 "RST" .Implied 1 5),
  (0x3D, Instruction.mk 0x3D "RST" .Implied 1 5),
  (0x41, Instruction.mk 0x41 "INP" .Implied 1 8),
  (0x43, Instruction.mk 0x43 "INP" .Implied 1 8),
  (0x45, Instruction.mk 0x45 "INP" .Implied 1 8),
  (0x47, Instruction.mk 0x47 "INP" .Implied 1 8),
  (0x49, Instruction.mk 0x49 "INP" .Implied 1 8),
  (0x4B, Instruction.mk 0x4B "INP" .Implied 1 8),
  (0x4D, Instruction.mk 0x4D "INP" .Implied 1 8),
  (0x4F, Instruction.mk 0x4F "INP" .Implied 1 8),
  (0x51, Instruction.mk 0x51 "OUT" .Implied 1 6),
  (0x53, Instruction.mk 0x53 "OUT" .Implied 1 6),
  (0x55, Instruction.mk 0x55 "OUT" .Implied 1 6),
  (0x57, Instruction.mk 0x57 "OUT" .Implied 1 6),
  (0x59, Instruction.mk 0x59 "OUT" .Implied 1 6),
  (0x5B, Instruction.mk 0x5B "OUT" .Implied 1 6),
  (0x5D, Instruction.mk 0x5D "OUT" .Implied 1 6),
  (0x5F, Instruction.mk 0x5F "OUT" .Implied 1 6),
  (0x61, Instruction.mk 0x61 "OUT" .Implied 1 6),
  (0x63, Instruction.mk 0x63 "OUT" .Implied 1 6),
  (0x65, Instruction.mk 0x65 "OUT" .Implied 1 6),
  (0x67, Instruction.mk 0x67 "OUT" .Implied 1 6),
  (0x69, Instruction.mk 0x69 "OUT" .Implied 1 6),
  (0x6B, Instruction.mk 0x6B "OUT" .Implied 1 6),
  (0x6D, Instruction.mk 0x6D "OUT" .Implied 1 6),
  (0x6F, Instruction.mk 0x6F "OUT" .Implied 1 6),
  (0x71, Instruction.mk 0x71 "OUT" .Implied 1 6),
  (0x73, Instruction.mk 0x73 "OUT" .Implied 1 6),
  (0x75, Instruction.mk 0x75 "OUT" .Implied 1 6),
  (0x77, Instruction.mk 0x77 "OUT" .Implied 1 6),
  (0x79, Instruction.mk 0x79 "OUT" .Implied 1 6),
  (0x7B, Instruction.mk 0x7B "OUT" .Implied 1 6),
  (0x7D, Instruction.mk 0x7D "OUT" .Implied 1 6),
  (0x7F, Instruction.mk 0x7F "OUT" .Implied 1 6),
  (0xC0, Instruction.mk 0xC0 "NOP" .Implied 1 5),
  (0xC9, Instruction.mk 0xC9 "NOP" .Implied 1 5),
  (0xD2, Instruction.mk 0xD2 "NOP" .Implied 1 5),
  (0xDB, Instruction.mk 0xDB "NOP" .Implied 1 5),
  (0xE4, Instruction.mk 0xE4 "NOP" .Implied 1 5),
  (0xED, Instruction.mk 0xED "NOP" .Implied 1 5),
  (0xF6, Instruction.mk 0xF6 "NOP" .Implied 1 5),
  (0x00, Instruction.mk 0x00 "HLT" .Implied 1 4),
  (0x01, Instruction.mk 0x01 "HLT" .Implied 1 4),
  (0xFF, Instruction.mk 0xFF "HLT" .Implied 1 4)
]

/-- The map lookup `c.Instructions[opcode]`. -/
def lookupInstruction (instructions : List (Nat × Instruction)) (opcode : Nat) :
    Option Instruction :=
  (instructions.find? fun e => e.1 == opcode).map Prod.snd

/-- The constructor `NewCPU` followed by `NewIntel8008`: zeroed memory of the
given size, stack pointer `0xFF`, everything else zero. -/
def NewIntel8008 (memorySize : Nat) (speed : Nat) : Intel8008 :=
  { Name := "Intel8008", Instructions := Intel8008Instructions, PC := 0, SP := 0xFF,
    Memory := List.replicate memorySize 0, Cycles := 0, Speed := speed,
    running := false, verbose := false,
    A := 0, B := 0, C := 0, D := 0, E := 0, H := 0, L := 0,
    Flags := ⟨false, false, false, false⟩ }

/-- The method `calculateParity`: start from `true`, flip once per set bit. -/
def calculateParity (value : Nat) : Bool :=
  (List.range 8).foldl
    (fun parity i => if (value &&& ((1 <<< i) % 256)) != 0 then !parity else parity) true

/-- The method `updateFlags`. -/
def updateFlags (c : Intel8008) (value : Nat) : Intel8008 :=
  let c := { c with Flags := { c.Flags with Zero := value == 0 } }
  let c := { c with Flags := { c.Flags with Sign := (value &&& 0x80) != 0 } }
  let c := { c with Flags := { c.Flags with Parity := calculateParity value } }
  c

/-- The method `updateFlagsWithCarry`; `result` is a `uint16`. -/
def updateFlagsWithCarry (c : Intel8008) (result : Nat) : Intel8008 :=
  let c := { c with Flags := { c.Flags with Carry := decide (result > 0xFF) } }
  updateFlags c (result % 256)

/-- The method `updateFlagsWithBorrow`; `result` is a `uint16`. -/
def updateFlagsWithBorrow (c : Intel8008) (result : Nat) : Intel8008 :=
  let c := { c with Flags := { c.Flags with Carry := decide (result > 0xFF) } }
  updateFlags c (result % 256)

/-- The method `updateCompareFlags`; `a` and `value` are bytes. -/
def updateCompareFlags (c : Intel8008) (a value : Nat) : Intel8008 :=
  let result := (a + 256 - value) % 256
  let c := { c with Flags := { c.Flags with Carry := decide (a < value) } }
  let c := { c with Flags := { c.Flags with Zero := result == 0 } }
  let c := { c with Flags := { c.Flags with Sign := (result &&& 0x80) != 0 } }
  let c := { c with Flags := { c.Flags with Parity := calculateParity result } }
  c

/-- The method `WaitForCycles`: the counter grows by `cycles`; the sleeping
and spinning that follow change no field. -/
def WaitForCycles (c : Intel8008) (cycles : Nat) : Intel8008 :=
  { c with Cycles := c.Cycles + cycles }

/-- The method `executeImmediate`; `value` is the byte after the opcode. -/
def executeImmediate (c : Intel8008) (instruction : Instruction) (value : Nat) : Outcome :=
  if instruction.Mnemonic = "LAI" then
    let c := { c with A := value }
    Outcome.ok c
  else if instruction.Mnemonic = "LBI" then
    let c := { c with B := value }
    Outcome.ok c
  else if instruction.Mnemonic = "LCI" then
    let c := { c with C := value }
    Outcome.ok c
  else if instruction.Mnemonic = "LDI" then
    let c := { c with D := value }
    Outcome.ok c
  else if instruction.Mnemonic = "LEI" then
    let c := { c with E := value }
    Outcome.ok c
  else if instruction.Mnemonic = "LHI" then
    let c := { c with H := value }
    Outcome.ok c
  else if instruction.Mnemonic = "LLI" then
    let c := { c with L := value }
    Outcome.ok c
  else if instruction.Mnemonic = "LMI" then
    let addr := ((c.H <<< 8) % 65536) ||| c.L
    Outcome.write c addr (value) fun c =>
    Outcome.ok c
  else if instruction.Mnemonic = "ADI" then
    let result := (c.A + value) % 65536
    let c := { c with A := result % 256 }
    let c := { c with Flags := { c.Flags with Carry := decide (result > 0xFF) } }
    let c := { c with Flags := { c.Flags with Zero := c.A == 0 } }
    let c := { c with Flags := { c.Flags with Sign := (c.A &&& 0x80) != 0 } }
    let c := { c with Flags := { c.Flags with Parity := calculateParity c.A } }
    Outcome.ok c
  else if instruction.Mnemonic = "ACI" then
    let result := (c.A + value) % 65536
    let result := if c.Flags.Carry then (result + 1) % 65536 else result
    let c := { c with A := result % 256 }
    let c := { c with Flags := { c.Flags with Carry := decide (result > 0xFF) } }
    let c := { c with Flags := { c.Flags with Zero := c.A == 0 } }
    let c := { c with Flags := { c.Flags with Sign := (c.A &&& 0x80) != 0 } }
    let c := { c with Flags := { c.Flags with Parity := calculateParity c.A } }
    Outcome.ok c
  else if instruction.Mnemonic = "SUI" then
    let result := (c.A + 65536 - value) % 65536
    let c := { c with A := result % 256 }
    let c := { c with Flags := { c.Flags with Carry := decide (result > 0xFF) } }
    let c := { c with Flags := { c.Flags with Zero := c.A == 0 } }
    let c := { c with Flags := { c.Flags with Sign := (c.A &&& 0x80) != 0 } }
    let c := { c with Flags := { c.Flags with Parity := calculateParity c.A } }
    Outcome.ok c
  else if instruction.Mnemonic = "SBI" then
    let result := (c.A + 65536 - value) % 65536
    let result := if c.Flags.Carry then (result + 65535) % 65536 else result
    let c := { c with A := result % 256 }
    let c := { c with Flags := { c.Flags with Carry := decide (result > 0xFF) } }
    let c := { c with Flags := { c.Flags with Zero := c.A == 0 } }
    let c := { c with Flags := { c.Flags with Sign := (c.A &&& 0x80) != 0 } }
    let c := { c with Flags := { c.Flags with Parity := calculateParity c.A } }
    Outcome.ok c
  else if instruction.Mnemonic = "NDI" then
    let c := { c with A := c.A &&& value }
    let c := { c with Flags := { c.Flags with Zero := c.A == 0 } }
    let c := { c with Flags := { c.Flags with Sign := (c.A &&& 0x80) != 0 } }
    let c := { c with Flags := { c.Flags with Parity := calculateParity c.A } }
    Outcome.ok c
  else if instruction.Mnemonic = "XRI" then
    let c := { c with A := c.A ^^^ value }
    let c := { c with Flags := { c.Flags with Zero := c.A == 0 } }
    let c := { c with Flags := { c.Flags with Sign := (c.A &&& 0x80) != 0 } }
    let c := { c with Flags := { c.Flags with Parity := calculateParity c.A } }
    Outcome.ok c
  else if instruction.Mnemonic = "ORI" then
    let c := { c with A := c.A ||| value }
    let c := { c with Flags := { c.Flags with Zero := c.A == 0 } }
    let c := { c with Flags := { c.Flags with Sign := (c.A &&& 0x80) != 0 } }
    let c := { c with Flags := { c.Flags with Parity := calculateParity c.A } }
    Outcome.ok c
  else if instruction.Mnemonic = "CPI" then
    let c := updateCompareFlags c c.A value
    Outcome.ok c
  else
    Outcome.stop c (Fault.notImplemented instruction.Mnemonic)

/-- The method `executeAbsolute`; `addr` is the 16-bit operand. -/
def executeAbsolute (c : Intel8008) (instruction : Instruction) (addr : Nat) : Outcome :=
  if instruction.Mnemonic = "JMP" then
    let c := { c with PC := addr }
    Outcome.ok c
  else if instruction.Mnemonic = "CAL" then
    let c := { c with SP := (c.SP + 255) % 256 }
    Outcome.write c c.SP ((c.PC >>> 8) % 256) fun c =>
    let c := { c with SP := (c.SP + 255) % 256 }
    Outcome.write c c.SP (c.PC % 256) fun c =>
    let c := { c with PC := addr }
    Outcome.ok c
  else if instruction.Mnemonic = "JFC" then
    let c := if !c.Flags.Carry then { c with PC := addr } else c
    Outcome.ok c
  else if instruction.Mnemonic = "JFZ" then
    let c := if !c.Flags.Zero then { c with PC := addr } else c
    Outcome.ok c
  else if instruction.Mnemonic = "JFS" then
    let c := if !c.Flags.Sign then { c with PC := addr } else c
    Outcome.ok c
  else if instruction.Mnemonic = "JFP" then
    let c := if !c.Flags.Parity then { c with PC := addr } else c
    Outcome.ok c
  else if instruction.Mnemonic = "JTC" then
    let c := if c.Flags.Carry then { c with PC := addr } else c
    Outcome.ok c
  else if instruction.Mnemonic = "JTZ" then
    let c := if c.Flags.Zero then { c with PC := addr } else c
    Outcome.ok c
  else if instruction.Mnemonic = "JTS" then
    let c := if c.Flags.Sign then { c with PC := addr } else c
    Outcome.ok c
  else if instruction.Mnemonic = "JTP" then
    let c := if c.Flags.Parity then { c with PC := addr } else c
    Outcome.ok c
  else if instruction.Mnemonic = "CFC" then
    if !c.Flags.Carry then
      let c := { c with SP := (c.SP + 255) % 256 }
      Outcome.write c c.SP ((c.PC >>> 8) % 256) fun c =>
      let c := { c with SP := (c.SP + 255) % 256 }
      Outcome.write c c.SP (c.PC % 256) fun c =>
      let c := { c with PC := addr }
      Outcome.ok c
    else
      Outcome.ok c
  else if instruction.Mnemonic = "CFZ" then
    if !c.Flags.Zero then
      let c := { c with SP := (c.SP + 255) % 256 }
      Outcome.write c c.SP ((c.PC >>> 8) % 256) fun c =>
      let c := { c with SP := (c.SP + 255) % 256 }
      Outcome.write c c.SP (c.PC % 256) fun c =>
      let c := { c with PC := addr }
      Outcome.ok c
    else
      Outcome.ok c
  else if instruction.Mnemonic = "CFS" then
    if !c.Flags.Sign then
      let c := { c with SP := (c.SP + 255) % 256 }
      Outcome.write c c.SP ((c.PC >>> 8) % 256) fun c =>
      let c := { c with SP := (c.SP + 255) % 256 }
      Outcome.write c c.SP (c.PC % 256) fun c =>
      let c := { c with PC := addr }
      Outcome.ok c
    else
      Outcome.ok c
  else if instruction.Mnemonic = "CFP" then
    if !c.Flags.Parity then
      let c := { c with SP := (c.SP + 255) % 256 }
      Outcome.write c c.SP ((c.PC >>> 8) % 256) fun c =>
      let c := { c with SP := (c.SP + 255) % 256 }
      Outcome.write c c.SP (c.PC % 256) fun c =>
      let c := { c with PC := addr }
      Outcome.ok c
    else
      Outcome.ok c
  else if instruction.Mnemonic = "CTC" then
    if c.Flags.Carry then
      let c := { c with SP := (c.SP + 255) % 256 }
      Outcome.write c c.SP ((c.PC >>> 8) % 256) fun c =>
      let c := { c with SP := (c.SP + 255) % 256 }
      Outcome.write c c.SP (c.PC % 256) fun c =>
      let c := { c with PC := addr }
      Outcome.ok c
    else
      Outcome.ok c
  else if instruction.Mnemonic = "CTZ" then
    if c.Flags.Zero then
      let c := { c with SP := (c.SP + 255) % 256 }
      Outcome.write c c.SP ((c.PC >>> 8) % 256) fun c =>
      let c := { c with SP := (c.SP + 255) % 256 }
      Outcome.write c c.SP (c.PC % 256) fun c =>
      let c := { c with PC := addr }
      Outcome.ok c
    else
      Outcome.ok c
  else if instruction.Mnemonic = "CTS" then
    if c.Flags.Sign then
      let c := { c with SP := (c.SP + 255) % 256 }
      Outcome.write c c.SP ((c.PC >>> 8) % 256) fun c =>
      let c := { c with SP := (c.SP + 255) % 256 }
      Outcome.write c c.SP (c.PC % 256) fun c =>
      let c := { c with PC := addr }
      Outcome.ok c
    else
      Outcome.ok c
  else if instruction.Mnemonic = "CTP" then
    if c.Flags.Parity then
      let c := { c with SP := (c.SP + 255) % 256 }
      Outcome.write c c.SP ((c.PC >>> 8) % 256) fun c =>
      let c := { c with SP := (c.SP + 255) % 256 }
      Outcome.write c c.SP (c.PC % 256) fun c =>
      let c := { c with PC := addr }
      Outcome.ok c
    else
      Outcome.ok c
  else
    Outcome.stop c (Fault.notImplemented instruction.Mnemonic)

/-- The method `executeImplied`. -/
def executeImplied (c : Intel8008) (instruction : Instruction) : Outcome :=
  if instruction.Mnemonic = "LAB" then
    let c := { c with A := c.B }
    Outcome.ok c
  else if instruction.Mnemonic = "LAC" then
    let c := { c with A := c.C }
    Outcome.ok c
  else if instruction.Mnemonic = "LAD" then
    let c := { c with A := c.D }
    Outcome.ok c
  else if instruction.Mnemonic = "LAE" then
    let c := { c with A := c.E }
    Outcome.ok c
  else if instruction.Mnemonic = "LAH" then
    let c := { c with A := c.H }
    Outcome.ok c
  else if instruction.Mnemonic = "LAL" then
    let c := { c with A := c.L }
    Outcome.ok c
  else if instruction.Mnemonic = "LAM" then
    let addr := ((c.H <<< 8) % 65536) ||| c.L
    Outcome.read c addr fun m =>
    let c := { c with A := m }
    Outcome.ok c
  else if instruction.Mnemonic = "LBA" then
    let c := { c with B := c.A }
    Outcome.ok c
  else if instruction.Mnemonic = "LBC" then
    let c := { c with B := c.C }
    Outcome.ok c
  else if instruction.Mnemonic = "LBD" then
    let c := { c with B := c.D }
    Outcome.ok c
  else if instruction.Mnemonic = "LBE" then
    let c := { c with B := c.E }
    Outcome.ok c
  else if instruction.Mnemonic = "LBH" then
    let c := { c with B := c.H }
    Outcome.ok c
  else if instruction.Mnemonic = "LBL" then
    let c := { c with B := c.L }
    Outcome.ok c
  else if instruction.Mnemonic = "LBM" then
    let addr := ((c.H <<< 8) % 65536) ||| c.L
    Outcome.read c addr fun m =>
    let c := { c with B := m }
    Outcome.ok c
  else if instruction.Mnemonic = "LCA" then
    let c := { c with C := c.A }
    Outcome.ok c
  else if instruction.Mnemonic = "LCB" then
    let c := { c with C := c.B }
    Outcome.ok c
  else if instruction.Mnemonic = "LCD" then
    let c := { c with C := c.D }
    Outcome.ok c
  else if instruction.Mnemonic = "LCE" then
    let c := { c with C := c.E }
    Outcome.ok c
  else if instruction.Mnemonic = "LCH" then
    let c := { c with C := c.H }
    Outcome.ok c
  else if instruction.Mnemonic = "LCL" then
    let c := { c with C := c.L }
    Outcome.ok c
  else if instruction.Mnemonic = "LCM" then
    let addr := ((c.H <<< 8) % 65536) ||| c.L
    Outcome.read c addr fun m =>
    let c := { c with C := m }
    Outcome.ok c
  else if instruction.Mnemonic = "LDA" then
    let c := { c with D := c.A }
    Outcome.ok c
  else if instruction.Mnemonic = "LDB" then
    let c := { c with D := c.B }
    Outcome.ok c
  else if instruction.Mnemonic = "LDC" then
    let c := { c with D := c.C }
    Outcome.ok c
  else if instruction.Mnemonic = "LDE" then
    let c := { c with D := c.E }
    Outcome.ok c
  else if instruction.Mnemonic = "LDH" then
    let c := { c with D := c.H }
    Outcome.ok c
  else if instruction.Mnemonic = "LDL" then
    let c := { c with D := c.L }
    Outcome.ok c
  else if instruction.Mnemonic = "LDM" then
    let addr := ((c.H <<< 8) % 65536) ||| c.L
    Outcome.read c addr fun m =>
    let c := { c with D := m }
    Outcome.ok c
  else if instruction.Mnemonic = "LEA" then
    let c := { c with E := c.A }
    Outcome.ok c
  else if instruction.Mnemonic = "LEB" then
    let c := { c with E := c.B }
    Outcome.ok c
  else if instruction.Mnemonic = "LEC" then
    let c := { c with E := c.C }
    Outcome.ok c
  else if instruction.Mnemonic = "LED" then
    let c := { c with E := c.D }
    Outcome.ok c
  else if instruction.Mnemonic = "LEH" then
    let c := { c with E := c.H }
    Outcome.ok c
  else if instruction.Mnemonic = "LEL" then
    let c := { c with E := c.L }
    Outcome.ok c
  else if instruction.Mnemonic = "LEM" then
    let addr := ((c.H <<< 8) % 65536) ||| c.L
    Outcome.read c addr fun m =>
    let c := { c with E := m }
    Outcome.ok c
  else if instruction.Mnemonic = "LHA" then
    let c := { c with H := c.A }
    Outcome.ok c
  else if instruction.Mnemonic = "LHB" then
    let c := { c with H := c.B }
    Outcome.ok c
  else if instruction.Mnemonic = "LHC" then
    let c := { c with H := c.C }
    Outcome.ok c
  else if instruction.Mnemonic = "LHD" then
    let c := { c with H := c.D }
    Outcome.ok c
  else if instruction.Mnemonic = "LHE" then
    let c := { c with H := c.E }
    Outcome.ok c
  else if instruction.Mnemonic = "LHL" then
    let c := { c with H := c.L }
    Outcome.ok c
  else if instruction.Mnemonic = "LHM" then
    let addr := ((c.H <<< 8) % 65536) ||| c.L
    Outcome.read c addr fun m =>
    let c := { c with H := m }
    Outcome.ok c
  else if instruction.Mnemonic = "LLA" then
    let c := { c with L := c.A }
    Outcome.ok c
  else if instruction.Mnemonic = "LLB" then
    let c := { c with L := c.B }
    Outcome.ok c
  else if instruction.Mnemonic = "LLC" then
    let c := { c with L := c.C }
    Outcome.ok c
  else if instruction.Mnemonic = "LLD" then
    let c := { c with L := c.D }
    Outcome.ok c
  else if instruction.Mnemonic = "LLE" then
    let c := { c with L := c.E }
    Outcome.ok c
  else if instruction.Mnemonic = "LLH" then
    let c := { c with L := c.H }
    Outcome.ok c
  else if instruction.Mnemonic = "LLM" then
    let addr := ((c.H <<< 8) % 65536) ||| c.L
    Outcome.read c addr fun m =>
    let c := { c with L := m }
    Outcome.ok c
  else if instruction.Mnemonic = "LMA" then
    let addr := ((c.H <<< 8) % 65536) ||| c.L
    Outcome.write c addr (c.A) fun c =>
    Outcome.ok c
  else if instruction.Mnemonic = "LMB" then
    let addr := ((c.H <<< 8) % 65536) ||| c.L
    Outcome.write c addr (c.B) fun c =>
    Outcome.ok c
  else if instruction.Mnemonic = "LMC" then
    let addr := ((c.H <<< 8) % 65536) ||| c.L
    Outcome.write c addr (c.C) fun c =>
    Outcome.ok c
  else if instruction.Mnemonic = "LMD" then
    let addr := ((c.H <<< 8) % 65536) ||| c.L
    Outcome.write c addr (c.D) fun c =>
    Outcome.ok c
  else if instruction.Mnemonic = "LME" then
    let addr := ((c.H <<< 8) % 65536) ||| c.L
    Outcome.write c addr (c.E) fun c =>
    Outcome.ok c
  else if instruction.Mnemonic = "LMH" then
    let addr := ((c.H <<< 8) % 65536) ||| c.L
    Outcome.write c addr (c.H) fun c =>
    Outcome.ok c
  else if instruction.Mnemonic = "LML" then
    let addr := ((c.H <<< 8) % 65536) ||| c.L
    Outcome.write c addr (c.L) fun c =>
    Outcome.ok c
  else if instruction.Mnemonic = "INB" then
    let c := { c with B := (c.B + 1) % 256 }
    let c := updateFlags c c.B
    Outcome.ok c
  else if instruction.Mnemonic = "INC" then
    let c := { c with C := (c.C + 1) % 256 }
    let c := updateFlags c c.C
    Outcome.ok c
  else if instruction.Mnemonic = "IND" then
    let c := { c with D := (c.D + 1) % 256 }
    let c := updateFlags c c.D
    Outcome.ok c
  else if instruction.Mnemonic = "INE" then
    let c := { c with E := (c.E + 1) % 256 }
    let c := updateFlags c c.E
    Outcome.ok c
  else if instruction.Mnemonic = "INH" then
    let c := { c with H := (c.H + 1) % 256 }
    let c := updateFlags c c.H
    Outcome.ok c
  else if instruction.Mnemonic = "INL" then
    let c := { c with L := (c.L + 1) % 256 }
    let c := updateFlags c c.L
    Outcome.ok c
  else if instruction.Mnemonic = "DCB" then
    let c := { c with B := (c.B + 255) % 256 }
    let c := updateFlags c c.B
    Outcome.ok c
  else if instruction.Mnemonic = "DCC" then
    let c := { c with C := (c.C + 255) % 256 }
    let c := updateFlags c c.C
    Outcome.ok c
  else if instruction.Mnemonic = "DCD" then
    let c := { c with D := (c.D + 255) % 256 }
    let c := updateFlags c c.D
    Outcome.ok c
  else if instruction.Mnemonic = "DCE" then
    let c := { c with E := (c.E + 255) % 256 }
    let c := updateFlags c c.E
    Outcome.ok c
  else if instruction.Mnemonic = "DCH" then
    let c := { c with H := (c.H + 255) % 256 }
    let c := updateFlags c c.H
    Outcome.ok c
  else if instruction.Mnemonic = "DCL" then
    let c := { c with L := (c.L + 255) % 256 }
    let c := updateFlags c c.L
    Outcome.ok c
  else if instruction.Mnemonic = "ADA" then
    let result := (c.A + c.A) % 65536
    let c := { c with A := result % 256 }
    let c := updateFlagsWithCarry c result
    Outcome.ok c
  else if instruction.Mnemonic = "ADB" then
    let result := (c.A + c.B) % 65536
    let c := { c with A := result % 256 }
    let c := updateFlagsWithCarry c result
    Outcome.ok c
  else if instruction.Mnemonic = "ADC" then
    let result := (c.A + c.C) % 65536
    let c := { c with A := result % 256 }
    let c := updateFlagsWithCarry c result
    Outcome.ok c
  else if instruction.Mnemonic = "ADD" then
    let result := (c.A + c.D) % 65536
    let c := { c with A := result % 256 }
    let c := updateFlagsWithCarry c result
    Outcome.ok c
  else if instruction.Mnemonic = "ADE" then
    let result := (c.A + c.E) % 65536
    let c := { c with A := result % 256 }
    let c := updateFlagsWithCarry c result
    Outcome.ok c
  else if instruction.Mnemonic = "ADH" then
    let result := (c.A + c.H) % 65536
    let c := { c with A := result % 256 }
    let c := updateFlagsWithCarry c result
    Outcome.ok c
  else if instruction.Mnemonic = "ADL" then
    let result := (c.A + c.L) % 65536
    let c := { c with A := result % 256 }
    let c := updateFlagsWithCarry c result
    Outcome.ok c
  else if instruction.Mnemonic = "ADM" then
    let addr := ((c.H <<< 8) % 65536) ||| c.L
    Outcome.read c addr fun m =>
    let result := (c.A + m) % 65536
    let c := { c with A := result % 256 }
    let c := updateFlagsWithCarry c result
    Outcome.ok c
  else if instruction.Mnemonic = "ACA" then
    let result := (c.A + c.A) % 65536
    let result := if c.Flags.Carry then (result + 1) % 65536 else result
    let c := { c with A := result % 256 }
    let c := updateFlagsWithCarry c result
    Outcome.ok c
  else if instruction.Mnemonic = "ACB" then
    let result := (c.A + c.B) % 65536
    let result := if c.Flags.Carry then (result + 1) % 65536 else result
    let c := { c with A := result % 256 }
    let c := updateFlagsWithCarry c result
    Outcome.ok c
  else if instruction.Mnemonic = "ACC" then
    let result := (c.A + c.C) % 65536
    let result := if c.Flags.Carry then (result + 1) % 65536 else result
    let c := { c with A := result % 256 }
    let c := updateFlagsWithCarry c result
    Outcome.ok c
  else if instruction.Mnemonic = "ACD" then
    let result := (c.A + c.D) % 65536
    let result := if c.Flags.Carry then (result + 1) % 65536 else result
    let c := { c with A := result % 256 }
    let c := updateFlagsWithCarry c result
    Outcome.ok c
  else if instruction.Mnemonic = "ACE" then
    let result := (c.A + c.E) % 65536
    let result := if c.Flags.Carry then (result + 1) % 65536 else result
    let c := { c with A := result % 256 }
    let c := updateFlagsWithCarry c result
    Outcome.ok c
  else if instruction.Mnemonic = "ACH" then
    let result := (c.A + c.H) % 65536
    let result := if c.Flags.Carry then (result + 1) % 65536 else result
    let c := { c with A := result % 256 }
    let c := updateFlagsWithCarry c result
    Outcome.ok c
  else if instruction.Mnemonic = "ACL" then
    let result := (c.A + c.L) % 65536
    let result := if c.Flags.Carry then (result + 1) % 65536 else result
    let c := { c with A := result % 256 }
    let c := updateFlagsWithCarry c result
    Outcome.ok c
  else if instruction.Mnemonic = "ACM" then
    let addr := ((c.H <<< 8) % 65536) ||| c.L
    Outcome.read c addr fun m =>
    let result := (c.A + m) % 65536
    let result := if c.Flags.Carry then (result + 1) % 65536 else result
    let c := { c with A := result % 256 }
    let c := updateFlagsWithCarry c result
    Outcome.ok c
  else if instruction.Mnemonic = "SUA" then
    let result := (c.A + 65536 - c.A) % 65536
    let c := { c with A := result % 256 }
    let c := updateFlagsWithBorrow c result
    Outcome.ok c
  else if instruction.Mnemonic = "SUB" then
    let result := (c.A + 65536 - c.B) % 65536
    let c := { c with A := result % 256 }
    let c := updateFlagsWithBorrow c result
    Outcome.ok c
  else if instruction.Mnemonic = "SUC" then
    let result := (c.A + 65536 - c.C) % 65536
    let c := { c with A := result % 256 }
    let c := updateFlagsWithBorrow c result
    Outcome.ok c
  else if instruction.Mnemonic = "SUD" then
    let result := (c.A + 65536 - c.D) % 65536
    let c := { c with A := result % 256 }
    let c := updateFlagsWithBorrow c result
    Outcome.ok c
  else if instruction.Mnemonic = "SUE" then
    let result := (c.A + 65536 - c.E) % 65536
    let c := { c with A := result % 256 }
    let c := updateFlagsWithBorrow c result
    Outcome.ok c
  else if instruction.Mnemonic = "SUH" then
    let result := (c.A + 65536 - c.H) % 65536
    let c := { c with A := result % 256 }
    let c := updateFlagsWithBorrow c result
    Outcome.ok c
  else if instruction.Mnemonic = "SUL" then
    let result := (c.A + 65536 - c.L) % 65536
    let c := { c with A := result % 256 }
    let c := updateFlagsWithBorrow c result
    Outcome.ok c
  else if instruction.Mnemonic = "SUM" then
    let addr := ((c.H <<< 8) % 65536) ||| c.L
    Outcome.read c addr fun m =>
    let result := (c.A + 65536 - m) % 65536
    let c := { c with A := result % 256 }
    let c := updateFlagsWithBorrow c result
    Outcome.ok c
  else if instruction.Mnemonic = "SBA" then
    let result := (c.A + 65536 - c.A) % 65536
    let result := if c.Flags.Carry then (result + 65535) % 65536 else result
    let c := { c with A := result % 256 }
    let c := updateFlagsWithBorrow c result
    Outcome.ok c
  else if instruction.Mnemonic = "SBB" then
    let result := (c.A + 65536 - c.B) % 65536
    let result := if c.Flags.Carry then (result + 65535) % 65536 else result
    let c := { c with A := result % 256 }
    let c := updateFlagsWithBorrow c result
    Outcome.ok c
  else if instruction.Mnemonic = "SBC" then
    let result := (c.A + 65536 - c.C) % 65536
    let result := if c.Flags.Carry then (result + 65535) % 65536 else result
    let c := { c with A := result % 256 }
    let c := updateFlagsWithBorrow c result
    Outcome.ok c
  else if instruction.Mnemonic = "SBD" then
    let result := (c.A + 65536 - c.D) % 65536
    let result := if c.Flags.Carry then (result + 65535) % 65536 else result
    let c := { c with A := result % 256 }
    let c := updateFlagsWithBorrow c result
    Outcome.ok c
  else if instruction.Mnemonic = "SBE" then
    let result := (c.A + 65536 - c.E) % 65536
    let result := if c.Flags.Carry then (result + 65535) % 65536 else result
    let c := { c with A := result % 256 }
    let c := updateFlagsWithBorrow c result
    Outcome.ok c
  else if instruction.Mnemonic = "SBH" then
    let result := (c.A + 65536 - c.H) % 65536
    let result := if c.Flags.Carry then (result + 65535) % 65536 else result
    let c := { c with A := result % 256 }
    let c := updateFlagsWithBorrow c result
    Outcome.ok c
  else if instruction.Mnemonic = "SBL" then
    let result := (c.A + 65536 - c.L) % 65536
    let result := if c.Flags.Carry then (result + 65535) % 65536 else result
    let c := { c with A := result % 256 }
    let c := updateFlagsWithBorrow c result
    Outcome.ok c
  else if instruction.Mnemonic = "SBM" then
    let addr := ((c.H <<< 8) % 65536) ||| c.L
    Outcome.read c addr fun m =>
    let result := (c.A + 65536 - m) % 65536
    let result := if c.Flags.Carry then (result + 65535) % 65536 else result
    let c := { c with A := result % 256 }
    let c := updateFlagsWithBorrow c result
    Outcome.ok c
  else if instruction.Mnemonic = "NDA" then
    let c := { c with A := c.A &&& c.A }
    let c := updateFlags c c.A
    Outcome.ok c
  else if instruction.Mnemonic = "NDB" then
    let c := { c with A := c.A &&& c.B }
    let c := updateFlags c c.A
    Outcome.ok c
  else if instruction.Mnemonic = "NDC" then
    let c := { c with A := c.A &&& c.C }
    let c := updateFlags c c.A
    Outcome.ok c
  else if instruction.Mnemonic = "NDD" then
    let c := { c with A := c.A &&& c.D }
    let c := updateFlags c c.A
    Outcome.ok c
  else if instruction.Mnemonic = "NDE" then
    let c := { c with A := c.A &&& c.E }
    let c := updateFlags c c.A
    Outcome.ok c
  else if instruction.Mnemonic = "NDH" then
    let c := { c with A := c.A &&& c.H }
    let c := updateFlags c c.A
    Outcome.ok c
  else if instruction.Mnemonic = "NDL" then
    let c := { c with A := c.A &&& c.L }
    let c := updateFlags c c.A
    Outcome.ok c
  else if instruction.Mnemonic = "NDM" then
    let addr := ((c.H <<< 8) % 65536) ||| c.L
    Outcome.read c addr fun m =>
    let c := { c with A := c.A &&& m }
    let c := updateFlags c c.A
    Outcome.ok c
  else if instruction.Mnemonic = "XRA" then
    let c := { c with A := c.A ^^^ c.A }
    let c := updateFlags c c.A
    Outcome.ok c
  else if instruction.Mnemonic = "XRB" then
    let c := { c with A := c.A ^^^ c.B }
    let c := updateFlags c c.A
    Outcome.ok c
  else if instruction.Mnemonic = "XRC" then
    let c := { c with A := c.A ^^^ c.C }
    let c := updateFlags c c.A
    Outcome.ok c
  else if instruction.Mnemonic = "XRD" then
    let c := { c with A := c.A ^^^ c.D }
    let c := updateFlags c c.A
    Outcome.ok c
  else if instruction.Mnemonic = "XRE" then
    let c := { c with A := c.A ^^^ c.E }
    let c := updateFlags c c.A
    Outcome.ok c
  else if instruction.Mnemonic = "XRH" then
    let c := { c with A := c.A ^^^ c.H }
    let c := updateFlags c c.A
    Outcome.ok c
  else if instruction.Mnemonic = "XRL" then
    let c := { c with A := c.A ^^^ c.L }
    let c := updateFlags c c.A
    Outcome.ok c
  else if instruction.Mnemonic = "XRM" then
    let addr := ((c.H <<< 8) % 65536) ||| c.L
    Outcome.read c addr fun m =>
    let c := { c with A := c.A ^^^ m }
    let c := updateFlags c c.A
    Outcome.ok c
  else if instruction.Mnemonic = "ORA" then
    let c := { c with A := c.A ||| c.A }
    let c := updateFlags c c.A
    Outcome.ok c
  else if instruction.Mnemonic = "ORB" then
    let c := { c with A := c.A ||| c.B }
    let c := updateFlags c c.A
    Outcome.ok c
  else if instruction.Mnemonic = "ORC" then
    let c := { c with A := c.A ||| c.C }
    let c := updateFlags c c.A
    Outcome.ok c
  else if instruction.Mnemonic = "ORD" then
    let c := { c with A := c.A ||| c.D }
    let c := updateFlags c c.A
    Outcome.ok c
  else if instruction.Mnemonic = "ORE" then
    let c := { c with A := c.A ||| c.E }
    let c := updateFlags c c.A
    Outcome.ok c
  else if instruction.Mnemonic = "ORH" then
    let c := { c with A := c.A ||| c.H }
    let c := updateFlags c c.A
    Outcome.ok c
  else if instruction.Mnemonic = "ORL" then
    let c := { c with A := c.A ||| c.L }
    let c := updateFlags c c.A
    Outcome.ok c
  else if instruction.Mnemonic = "ORM" then
    let addr := ((c.H <<< 8) % 65536) ||| c.L
    Outcome.read c addr fun m =>
    let c := { c with A := c.A ||| m }
    let c := updateFlags c c.A
    Outcome.ok c
  else if instruction.Mnemonic = "CPA" then
    let c := updateCompareFlags c c.A c.A
    Outcome.ok c
  else if instruction.Mnemonic = "CPB" then
    let c := updateCompareFlags c c.A c.B
    Outcome.ok c
  else if instruction.Mnemonic = "CPC" then
    let c := updateCompareFlags c c.A c.C
    Outcome.ok c
  else if instruction.Mnemonic = "CPD" then
    let c := updateCompareFlags c c.A c.D
    Outcome.ok c
  else if instruction.Mnemonic = "CPE" then
    let c := updateCompareFlags c c.A c.E
    Outcome.ok c
  else if instruction.Mnemonic = "CPH" then
    let c := updateCompareFlags c c.A c.H
    Outcome.ok c
  else if instruction.Mnemonic = "CPL" then
    let c := updateCompareFlags c c.A c.L
    Outcome.ok c
  else if instruction.Mnemonic = "CPM" then
    let addr := ((c.H <<< 8) % 65536) ||| c.L
    Outcome.read c addr fun m =>
    let c := updateCompareFlags c c.A m
    Outcome.ok c
  else if instruction.Mnemonic = "RLC" then
    let carry := (c.A &&& 0x80) != 0
    let c := { c with A := ((c.A <<< 1) % 256) ||| (c.A >>> 7) }
    let c := { c with Flags := { c.Flags with Carry := carry } }
    Outcome.ok c
  else if instruction.Mnemonic = "RRC" then
    let carry := (c.A &&& 0x01) != 0
    let c := { c with A := (c.A >>> 1) ||| ((c.A <<< 7) % 256) }
    let c := { c with Flags := { c.Flags with Carry := carry } }
    Outcome.ok c
  else if instruction.Mnemonic = "RAL" then
    let oldCarry := c.Flags.Carry
    let c := { c with Flags := { c.Flags with Carry := (c.A &&& 0x80) != 0 } }
    let c := { c with A := (c.A <<< 1) % 256 }
    let c := if oldCarry then { c with A := c.A ||| 0x01 } else c
    Outcome.ok c
  else if instruction.Mnemonic = "RAR" then
    let oldCarry := c.Flags.Carry
    let c := { c with Flags := { c.Flags with Carry := (c.A &&& 0x01) != 0 } }
    let c := { c with A := c.A >>> 1 }
    let c := if oldCarry then { c with A := c.A ||| 0x80 } else c
    Outcome.ok c
  else if instruction.Mnemonic = "RET" then
    Outcome.read c c.SP fun lo =>
    Outcome.read c ((c.SP + 1) % 256) fun hi =>
    let c := { c with PC := lo ||| ((hi <<< 8) % 65536) }
    let c := { c with SP := (c.SP + 2) % 256 }
    Outcome.ok c
  else if instruction.Mnemonic = "HLT" then
    Outcome.stop c (Fault.exit 0)
  else
    Outcome.stop c (Fault.notImplemented instruction.Mnemonic)

/-- The method `executeRelative`: its `switch` has the default case only. -/
def executeRelative (c : Intel8008) (instruction : Instruction) (_offset : Int) : Outcome :=
  Outcome.stop c (Fault.notImplemented instruction.Mnemonic)

/-- The method `ExecuteInstruction`: fetch the opcode at `PC`, look it up,
advance `PC` past the instruction, run the handler of the addressing mode, then
count the cycles.  The verbose trace prints only. -/
def ExecuteInstruction (c : Intel8008) : Outcome :=
  Outcome.read c c.PC fun opcode =>
  match lookupInstruction c.Instructions opcode with
  | none => Outcome.stop c (Fault.unknownOpcode opcode c.PC)
  | some instruction =>
    Outcome.andThen
      (match instruction.Mode with
      | .Immediate =>
        Outcome.read c ((c.PC + 1) % 65536) fun value =>
        let c := { c with PC := (c.PC + 2) % 65536 }
        executeImmediate c instruction value
      | .Absolute =>
        Outcome.read c ((c.PC + 1) % 65536) fun low =>
        Outcome.read c ((c.PC + 2) % 65536) fun high =>
        let addr := low ||| ((high <<< 8) % 65536)
        let c := { c with PC := (c.PC + 3) % 65536 }
        executeAbsolute c instruction addr
      | .Relative =>
        Outcome.read c ((c.PC + 1) % 65536) fun b =>
        let offset : Int := if b < 128 then (b : Int) else (b : Int) - 256
        let c := { c with PC := (c.PC + 2) % 65536 }
        executeRelative c instruction offset
      | .Implied =>
        let c := { c with PC := (c.PC + 1) % 65536 }
        executeImplied c instruction)
      fun c => Outcome.ok (WaitForCycles c instruction.Cycles)

/-- The method `CPU.Run`: the start time is noted, the engine is marked running
and the cycle counter is reset. -/
def CPU.Run (c : Intel8008) : Intel8008 :=
  { c with running := true, Cycles := 0 }

/-- The method `CPU.Stop`: a running engine notes the stop time and is marked
not running. -/
def CPU.Stop (c : Intel8008) : Intel8008 :=
  if c.running then { c with running := false } else c

/-- The `for` loop of `Intel8008.Run`, cut off after `fuel` rounds: `none` says
the loop has not left within that many rounds.  A round fetches and decodes
the opcode at `PC`; on `HLT` it counts the cycles and leaves the loop, otherwise
it calls `ExecuteInstruction`. -/
def runLoop : Nat → Intel8008 → Option Outcome
  | 0, _ => none
  | fuel + 1, c =>
    match c.Memory[c.PC]? with
    | none => some (Outcome.stop c (Fault.indexOutOfRange c.PC))
    | some opcode =>
      match lookupInstruction c.Instructions opcode with
      | none => some (Outcome.stop c (Fault.unknownOpcode opcode c.PC))
      | some instruction =>
        if instruction.Mnemonic = "HLT" then
          some (Outcome.ok (WaitForCycles c instruction.Cycles))
        else
          let r := ExecuteInstruction c
          match r.fault with
          | none => runLoop fuel r.cpu
          | some _ => some r

/-- The method `Intel8008.Run`: `CPU.Run`, the loop, then `CPU.Stop`. -/
def Run (fuel : Nat) (c : Intel8008) : Option Outcome :=
  (runLoop fuel (CPU.Run c)).map fun r => Outcome.andThen r fun c => Outcome.ok (CPU.Stop c)

/-- The method `GetOpcodes`.  A Go map is here the list of its bindings, the
newest first, read with `List.lookup`; the assignment `opcodes[k] = v` puts
`(k, v)` in front.  `order` is the sequence in which `range` visits the entries
of the instruction map: some permutation of them, which the language leaves
unspecified. -/
def GetOpcodes (order : List (Nat × Instruction)) : List (String × Nat) :=
  order.foldl (fun opcodes e => (e.2.Mnemonic, e.1) :: opcodes) []

/-- The method `GetInstrSizes`, with the same reading of maps and of `order`. -/
def GetInstrSizes (order : List (Nat × Instruction)) : List (String × Nat) :=
  order.foldl (fun sizes e => (e.2.Mnemonic, e.2.Size) :: sizes) []

/-! ## Assembler and program loader

A shallow embedding of `assemble` and `handle8008Operand` of
`src/assembler/assembler.go` and of the loading loop of
`src/emulator/emulator.go`.

* A Go string is a Lean `String`, read as its sequence of characters; the
  source file is the list `lines` of the texts that `bufio.Scanner` yields, the
  same in both passes.
* The calls into the Go library (`strings.TrimSpace`, `strings.Fields`,
  `strings.HasPrefix`, `strings.HasSuffix`, `strings.TrimSuffix`,
  `strings.Index` with a one-character needle, `strconv.ParseUint` with base 16
  and bit size 16) are defined after the library's documented behaviour.
* Every `os.Exit(1)` of the assembler is an `AssemblyFault`; printing is left
  out.
-/

/-- The predicate `unicode.IsSpace`, by code point. -/
def isSpace (ch : Char) : Bool :=
  let n := ch.toNat
  n == 9 || n == 10 || n == 11 || n == 12 || n == 13 || n == 32 || n == 0x85 || n == 0xA0 ||
    n == 0x1680 || (0x2000 ≤ n && n ≤ 0x200A) || n == 0x2028 || n == 0x2029 || n == 0x202F ||
    n == 0x205F || n == 0x3000

/-- The function `strings.TrimSpace`: leading and trailing white space removed. -/
def TrimSpace (s : String) : String :=
  String.mk ((s.data.dropWhile isSpace).reverse.dropWhile isSpace).reverse

/-- The words of `strings.Fields` that start in the rest of the text, `word`
holding the characters of the current word, last first. -/
def fieldsFrom (word : List Char) : List Char → List String
  | [] => if word.isEmpty then [] else [String.mk word.reverse]
  | ch :: rest =>
    if isSpace ch then
      if word.isEmpty then fieldsFrom [] rest
      else String.mk word.reverse :: fieldsFrom [] rest
    else fieldsFrom (ch :: word) rest

/-- The function `strings.Fields`: the maximal runs of characters that are not
white space. -/
def Fields (s : String) : List String :=
  fieldsFrom [] s.data

/-- The function `strings.HasPrefix`. -/
def HasPrefix (s start : String) : Bool :=
  start.data.isPrefixOf s.data

/-- The function `strings.HasSuffix`. -/
def HasSuffix (s ending : String) : Bool :=
  ending.data.reverse.isPrefixOf s.data.reverse

/-- The function `strings.TrimSuffix`. -/
def TrimSuffix (s ending : String) : String :=
  if HasSuffix s ending then String.mk (s.data.take (s.data.length - ending.data.length)) else s

/-- The call `strings.Index(s, needle)` for a needle of one character: the
position of its first occurrence, `none` for Go's `-1`. -/
def Index (s : String) (needle : Char) : Option Nat :=
  if s.data.contains needle then some (s.data.takeWhile fun ch => ch != needle).length else none

/-- The value of a hexadecimal digit, as `strconv.ParseUint` reads it. -/
def hexDigit (ch : Char) : Option Nat :=
  let n := ch.toNat
  if 48 ≤ n ∧ n ≤ 57 then some (n - 48)
  else if 97 ≤ n ∧ n ≤ 102 then some (n - 87)
  else if 65 ≤ n ∧ n ≤ 70 then some (n - 55)
  else none

/-- The digit loop of `strconv.ParseUint(s, 16, 16)` with `n` read so far: the
value returned, and whether an error is returned with it.  A character that is
no digit gives 0 and a syntax error; a value above `0xFFFF` gives `0xFFFF` and
a range error. -/
def parseUintFrom (n : Nat) : List Char → Nat × Bool
  | [] => (n, false)
  | ch :: rest =>
    match hexDigit ch with
    | none => (0, true)
    | some d => if n * 16 + d > 0xFFFF then (0xFFFF, true) else parseUintFrom (n * 16 + d) rest

/-- The call `strconv.ParseUint(s, 16, 16)`; the empty string is a syntax error. -/
def ParseUint (s : String) : Nat × Bool :=
  if s.data.isEmpty then (0, true) else parseUintFrom 0 s.data

/-- The ways the assembler ends the process with `os.Exit(1)`, named after the
message printed, and the run-time error of indexing an empty slice. -/
inductive AssemblyFault
  | unsupportedCPU (cpuType : String)
  | unknownMnemonic (mnemonic : String)
  | unknownLabel (operand : String)
  | oversizeImmediate (mnemonic : String) (value : Nat)
  | invalidImmediate (mnemonic operand : String)
  | cannotAssemble (mnemonic operand : String)
  | indexOutOfRange
deriving DecidableEq, Repr

/-- The function `handle8008Operand`: the binary with the operand bytes
appended, or the fault. -/
def handle8008Operand (mnemonic operand : String) (labels : List (String × Nat))
    (_currentAddress : Nat) (binary : List Nat) : Except AssemblyFault (List Nat) :=
  if HasPrefix mnemonic "J" || HasPrefix mnemonic "CA" || HasPrefix mnemonic "CF" ||
      HasPrefix mnemonic "CT" then
    if HasPrefix operand "$" then
      let address64 := (ParseUint (String.mk (operand.data.drop 1))).1
      let address := address64 % 65536
      .ok (binary ++ [(address &&& 0xFF) % 256, (address >>> 8) % 256])
    else
      match labels.lookup operand with
      | some addr =>
        let address := addr
        .ok (binary ++ [(address &&& 0xFF) % 256, (address >>> 8) % 256])
      | none => .error (AssemblyFault.unknownLabel operand)
  else if HasSuffix mnemonic "I" then
    if HasPrefix operand "#$" then
      let value := (ParseUint (String.mk (operand.data.drop 2))).1
      if (mnemonic = "LHI" ∨ mnemonic = "LLI") ∧ value > 0xFF then
        .error (AssemblyFault.oversizeImmediate mnemonic value)
      else
        .ok (binary ++ [value % 256])
    else
      .error (AssemblyFault.invalidImmediate mnemonic operand)
  else
    .error (AssemblyFault.cannotAssemble mnemonic operand)

/-- The body of the first loop of `assemble` for the scanned text `text`, on
the label map and the current address. -/
def firstPassLine (instrSizes : List (String × Nat)) (labels : List (String × Nat))
    (currentAddress : Nat) (text : String) : Except AssemblyFault (List (String × Nat) × Nat) :=
  let line := TrimSpace text
  if line = "" ∨ HasPrefix line ";" then
    .ok (labels, currentAddress)
  else if HasSuffix line ":" then
    let label := TrimSuffix line ":"
    .ok ((label, currentAddress) :: labels, currentAddress)
  else
    match Fields line with
    | [] => .error AssemblyFault.indexOutOfRange
    | mnemonic :: _ =>
      .ok (labels, (currentAddress + ((instrSizes.lookup mnemonic).getD 0) % 65536) % 65536)

/-- The first loop of `assemble` over the scanned lines. -/
def firstPass (instrSizes : List (String × Nat)) :
    List String → List (String × Nat) → Nat → Except AssemblyFault (List (String × Nat) × Nat)
  | [], labels, currentAddress => .ok (labels, currentAddress)
  | text :: rest, labels, currentAddress =>
    match firstPassLine instrSizes labels currentAddress text with
    | .ok (labels, currentAddress) => firstPass instrSizes rest labels currentAddress
    | .error f => .error f

/-- The body of the second loop of `assemble` for the scanned text `text`, on
the binary and the current address. -/
def secondPassLine (opcodes instrSizes labels : List (String × Nat)) (binary : List Nat)
    (currentAddress : Nat) (text : String) : Except AssemblyFault (List Nat × Nat) :=
  let line := TrimSpace text
  if line = "" ∨ HasPrefix line ";" ∨ HasSuffix line ":" then
    .ok (binary, currentAddress)
  else
    let line :=
      match Index line ';' with
      | some idx => String.mk (line.data.take idx)
      | none => line
    match Fields line with
    | [] => .error AssemblyFault.indexOutOfRange
    | mnemonic :: operands =>
      match opcodes.lookup mnemonic with
      | none => .error (AssemblyFault.unknownMnemonic mnemonic)
      | some opcode =>
        let binary := binary ++ [opcode]
        let next := (currentAddress + ((instrSizes.lookup mnemonic).getD 0) % 65536) % 65536
        match operands with
        | operand :: _ =>
          match handle8008Operand mnemonic operand labels currentAddress binary with
          | .ok binary => .ok (binary, next)
          | .error f => .error f
        | [] => .ok (binary, next)

/-- The second loop of `assemble` over the scanned lines. -/
def secondPass (opcodes instrSizes labels : List (String × Nat)) :
    List String → List Nat → Nat → Except AssemblyFault (List Nat × Nat)
  | [], binary, currentAddress => .ok (binary, currentAddress)
  | text :: rest, binary, currentAddress =>
    match secondPassLine opcodes instrSizes labels binary currentAddress text with
    | .ok (binary, currentAddress) => secondPass opcodes instrSizes labels rest binary currentAddress
    | .error f => .error f

/-- The function `assemble`: the binary and the label map.  `opcodeOrder` and
`sizeOrder` are the orders in which `GetOpcodes` and `GetInstrSizes` visit the
instruction map of the fresh engine `NewIntel8008(1, 1)`. -/
def assemble (opcodeOrder sizeOrder : List (Nat × Instruction)) (lines : List String)
    (cpuType : String) (startAddress : Nat) :
    Except AssemblyFault (List Nat × List (String × Nat)) :=
  if cpuType = "8008" then
    let opcodes := GetOpcodes opcodeOrder
    let instrSizes := GetInstrSizes sizeOrder
    match firstPass instrSizes lines [] startAddress with
    | .error f => .error f
    | .ok (labels, _) =>
      match secondPass opcodes instrSizes labels lines [] 0x8000 with
      | .error f => .error f
      | .ok (binary, _) => .ok (binary, labels)
  else
    .error (AssemblyFault.unsupportedCPU cpuType)

/-- The loop of the emulator's `main` that copies the program into memory with
`Write`, byte `i` going to address `startAddress + i` (16-bit). -/
def writeProgram (startAddress : Nat) : List Nat → Nat → Intel8008 → Outcome
  | [], _, c => Outcome.ok c
  | b :: rest, i, c =>
    Outcome.write c ((startAddress + i % 65536) % 65536) b fun c =>
      writeProgram startAddress rest (i + 1) c

/-- The program load of the emulator's `main`: the copy loop, then `SetPC`. -/
def loadProgram (c : Intel8008) (program : List Nat) (startAddress : Nat) : Outcome :=
  Outcome.andThen (writeProgram startAddress program 0 c) fun c =>
    Outcome.ok { c with PC := startAddress }

/-! ## Debugger

A shallow embedding of `Debugger.executeInstruction` of
`src/debugger/debugger.go`, the body of the `step` command.  The trace line
is printed only; the line "Program halted" is the flag `halted` of the outcome.
-/

/-- The debugger state; the map `breakpoints` is the list of its key/value
pairs. -/
structure Debugger where
  cpu : Intel8008
  breakpoints : List (Nat × Bool)
  running : Bool
  stepMode : Bool
  lastPC : Nat
deriving DecidableEq, Repr

/-- The debugger when `executeInstruction` stops, whether "Program halted" was
printed, and the fault that ended the process, if any. -/
structure StepOutcome where
  debugger : Debugger
  halted : Bool
  fault : Option Fault
deriving DecidableEq, Repr

/-- The function `debugger.New`. -/
def Debugger.New (cpu : Intel8008) : Debugger :=
  { cpu := cpu, breakpoints := [], running := true, stepMode := false, lastPC := cpu.PC }

/-- The method `Debugger.executeInstruction`: read the opcode at `PC` for the
trace, note `PC` in `lastPC`, run `ExecuteInstruction`, and report a halt when
`PC` is what it was. -/
def Debugger.executeInstruction (d : Debugger) : StepOutcome :=
  match d.cpu.Memory[d.cpu.PC]? with
  | none => ⟨d, false, some (Fault.indexOutOfRange d.cpu.PC)⟩
  | some _opcode =>
    let d := { d with lastPC := d.cpu.PC }
    let r := ExecuteInstruction d.cpu
    let d := { d with cpu := r.cpu }
    match r.fault with
    | some f => ⟨d, false, some f⟩
    | none =>
      if d.cpu.PC = d.lastPC then ⟨{ d with running := false }, true, none⟩
      else ⟨d, false, none⟩

/-- The method `Debugger.step`. -/
def Debugger.step (d : Debugger) : StepOutcome :=
  d.executeInstruction

/-- The two loops of `assemble`, keeping what `assemble` drops: the value of
`currentAddress` when the first loop ends and its value when the second loop
ends. -/
def assembleCounters (opcodeOrder sizeOrder : List (Nat × Instruction)) (lines : List String)
    (cpuType : String) (startAddress : Nat) : Except AssemblyFault (Nat × Nat) :=
  if cpuType = "8008" then
    let opcodes := GetOpcodes opcodeOrder
    let instrSizes := GetInstrSizes sizeOrder
    match firstPass instrSizes lines [] startAddress with
    | .error f => .error f
    | .ok (labels, first) =>
      match secondPass opcodes instrSizes labels lines [] 0x8000 with
      | .error f => .error f
      | .ok (_, second) => .ok (first, second)
  else
    .error (AssemblyFault.unsupportedCPU cpuType)

/-- How `Debugger.run` comes to its end: the line "Breakpoint hit" and a
return, the line "Program halted" and a return, or the end of the process in
`executeInstruction`. -/
inductive RunEnd
  | breakpointHit (pc : Nat)
  | programHalted
  | fault (f : Fault)
deriving DecidableEq, Repr

/-- The debugger when `Debugger.run` ends, and how it ended. -/
structure RunOutcome where
  debugger : Debugger
  ending : RunEnd
deriving DecidableEq, Repr

/-- The loop of `Debugger.run`, for at most `fuel` rounds; `none` when the loop
has not been left by then.  A breakpoint at `PC` ends the loop; then the opcode
at `PC` is read and the opcode `0x00` ends the loop; otherwise
`executeInstruction` runs and the loop goes round. -/
def Debugger.runLoop : Nat → Debugger → Option RunOutcome
  | 0, _ => none
  | fuel + 1, d =>
    if (d.breakpoints.lookup d.cpu.PC).getD false then
      some ⟨d, RunEnd.breakpointHit d.cpu.PC⟩
    else
      match d.cpu.Memory[d.cpu.PC]? with
      | none => some ⟨d, RunEnd.fault (Fault.indexOutOfRange d.cpu.PC)⟩
      | some opcode =>
        if opcode = 0x00 then
          some ⟨d, RunEnd.programHalted⟩
        else
          let r := d.executeInstruction
          match r.fault with
          | some f => some ⟨r.debugger, RunEnd.fault f⟩
          | none => Debugger.runLoop fuel r.debugger

/-- The method `Debugger.run`. -/
def Debugger.run (fuel : Nat) (d : Debugger) : Option RunOutcome :=
  Debugger.runLoop fuel { d with stepMode := false }

/-- The method `Debugger.continueExecution`. -/
def Debugger.continueExecution (fuel : Nat) (d : Debugger) : Option RunOutcome :=
  Debugger.run fuel { d with stepMode := false }

/-! ## Address specifications of the emulator

A shallow embedding of `parseHexAddr` and `parseAddressSpec` of
`src/emulator/emulator.go`.  An address is a `uint16`, so the counter of the
range loop wraps at 65536; the loop is run for at most `fuel` rounds.
-/

/-- The pieces of `strings.Split` that start in the rest of the text, for a
separator of one character; `piece` holds the characters of the current piece,
last first. -/
def splitFrom (sep : Char) (piece : List Char) : List Char → List String
  | [] => [String.mk piece.reverse]
  | ch :: rest =>
    if ch = sep then String.mk piece.reverse :: splitFrom sep [] rest
    else splitFrom sep (ch :: piece) rest

/-- The call `strings.Split(s, sep)` for a separator of one character. -/
def Split (s : String) (sep : Char) : List String :=
  splitFrom sep [] s.data

/-- The call `strings.Contains(s, sub)` for a `sub` of one character. -/
def Contains (s : String) (sub : Char) : Bool :=
  s.data.contains sub

/-- The function `strings.TrimPrefix`. -/
def TrimPrefix (s start : String) : String :=
  if HasPrefix s start then String.mk (s.data.drop start.data.length) else s

/-- The errors `parseAddressSpec` returns. -/
inductive AddressFault
  /-- The error of `strconv.ParseUint` for the text. -/
  | parse (text : String)
  /-- The error "invalid range format". -/
  | invalidRangeFormat (part : String)
  /-- The error "invalid range: start > end". -/
  | startAfterEnd
deriving DecidableEq, Repr

/-- The function `parseHexAddr`: the default for the empty text, else the
16-bit value of the hexadecimal digits after an optional `0x`. -/
def parseHexAddr (addr : String) (defaultAddr : Nat) : Except AddressFault Nat :=
  if addr = "" then .ok defaultAddr
  else
    let addr := TrimPrefix addr "0x"
    let parsed := ParseUint addr
    if parsed.2 then .error (AddressFault.parse addr) else .ok (parsed.1 % 65536)

/-- The loop `for addr := start; addr <= end; addr++` of `parseAddressSpec`,
with `addr` a `uint16`: `none` when the loop has not ended after `fuel` tests
of its condition. -/
def rangeLoop : Nat → Nat → Nat → List Nat → Option (List Nat)
  | 0, _, _, _ => none
  | fuel + 1, addr, last, addresses =>
    if addr ≤ last then rangeLoop fuel ((addr + 1) % 65536) last (addresses ++ [addr])
    else some addresses

/-- The loop of `parseAddressSpec` over the parts of the specification. -/
def parseParts (fuel : Nat) : List String → List Nat → Option (Except AddressFault (List Nat))
  | [], addresses => some (.ok addresses)
  | part :: rest, addresses =>
    if Contains part '-' then
      match Split part '-' with
      | [first, second] =>
        match parseHexAddr first 0 with
        | .error f => some (.error f)
        | .ok start =>
          match parseHexAddr second 0 with
          | .error f => some (.error f)
          | .ok last =>
            if start > last then some (.error AddressFault.startAfterEnd)
            else
              match rangeLoop fuel start last addresses with
              | none => none
              | some addresses => parseParts fuel rest addresses
      | _ => some (.error (AddressFault.invalidRangeFormat part))
    else
      match parseHexAddr part 0 with
      | .error f => some (.error f)
      | .ok addr => parseParts fuel rest (addresses ++ [addr])

/-- The function `parseAddressSpec`, each range loop running for at most `fuel`
rounds: `none` when a loop has not ended by then. -/
def parseAddressSpec (fuel : Nat) (spec : String) : Option (Except AddressFault (List Nat)) :=
  parseParts fuel (Split spec ',') []

/-! ## Vocabulary of the specification -/

/-- The number of set bits among the eight bits of a byte. -/
def setBits (b : Nat) : Nat :=
  ((List.range 8).filter fun i => b.testBit i).length

/-- Zero, Sign and Parity as the specification defines them for the byte `v`:
Zero when `v` is 0, Sign is bit 7, Parity when the count of set bits is even. -/
def FlagsOf (f : FlagBits) (v : Nat) : Prop :=
  f.Zero = decide (v = 0) ∧ f.Sign = v.testBit 7 ∧ f.Parity = decide (setBits v % 2 = 0)

/-- The second operand of an accumulator instruction: one of the seven
registers, the memory byte addressed by H:L, or the byte after the opcode. -/
inductive Operand
  | A | B | C | D | E | H | L
  | M
  | I (value : Nat)
deriving DecidableEq, Repr

/-- The last letter of the mnemonic that takes the operand. -/
def Operand.letter : Operand → String
  | .A => "A" | .B => "B" | .C => "C" | .D => "D" | .E => "E" | .H => "H" | .L => "L"
  | .M => "M" | .I _ => "I"

/-- The value the operand denotes in the engine `c`, when there is one. -/
def Operand.value (c : Intel8008) : Operand → Option Nat
  | .A => some c.A | .B => some c.B | .C => some c.C | .D => some c.D
  | .E => some c.E | .H => some c.H | .L => some c.L
  | .M => c.Memory[((c.H <<< 8) % 65536) ||| c.L]?
  | .I value => some value

/-- The handler `ExecuteInstruction` hands the instruction to: `executeImmediate`
with the operand byte for an immediate operand, `executeImplied` otherwise. -/
def execute (c : Intel8008) (instruction : Instruction) : Operand → Outcome
  | .I value => executeImmediate c instruction value
  | _ => executeImplied c instruction

/-- The carry or borrow that enters an instruction: 1 when Carry is set. -/
def carryIn (c : Intel8008) : Nat := if c.Flags.Carry then 1 else 0

/-- The engine after an instruction that stores the low byte of the 16-bit
`result` in the accumulator and sets all four flags from `result`. -/
def afterArithmetic (c : Intel8008) (result : Nat) : Intel8008 :=
  { c with A := result % 256,
           Flags := ⟨decide (result > 0xFF), result % 256 == 0, ((result % 256) &&& 0x80) != 0,
             calculateParity (result % 256)⟩ }

/-- What the specification asks of an add with carry-in `cin`: the outcome `r`
of running it on the engine `c` with operand value `v`. -/
def SumResult (c : Intel8008) (v cin : Nat) (r : Outcome) : Prop :=
  r.fault = none ∧
  r.cpu.A = (c.A + v + cin) % 256 ∧
  r.cpu.Flags.Carry = decide (c.A + v + cin > 255) ∧
  FlagsOf r.cpu.Flags r.cpu.A

/-- What the specification asks of a subtract with borrow-in `cin`: with `d`
the difference in 16-bit unsigned arithmetic, the accumulator holds the low byte
of `d` and Carry tells whether `d` exceeds 255. -/
def DifferenceResult (c : Intel8008) (v cin : Nat) (r : Outcome) : Prop :=
  let d : Nat := (((c.A : Int) - (v : Int) - (cin : Int)) % 65536).toNat
  r.fault = none ∧
  r.cpu.A = d % 256 ∧
  r.cpu.Flags.Carry = decide (d > 255) ∧
  FlagsOf r.cpu.Flags r.cpu.A

/-- What the specification asks of a compare of the accumulator with `v`:
nothing but the flags changes; Carry is the borrow test, Zero equality, Sign
and Parity are those of the byte `(a - v) mod 256`. -/
def CompareResult (c : Intel8008) (v : Nat) (r : Outcome) : Prop :=
  let d : Nat := (((c.A : Int) - (v : Int)) % 256).toNat
  r.fault = none ∧
  r.cpu = { c with Flags := r.cpu.Flags } ∧
  r.cpu.Flags.Carry = decide (c.A < v) ∧
  r.cpu.Flags.Zero = decide (c.A = v) ∧
  r.cpu.Flags.Sign = d.testBit 7 ∧
  r.cpu.Flags.Parity = decide (setBits d % 2 = 0)

/-- An engine with `A = 0xFF`, `B = 0x01`, Carry clear and four bytes of memory. -/
def sampleEngine : Intel8008 :=
  { NewIntel8008 4 0 with A := 0xFF, B := 0x01 }

/-- The mnemonics of the load instructions that take no operand byte: `Lxy`
between two different registers, `LxM` from memory and `LMx` to memory. -/
def impliedLoads : List String :=
  ["LAB", "LAC", "LAD", "LAE", "LAH", "LAL", "LBA", "LBC", "LBD", "LBE", "LBH", "LBL",
   "LCA", "LCB", "LCD", "LCE", "LCH", "LCL", "LDA", "LDB", "LDC", "LDE", "LDH", "LDL",
   "LEA", "LEB", "LEC", "LED", "LEH", "LEL", "LHA", "LHB", "LHC", "LHD", "LHE", "LHL",
   "LLA", "LLB", "LLC", "LLD", "LLE", "LLH",
   "LAM", "LBM", "LCM", "LDM", "LEM", "LHM", "LLM",
   "LMA", "LMB", "LMC", "LMD", "LME", "LMH", "LML"]

/-- The mnemonics of the load instructions with an operand byte: `LxI`, `LMI`. -/
def immediateLoads : List String :=
  ["LAI", "LBI", "LCI", "LDI", "LEI", "LHI", "LLI", "LMI"]

/-- Whether a mnemonic begins with the letter `L`. -/
def beginsWithL (m : String) : Bool := m.data.head? == some 'L'

/-- The index registers an increment or decrement can name. -/
def indexRegisters : List Operand := [.B, .C, .D, .E, .H, .L]

/-- What the specification asks of an increment or decrement of the register
`o`: it ends holding `y`, Zero, Sign and Parity are those of `y`, and Carry is
as it was in `c`. -/
def CountResult (c : Intel8008) (o : Operand) (y : Nat) (r : Outcome) : Prop :=
  r.fault = none ∧
  o.value r.cpu = some y ∧
  FlagsOf r.cpu.Flags y ∧
  r.cpu.Flags.Carry = c.Flags.Carry

/-- The byte `r` is the byte `a` rotated left by one bit: bit `k` of `r` is
bit `k - 1` of `a`, and bit 0 of `r` is bit 7 of `a`. -/
def IsRotateLeft (a r : Nat) : Prop :=
  r < 256 ∧ ∀ k < 8, r.testBit k = a.testBit ((k + 7) % 8)

/-- The byte `r` is the byte `a` rotated right by one bit: bit `k` of `r` is
bit `k + 1` of `a`, and bit 7 of `r` is bit 0 of `a`. -/
def IsRotateRight (a r : Nat) : Prop :=
  r < 256 ∧ ∀ k < 8, r.testBit k = a.testBit ((k + 1) % 8)

/-- The instruction `NDB` as the table lists it. -/
def instructionNDB : Instruction := Instruction.mk 0xA1 "NDB" .Implied 1 5

/-- The sample engine with the Carry flag set and nothing else changed. -/
def sampleEngineCarry : Intel8008 :=
  { sampleEngine with Flags := { sampleEngine.Flags with Carry := true } }

/-- The four condition flags. -/
inductive Flag
  | Carry | Zero | Sign | Parity
deriving DecidableEq, Repr

/-- The letter that names the flag in a conditional mnemonic. -/
def Flag.letter : Flag → String
  | .Carry => "C" | .Zero => "Z" | .Sign => "S" | .Parity => "P"

/-- The value of the flag in a flag record. -/
def Flag.get (f : FlagBits) : Flag → Bool
  | .Carry => f.Carry | .Zero => f.Zero | .Sign => f.Sign | .Parity => f.Parity

/-- The mnemonics of the jumps and calls. -/
def transferMnemonics : List String :=
  ["JMP", "CAL", "JFC", "JFZ", "JFS", "JFP", "JTC", "JTZ", "JTS", "JTP",
   "CFC", "CFZ", "CFS", "CFP", "CTC", "CTZ", "CTS", "CTP"]

/-- The engine after a jump or an untaken call that ends at `pc`: only `PC`
and the cycle counter (11 cycles) differ from `c`. -/
def afterJump (c : Intel8008) (pc : Nat) : Intel8008 :=
  { c with PC := pc, Cycles := c.Cycles + 11 }

/-- The engine after a taken call to `target` with return address `ret`: the
stack pointer is two lower (mod 256), the high byte of `ret` is at the old
`SP - 1` and the low byte at the old `SP - 2`. -/
def afterCall (c : Intel8008) (target ret : Nat) : Intel8008 :=
  { c with PC := target, Cycles := c.Cycles + 11, SP := (c.SP + 254) % 256,
           Memory := (c.Memory.set ((c.SP + 255) % 256) (ret / 256)).set
             ((c.SP + 254) % 256) (ret % 256) }

/-- The two bytes below the stack pointer lie inside memory. -/
def StackRoom (c : Intel8008) : Prop :=
  (c.SP + 255) % 256 < c.Memory.length ∧ (c.SP + 254) % 256 < c.Memory.length

/-- A fresh engine whose memory is the given list of bytes, with `PC = 0`. -/
def engineWith (memory : List Nat) : Intel8008 :=
  { NewIntel8008 0 0 with Memory := memory }

/-- An engine of 256 bytes that holds `CTC $0034` at address 0, with Carry set. -/
def callEngine : Intel8008 :=
  { engineWith ([0x62, 0x34, 0x00] ++ List.replicate 253 0) with
    Flags := ⟨true, false, false, false⟩ }

/-- What the specification asks of the engine `r` that a `CAL` to `t`, fetched
at `PC = p` with stack pointer `s`, leaves behind: `SP = (s - 2) mod 256`, the
high byte of the return address `p + 3` at `(s - 1) mod 256` and its low byte
at `(s - 2) mod 256`, `PC = t`; memory keeps its length and every other byte;
nothing else but the cycle counter differs from `c`. -/
def CallResult (c : Intel8008) (t : Nat) (r : Intel8008) : Prop :=
  let ret := (c.PC + 3) % 65536
  let high := (((c.SP : Int) - 1) % 256).toNat
  let low := (((c.SP : Int) - 2) % 256).toNat
  r.SP = low ∧
  r.Memory[high]? = some (ret / 256) ∧
  r.Memory[low]? = some (ret % 256) ∧
  r.PC = t ∧
  r.Memory.length = c.Memory.length ∧
  (∀ k, k ≠ high → k ≠ low → r.Memory[k]? = c.Memory[k]?) ∧
  r = { c with PC := r.PC, SP := r.SP, Memory := r.Memory, Cycles := r.Cycles }

/-- An engine of 256 bytes that holds `CAL $0003` at address 0 and `RET` at
address 3, with `SP = 0xFF`. -/
def callReturnEngine : Intel8008 :=
  engineWith ([0x46, 0x03, 0x00, 0x07] ++ List.replicate 252 0)

/-- The size the specification gives each addressing mode. -/
def modeSize : AddressingMode → Nat
  | .Immediate => 2
  | .Absolute => 3
  | .Implied => 1
  | .Relative => 2

/-- The byte values that are no opcode of the instruction table. -/
def absentOpcodes : List Nat := [0x22, 0x2A, 0x32, 0x38, 0x39, 0x3A]

/-- The mnemonics of the table that `executeImplied` has no case for. -/
def unhandledMnemonics : List String :=
  ["RFC", "RFZ", "RFS", "RFP", "RTC", "RTZ", "RTS", "RTP", "RST", "INP", "OUT", "NOP"]

/-- A fresh engine of 65536 bytes, stopped, that holds the single byte `opcode`
at address 0. -/
def oneByteEngine (opcode : Nat) : Intel8008 :=
  { NewIntel8008 65536 0 with Memory := (List.replicate 65536 0).set 0 opcode }

/-- An engine of three bytes that holds `JMP $0010` at address 0. -/
def jumpOutEngine : Intel8008 := engineWith [0x44, 0x10, 0x00]

/-- The number fits in 16 bits. -/
def IsWord (x : Nat) : Prop := x < 65536

/-- The mnemonics that the instruction table lists under more than one opcode. -/
def aliasMnemonics : List String :=
  ["JMP", "CAL", "RET", "RST", "INP", "OUT", "NOP", "HLT"]

/-- The mnemonic the second pass looks up for the scanned text, `none` when the
second pass skips the text. -/
def leadingMnemonic (text : String) : Option String :=
  let line := TrimSpace text
  if line = "" ∨ HasPrefix line ";" ∨ HasSuffix line ":" then none
  else
    (Fields (match Index line ';' with
      | some idx => String.mk (line.data.take idx)
      | none => line)).head?

/-- Whether the second pass looks up a multi-opcode mnemonic for the text. -/
def usesAlias (text : String) : Bool :=
  match leadingMnemonic text with
  | some m => aliasMnemonics.contains m
  | none => false

/-- Whether the first pass takes the text for an instruction line with a
leading word: not blank, not a comment, not a label. -/
def isInstructionLine (text : String) : Bool :=
  let line := TrimSpace text
  !(decide (line = "") || HasPrefix line ";") && !HasSuffix line ":" && !(Fields line).isEmpty

/-- The four-line program of the end-to-end test. -/
def sampleProgram : List String := ["LAI #$05", "LBI #$03", "ADB", "HLT"]

/-- The memory `m` after the six bytes of the sample program, ending in the
halt opcode `h`, have been written from address `start` on (16-bit addresses). -/
def sampleMemory (m : List Nat) (start h : Nat) : List Nat :=
  (((((m.set ((start + 0) % 65536) 0x06).set ((start + 1) % 65536) 0x05).set
    ((start + 2) % 65536) 0x0E).set ((start + 3) % 65536) 0x03).set
    ((start + 4) % 65536) 0x81).set ((start + 5) % 65536) h

/-- The engine the sample program ends in: `A = 8`, `B = 3`, all flags clear,
25 cycles counted, `PC` at the halt instruction, not running. -/
def sampleFinal (c : Intel8008) (start : Nat) : Intel8008 :=
  { c with PC := (start + 5) % 65536, A := 0x08, B := 0x03,
           Flags := ⟨false, false, false, false⟩, Cycles := 25, running := false }

/-- An engine of three bytes that holds `JMP $0000` at address 0, a jump to its
own address. -/
def selfJumpEngine : Intel8008 := engineWith [0x44, 0x00, 0x00]

/-- Whether the first pass takes the text for a label line: not blank, not a
comment, and ending in `:`. -/
def isLabelLine (text : String) : Bool :=
  let line := TrimSpace text
  !(decide (line = "") || HasPrefix line ";") && HasSuffix line ":"

/-- The name a label line binds: the text before the final colon. -/
def labelName (text : String) : String :=
  TrimSuffix (TrimSpace text) ":"

/-- The names of the label lines of a source, in the order of the lines. -/
def definedLabels (lines : List String) : List String :=
  (lines.filter isLabelLine).map labelName

/-- The size the instruction table gives for a mnemonic: the `Size` of a table
entry with that mnemonic, and 0 for a word that is no mnemonic of the table. -/
def tableSize (m : String) : Nat :=
  match Intel8008Instructions.find? fun e => e.2.Mnemonic == m with
  | some e => e.2.Size
  | none => 0

/-- What the first loop of `assemble` adds to `currentAddress` for a line, in
closed form: `instrSizes[parts[0]]` for the first blank-separated word of a line
that is not blank, not a comment and not a label, the word taken as the loop
reads it (a comment on the line is not removed, and a word the table does not
have counts 0); and 0 for the other lines. -/
def lineSize (text : String) : Nat :=
  if isInstructionLine text then tableSize ((Fields (TrimSpace text)).headD "") else 0

/-- The value of `currentAddress` when the first loop of `assemble`, begun at
`start`, has read the lines `before`: `start` plus what the loop adds for each
of the lines, 16-bit. -/
def addressAfter (start : Nat) (before : List String) : Nat :=
  (start + (before.map lineSize).sum) % 65536

/-- The words of a line as the second pass reads them, the comment removed:
the mnemonic first, then the operands; `none` when the second pass skips the
text. -/
def lineTokens (text : String) : Option (List String) :=
  let line := TrimSpace text
  if line = "" ∨ HasPrefix line ";" ∨ HasSuffix line ":" then none
  else
    some (Fields (match Index line ';' with
      | some idx => String.mk (line.data.take idx)
      | none => line))

/-- The jump/call family of `handle8008Operand`: the mnemonics that begin with
`J`, `CA`, `CF` or `CT`. -/
def isJumpCall (mnemonic : String) : Bool :=
  HasPrefix mnemonic "J" || HasPrefix mnemonic "CA" || HasPrefix mnemonic "CF" ||
    HasPrefix mnemonic "CT"

/-- The second pass over the lines `part`, with the label table that the first
pass builds from the whole source `lines`. -/
def passTwo (o s : List (Nat × Instruction)) (lines : List String) (start : Nat)
    (part : List String) : Except AssemblyFault (List Nat × Nat) :=
  match firstPass (GetInstrSizes s) lines [] start with
  | .error f => .error f
  | .ok (labels, _) => secondPass (GetOpcodes o) (GetInstrSizes s) labels part [] 0x8000

/-- Whether the characters are hexadecimal digits, at least one. -/
def isHexDigits (digits : List Char) : Bool :=
  !digits.isEmpty && digits.all fun ch => (hexDigit ch).isSome

/-- The number that hexadecimal digits write after the digits of `n`. -/
def hexValueFrom (n : Nat) (digits : List Char) : Nat :=
  digits.foldl (fun n ch => n * 16 + (hexDigit ch).getD 0) n

/-- The number that hexadecimal digits write, of any size. -/
def hexValue (digits : List Char) : Nat :=
  hexValueFrom 0 digits

/-- The upper-case hexadecimal digit of value `d`. -/
def hexChar (d : Nat) : Char :=
  if d < 10 then Char.ofNat (48 + d) else Char.ofNat (55 + d)

/-- The four hexadecimal digits of a 16-bit address, as `%04X` prints them. -/
def hex4 (t : Nat) : List Char :=
  [hexChar (t / 4096 % 16), hexChar (t / 256 % 16), hexChar (t / 16 % 16), hexChar (t % 16)]

/-- The source line `JMP $HHHH` for the address `t`. -/
def jumpLine (t : Nat) : String :=
  String.mk (['J', 'M', 'P', ' ', '$'] ++ hex4 t)

/-- The two-letter stems of the accumulator families: add, add with carry,
subtract, subtract with borrow, and, exclusive or, or, compare. -/
def aluFamilies : List String := ["AD", "AC", "SU", "SB", "ND", "XR", "OR", "CP"]

/-- The debugger, without breakpoints, on an engine of one byte that holds the
opcode `opcode` at address 0. -/
def debuggerAt (opcode : Nat) : Debugger :=
  Debugger.New (engineWith [opcode])

/-- The debugger, without breakpoints, on an engine that holds `LAB`, `HLT` at
address 0. -/
def freeDebugger : Debugger :=
  Debugger.New (engineWith [0xC1, 0x00])

/-- The debugger on the same engine, stopped at a breakpoint on address 0. -/
def stoppedDebugger : Debugger :=
  { freeDebugger with breakpoints := [(0, true)] }

/-- Whether the characters write a 16-bit address: hexadecimal digits, at least
one, of value at most `0xFFFF`. -/
def isAddress (digits : List Char) : Bool :=
  isHexDigits digits && decide (hexValue digits ≤ 0xFFFF)

/-- A part of an address specification: a single address or a range, each
address given by its characters. -/
inductive AddressPart
  | single (digits : List Char)
  | range (first last : List Char)
deriving DecidableEq, Repr

/-- The text of a part: the address, or the two addresses around `-`. -/
def AddressPart.text : AddressPart → List Char
  | .single digits => digits
  | .range first last => first ++ '-' :: last

/-- The characters of a specification: the texts of its parts with commas
between them. -/
def specChars : List AddressPart → List Char
  | [] => []
  | [p] => p.text
  | p :: q :: rest => p.text ++ ',' :: specChars (q :: rest)

/-- The specification that lists the parts. -/
def specText (parts : List AddressPart) : String :=
  String.mk (specChars parts)

/-- A part the specification allows: addresses of 16 bits in hexadecimal, and
the first address of a range not above its last. -/
def AddressPart.wellFormed : AddressPart → Bool
  | .single digits => isAddress digits
  | .range first last =>
    isAddress first && isAddress last && decide (hexValue first ≤ hexValue last)

/-- Whether the last address of a range is below the top address `0xFFFF`. -/
def AddressPart.belowTop : AddressPart → Bool
  | .single _ => true
  | .range _ last => decide (hexValue last < 0xFFFF)

/-- The addresses a part stands for: the address, or every address of the range
from the first to the last, both included. -/
def AddressPart.addresses : AddressPart → List Nat
  | .single digits => [hexValue digits]
  | .range first last => List.range' (hexValue first) (hexValue last + 1 - hexValue first)

/-- The addresses a specification stands for, in the order of its parts. -/
def specAddresses (parts : List AddressPart) : List Nat :=
  (parts.map AddressPart.addresses).flatten

/-- The outcome did not stop at an index outside memory. -/
def InBounds (r : Outcome) : Prop :=
  ∀ index, r.fault ≠ some (Fault.indexOutOfRange index)

/-! ## Lemmas on bytes and flags -/

theorem calculateParity_byte (b : Nat) (hb : b < 256) :
    calculateParity b = decide (setBits b % 2 = 0) := by
  revert b
  decide

theorem sign_byte (b : Nat) (hb : b < 256) : ((b &&& 0x80) != 0) = b.testBit 7 := by
  revert b
  decide

theorem flagsOf_byte (f : FlagBits) (v : Nat) (hv : v < 256) (hz : f.Zero = (v == 0))
    (hs : f.Sign = ((v &&& 0x80) != 0)) (hp : f.Parity = calculateParity v) :
    FlagsOf f v := by
  refine ⟨?_, ?_, ?_⟩
  · simp [hz, beq_eq_decide]
  · rw [hs, sign_byte v hv]
  · rw [hp, calculateParity_byte v hv]

/-! ## The accumulator group: the engine each family leaves behind -/

theorem execute_AD (c : Intel8008) (o : Operand) (v : Nat) (hv : o.value c = some v)
    (i : Instruction) (hm : i.Mnemonic = "AD" ++ o.letter) :
    execute c i o = Outcome.ok (afterArithmetic c ((c.A + v) % 65536)) := by
  cases o <;> simp [Operand.letter] at hm <;> simp [Operand.value] at hv <;>
    simp [execute, executeImplied, executeImmediate, hm, Outcome.ok, Outcome.read, hv,
      updateFlagsWithCarry, updateFlags, afterArithmetic]

theorem execute_AC (c : Intel8008) (o : Operand) (v : Nat) (hv : o.value c = some v)
    (i : Instruction) (hm : i.Mnemonic = "AC" ++ o.letter) :
    execute c i o = Outcome.ok (afterArithmetic c
      (if c.Flags.Carry then ((c.A + v) % 65536 + 1) % 65536 else (c.A + v) % 65536)) := by
  cases o <;> simp [Operand.letter] at hm <;> simp [Operand.value] at hv <;>
    simp [execute, executeImplied, executeImmediate, hm, Outcome.ok, Outcome.read, hv,
      updateFlagsWithCarry, updateFlags, afterArithmetic]

theorem execute_SU (c : Intel8008) (o : Operand) (v : Nat) (hv : o.value c = some v)
    (i : Instruction) (hm : i.Mnemonic = "SU" ++ o.letter) :
    execute c i o = Outcome.ok (afterArithmetic c ((c.A + 65536 - v) % 65536)) := by
  cases o <;> simp [Operand.letter] at hm <;> simp [Operand.value] at hv <;>
    simp [execute, executeImplied, executeImmediate, hm, Outcome.ok, Outcome.read, hv,
      updateFlagsWithBorrow, updateFlags, afterArithmetic]

theorem execute_SB (c : Intel8008) (o : Operand) (v : Nat) (hv : o.value c = some v)
    (i : Instruction) (hm : i.Mnemonic = "SB" ++ o.letter) :
    execute c i o = Outcome.ok (afterArithmetic c
      (if c.Flags.Carry then ((c.A + 65536 - v) % 65536 + 65535) % 65536
        else (c.A + 65536 - v) % 65536)) := by
  cases o <;> simp [Operand.letter] at hm <;> simp [Operand.value] at hv <;>
    simp [execute, executeImplied, executeImmediate, hm, Outcome.ok, Outcome.read, hv,
      updateFlagsWithBorrow, updateFlags, afterArithmetic]

theorem execute_CP (c : Intel8008) (o : Operand) (v : Nat) (hv : o.value c = some v)
    (i : Instruction) (hm : i.Mnemonic = "CP" ++ o.letter) :
    execute c i o = Outcome.ok
      { c with Flags := ⟨decide (c.A < v), (c.A + 256 - v) % 256 == 0,
                 (((c.A + 256 - v) % 256) &&& 0x80) != 0,
                 calculateParity ((c.A + 256 - v) % 256)⟩ } := by
  cases o <;> simp [Operand.letter] at hm <;> simp [Operand.value] at hv <;>
    simp [execute, executeImplied, executeImmediate, hm, Outcome.ok, Outcome.read, hv,
      updateCompareFlags]

theorem flagsOf_afterArithmetic (c : Intel8008) (result : Nat) :
    FlagsOf (afterArithmetic c result).Flags (afterArithmetic c result).A :=
  flagsOf_byte _ _ (Nat.mod_lt _ (by decide)) rfl rfl rfl

theorem byte_difference (a v : Nat) (ha : a < 256) (hv : v < 256) :
    (a + 256 - v) % 256 = (((a : Int) - (v : Int)) % 256).toNat := by
  omega

theorem carry_SU_CP (c : Intel8008) (o : Operand) (v : Nat) (i j : Instruction)
    (ha : c.A < 256) (hv : v < 256) (ho : o.value c = some v)
    (hi : i.Mnemonic = "SU" ++ o.letter) (hj : j.Mnemonic = "CP" ++ o.letter) :
    (execute c i o).cpu.Flags.Carry = decide (c.A < v) ∧
    (execute c j o).cpu.Flags.Carry = decide (c.A < v) := by
  rw [execute_SU c o v ho i hi, execute_CP c o v ho j hj]
  refine ⟨?_, rfl⟩
  simp only [afterArithmetic, Outcome.ok, decide_eq_decide]
  omega

/-! ## Claims C1 to C5: arithmetic, compare and parity -/

/-- C1. Add (`ADx`, `ADM`, `ADI`, carry-in 0) and add with carry (`ACx`, `ACM`,
`ACI`, carry-in the Carry flag): for every accumulator byte `a` and operand
byte `v`, the instruction ends with `A = (a + v + cin) mod 256`,
`Carry = (a + v + cin > 255)`, and Zero, Sign, Parity those of the new `A`. -/
theorem add_family_result (c : Intel8008) (o : Operand) (v : Nat) (i : Instruction)
    (ha : c.A < 256) (hv : v < 256) (ho : o.value c = some v) :
    (i.Mnemonic = "AD" ++ o.letter → SumResult c v 0 (execute c i o)) ∧
    (i.Mnemonic = "AC" ++ o.letter → SumResult c v (carryIn c) (execute c i o)) := by
  constructor
  · intro hm
    rw [execute_AD c o v ho i hm]
    refine ⟨rfl, ?_, ?_, flagsOf_afterArithmetic c _⟩
    · simp only [afterArithmetic, Outcome.ok]; omega
    · simp only [afterArithmetic, Outcome.ok, decide_eq_decide]; omega
  · intro hm
    rw [execute_AC c o v ho i hm]
    refine ⟨rfl, ?_, ?_, flagsOf_afterArithmetic c _⟩
    · simp only [afterArithmetic, Outcome.ok, carryIn]; split <;> omega
    · simp only [afterArithmetic, Outcome.ok, carryIn, decide_eq_decide]; split <;> omega

/-- Witness for C1: `ADB` with `A = 0xFF` and `B = 0x01` (the case 255 + 1). -/
theorem add_family_result_witness :
    sampleEngine.A < 256 ∧ Operand.B.value sampleEngine = some 1 ∧
      SumResult sampleEngine 1 0
        (execute sampleEngine (Instruction.mk 0x81 "ADB" .Implied 1 5) Operand.B) :=
  ⟨by decide, rfl,
    (add_family_result sampleEngine Operand.B 1 (Instruction.mk 0x81 "ADB" .Implied 1 5)
      (by decide) (by decide) rfl).1 rfl⟩

/-- C2. Subtract (`SUx`, `SUM`, `SUI`, borrow-in 0) and subtract with borrow
(`SBx`, `SBM`, `SBI`, borrow-in the Carry flag): the instruction computes
`d = (a - v - cin) mod 65536`, ends with `A = d mod 256`, sets Carry exactly
when `d > 255`, and sets Zero, Sign, Parity from the new `A`. -/
theorem subtract_family_result (c : Intel8008) (o : Operand) (v : Nat) (i : Instruction)
    (ha : c.A < 256) (hv : v < 256) (ho : o.value c = some v) :
    (i.Mnemonic = "SU" ++ o.letter → DifferenceResult c v 0 (execute c i o)) ∧
    (i.Mnemonic = "SB" ++ o.letter → DifferenceResult c v (carryIn c) (execute c i o)) := by
  constructor
  · intro hm
    rw [execute_SU c o v ho i hm]
    refine ⟨rfl, ?_, ?_, flagsOf_afterArithmetic c _⟩
    · simp only [afterArithmetic, Outcome.ok]; omega
    · simp only [afterArithmetic, Outcome.ok, decide_eq_decide]; omega
  · intro hm
    rw [execute_SB c o v ho i hm]
    refine ⟨rfl, ?_, ?_, flagsOf_afterArithmetic c _⟩
    · simp only [afterArithmetic, Outcome.ok, carryIn]; split <;> omega
    · simp only [afterArithmetic, Outcome.ok, carryIn, decide_eq_decide]; split <;> omega

/-- Witness for C2: `SUB` with `A = 0xFF` and `B = 0x01`. -/
theorem subtract_family_result_witness :
    sampleEngine.A < 256 ∧ Operand.B.value sampleEngine = some 1 ∧
      DifferenceResult sampleEngine 1 0
        (execute sampleEngine (Instruction.mk 0x91 "SUB" .Implied 1 5) Operand.B) :=
  ⟨by decide, rfl,
    (subtract_family_result sampleEngine Operand.B 1 (Instruction.mk 0x91 "SUB" .Implied 1 5)
      (by decide) (by decide) rfl).1 rfl⟩

/-- C3. Compare (`CPx`, `CPM`, `CPI`): for every accumulator byte `a` and
operand byte `v` the instruction changes nothing but the flags, and ends with
`Carry = (a < v)`, `Zero = (a = v)`, and Sign and Parity those of
`(a - v) mod 256`. -/
theorem compare_result (c : Intel8008) (o : Operand) (v : Nat) (i : Instruction)
    (ha : c.A < 256) (hv : v < 256) (ho : o.value c = some v)
    (hm : i.Mnemonic = "CP" ++ o.letter) :
    CompareResult c v (execute c i o) := by
  rw [execute_CP c o v ho i hm]
  have hd := byte_difference c.A v ha hv
  have hlt : (a : Nat) → a % 256 < 256 := fun a => Nat.mod_lt _ (by decide)
  refine ⟨rfl, rfl, rfl, ?_, ?_, ?_⟩
  · simp only [Outcome.ok, beq_eq_decide, decide_eq_decide]; omega
  · simp only [Outcome.ok]
    rw [sign_byte _ (hlt _), hd]
  · simp only [Outcome.ok]
    rw [calculateParity_byte _ (hlt _), hd]

/-- Witness for C3: `CPB` with `A = 0xFF` and `B = 0x01`. -/
theorem compare_result_witness :
    sampleEngine.A < 256 ∧ Operand.B.value sampleEngine = some 1 ∧
      CompareResult sampleEngine 1
        (execute sampleEngine (Instruction.mk 0xB9 "CPB" .Implied 1 5) Operand.B) :=
  ⟨by decide, rfl,
    compare_result sampleEngine Operand.B 1 (Instruction.mk 0xB9 "CPB" .Implied 1 5)
      (by decide) (by decide) rfl rfl⟩

/-- C4, as stated, fails: there is no engine, accumulator byte and operand byte
at which subtract (`SUx`, `SUM`, `SUI`) and compare (`CPx`, `CPM`, `CPI`), run
from the same state, end with different Carry flags. -/
theorem subtract_compare_carry_never_differ :
    ¬ ∃ (c : Intel8008) (o : Operand) (v : Nat) (i j : Instruction),
      c.A < 256 ∧ v < 256 ∧ o.value c = some v ∧
      i.Mnemonic = "SU" ++ o.letter ∧ j.Mnemonic = "CP" ++ o.letter ∧
      (execute c i o).cpu.Flags.Carry ≠ (execute c j o).cpu.Flags.Carry := by
  rintro ⟨c, o, v, i, j, ha, hv, ho, hi, hj, hne⟩
  have h := carry_SU_CP c o v i j ha hv ho hi hj
  exact hne (h.1.trans h.2.symm)

/-- C4, amended. Subtract and compare agree in Carry: for every accumulator
byte `a` and operand byte `v`, both the subtract instruction and the compare
instruction end with `Carry = (a < v)`; for the byte operands of the engine
the widened test "difference exceeds 255" is the borrow test. -/
theorem subtract_compare_carry_agree (c : Intel8008) (o : Operand) (v : Nat)
    (i j : Instruction) (ha : c.A < 256) (hv : v < 256) (ho : o.value c = some v)
    (hi : i.Mnemonic = "SU" ++ o.letter) (hj : j.Mnemonic = "CP" ++ o.letter) :
    (execute c i o).cpu.Flags.Carry = decide (c.A < v) ∧
    (execute c j o).cpu.Flags.Carry = decide (c.A < v) ∧
    (execute c i o).cpu.Flags.Carry = (execute c j o).cpu.Flags.Carry := by
  have h := carry_SU_CP c o v i j ha hv ho hi hj
  exact ⟨h.1, h.2, h.1.trans h.2.symm⟩

/-- Witness for C4, amended: `SUI 0x05` and `CPI 0x05` with `A = 0x03`. -/
theorem subtract_compare_carry_agree_witness :
    ({ sampleEngine with A := 3 } : Intel8008).A < 256 ∧
      (execute { sampleEngine with A := 3 } (Instruction.mk 0x14 "SUI" .Immediate 2 8)
        (Operand.I 5)).cpu.Flags.Carry = true ∧
      (execute { sampleEngine with A := 3 } (Instruction.mk 0x3C "CPI" .Immediate 2 8)
        (Operand.I 5)).cpu.Flags.Carry = true :=
  have h := subtract_compare_carry_agree { sampleEngine with A := 3 } (Operand.I 5) 5
    (Instruction.mk 0x14 "SUI" .Immediate 2 8) (Instruction.mk 0x3C "CPI" .Immediate 2 8)
    (by decide) (by decide) rfl rfl rfl
  ⟨by decide, h.1, h.2.1⟩

/-- C5. For every byte `b`, `calculateParity b` is true exactly when `b` has an
even number of set bits. -/
theorem calculateParity_even (b : Nat) (hb : b < 256) :
    calculateParity b = true ↔ setBits b % 2 = 0 := by
  rw [calculateParity_byte b hb, decide_eq_true_iff]

/-- Witness for C5: the byte `0xFF`, with eight set bits. -/
theorem calculateParity_even_witness :
    0xFF < 256 ∧ (calculateParity 0xFF = true ↔ setBits 0xFF % 2 = 0) :=
  ⟨by decide, calculateParity_even 0xFF (by decide)⟩


/-! ## Fetch, decode, dispatch -/

theorem lookupInstruction_mem (l : List (Nat × Instruction)) (op : Nat) (i : Instruction)
    (h : lookupInstruction l op = some i) : (op, i) ∈ l := by
  unfold lookupInstruction at h
  obtain ⟨e, he, rfl⟩ := Option.map_eq_some'.mp h
  have hk := List.find?_some he
  have hmem := List.mem_of_find?_eq_some he
  have : e.1 = op := by simpa using hk
  rw [← this]
  exact hmem

theorem andThen_wait_fault (r : Outcome) (n : Nat) :
    (Outcome.andThen r fun c => Outcome.ok (WaitForCycles c n)).fault = r.fault := by
  unfold Outcome.andThen
  split
  · next h => simp [Outcome.ok, h]
  · rfl

theorem andThen_wait_flags (r : Outcome) (n : Nat) :
    (Outcome.andThen r fun c => Outcome.ok (WaitForCycles c n)).cpu.Flags = r.cpu.Flags := by
  unfold Outcome.andThen
  split <;> rfl

theorem ExecuteInstruction_implied (c : Intel8008) (op : Nat) (i : Instruction)
    (hop : c.Memory[c.PC]? = some op) (hi : lookupInstruction c.Instructions op = some i)
    (hmode : i.Mode = AddressingMode.Implied) :
    ExecuteInstruction c =
      Outcome.andThen (executeImplied { c with PC := (c.PC + 1) % 65536 } i)
        fun c => Outcome.ok (WaitForCycles c i.Cycles) := by
  simp [ExecuteInstruction, Outcome.read, hop, hi, hmode]

theorem ExecuteInstruction_immediate (c : Intel8008) (op : Nat) (i : Instruction)
    (hop : c.Memory[c.PC]? = some op) (hi : lookupInstruction c.Instructions op = some i)
    (hmode : i.Mode = AddressingMode.Immediate) :
    ExecuteInstruction c =
      Outcome.andThen
        (Outcome.read c ((c.PC + 1) % 65536) fun value =>
          executeImmediate { c with PC := (c.PC + 2) % 65536 } i value)
        fun c => Outcome.ok (WaitForCycles c i.Cycles) := by
  simp [ExecuteInstruction, Outcome.read, hop, hi, hmode]

theorem ExecuteInstruction_absolute (c : Intel8008) (op : Nat) (i : Instruction)
    (hop : c.Memory[c.PC]? = some op) (hi : lookupInstruction c.Instructions op = some i)
    (hmode : i.Mode = AddressingMode.Absolute) :
    ExecuteInstruction c =
      Outcome.andThen
        (Outcome.read c ((c.PC + 1) % 65536) fun low =>
          Outcome.read c ((c.PC + 2) % 65536) fun high =>
          executeAbsolute { c with PC := (c.PC + 3) % 65536 } i
            (low ||| ((high <<< 8) % 65536)))
        fun c => Outcome.ok (WaitForCycles c i.Cycles) := by
  simp [ExecuteInstruction, Outcome.read, hop, hi, hmode]

/-! ## Loads -/

theorem executeImplied_load_flags (c : Intel8008) (i : Instruction)
    (hm : i.Mnemonic ∈ impliedLoads) :
    (executeImplied c i).cpu.Flags = c.Flags ∧
    ((executeImplied c i).fault = none ∨
      ∃ k, c.Memory.length ≤ k ∧ (executeImplied c i).fault = some (Fault.indexOutOfRange k)) := by
  generalize hn : i.Mnemonic = m at hm
  fin_cases hm <;>
    simp [executeImplied, hn, Outcome.ok, Outcome.stop, Outcome.read, Outcome.write]
  all_goals split <;> simp_all [List.getElem?_eq_none_iff]

theorem executeImmediate_load_flags (c : Intel8008) (i : Instruction) (value : Nat)
    (hm : i.Mnemonic ∈ immediateLoads) :
    (executeImmediate c i value).cpu.Flags = c.Flags ∧
    ((executeImmediate c i value).fault = none ∨
      ∃ k, c.Memory.length ≤ k ∧
        (executeImmediate c i value).fault = some (Fault.indexOutOfRange k)) := by
  generalize hn : i.Mnemonic = m at hm
  fin_cases hm <;>
    simp [executeImmediate, hn, Outcome.ok, Outcome.stop, Outcome.read, Outcome.write]
  split <;> simp_all

theorem load_modes :
    ∀ e ∈ Intel8008Instructions,
      (e.2.Mnemonic ∈ impliedLoads → e.2.Mode = AddressingMode.Implied) ∧
      (e.2.Mnemonic ∈ immediateLoads → e.2.Mode = AddressingMode.Immediate) ∧
      (beginsWithL e.2.Mnemonic = true →
        e.2.Mnemonic ∈ impliedLoads ∨ e.2.Mnemonic ∈ immediateLoads) := by
  decide

/-! ## Claim C6: loads -/

/-- C6. Loads leave the flags alone: whenever the instruction `ExecuteInstruction`
decodes at `PC` is a load (`Lxy`, `LxM`, `LMx`, `LxI`, `LMI`), all four flags are
afterwards exactly as before, and the instruction runs to its end unless a
memory index lies outside the engine's memory.  The two lists hold every
mnemonic of the table that begins with `L`. -/
theorem load_keeps_flags (c : Intel8008) (op : Nat) (i : Instruction)
    (hI : c.Instructions = Intel8008Instructions)
    (hop : c.Memory[c.PC]? = some op)
    (hi : lookupInstruction Intel8008Instructions op = some i)
    (hl : i.Mnemonic ∈ impliedLoads ∨ i.Mnemonic ∈ immediateLoads) :
    (ExecuteInstruction c).cpu.Flags = c.Flags ∧
    ((ExecuteInstruction c).fault = none ∨
      ∃ k, c.Memory.length ≤ k ∧ (ExecuteInstruction c).fault = some (Fault.indexOutOfRange k)) ∧
    (∀ e ∈ Intel8008Instructions, beginsWithL e.2.Mnemonic = true →
      e.2.Mnemonic ∈ impliedLoads ∨ e.2.Mnemonic ∈ immediateLoads) := by
  have hmem := lookupInstruction_mem _ _ _ hi
  have hmodes := load_modes (op, i) hmem
  refine ⟨?_, ?_, fun e he => (load_modes e he).2.2⟩
  · rcases hl with hl | hl
    · rw [ExecuteInstruction_implied c op i hop (hI ▸ hi) (hmodes.1 hl), andThen_wait_flags]
      exact (executeImplied_load_flags _ i hl).1
    · rw [ExecuteInstruction_immediate c op i hop (hI ▸ hi) (hmodes.2.1 hl), andThen_wait_flags]
      unfold Outcome.read
      split
      · exact (executeImmediate_load_flags _ i _ hl).1
      · rfl
  · rcases hl with hl | hl
    · rw [ExecuteInstruction_implied c op i hop (hI ▸ hi) (hmodes.1 hl), andThen_wait_fault]
      exact (executeImplied_load_flags _ i hl).2
    · rw [ExecuteInstruction_immediate c op i hop (hI ▸ hi) (hmodes.2.1 hl), andThen_wait_fault]
      unfold Outcome.read
      split
      · exact (executeImmediate_load_flags _ i _ hl).2
      · next h =>
        exact Or.inr ⟨_, List.getElem?_eq_none_iff.mp h, rfl⟩

/-- Witness for C6: `LAM` at address 0 of a four-byte memory. -/
theorem load_keeps_flags_witness :
    (engineWith [0xC7, 0, 0, 0]).Memory[(engineWith [0xC7, 0, 0, 0]).PC]? = some 0xC7 ∧
      (ExecuteInstruction (engineWith [0xC7, 0, 0, 0])).cpu.Flags =
        (engineWith [0xC7, 0, 0, 0]).Flags :=
  ⟨rfl, (load_keeps_flags (engineWith [0xC7, 0, 0, 0]) 0xC7
    (Instruction.mk 0xC7 "LAM" .Implied 1 8) rfl rfl rfl (Or.inl (by decide))).1⟩

/-! ## Lemmas for increments, logical operations and rotates -/

theorem bit0_byte (b : Nat) (hb : b < 256) : ((b &&& 0x01) != 0) = b.testBit 0 := by
  revert b
  decide

theorem rotateLeft_byte (a : Nat) (ha : a < 256) :
    IsRotateLeft a (((a <<< 1) % 256) ||| (a >>> 7)) := by
  unfold IsRotateLeft
  revert a
  decide

theorem rotateRight_byte (a : Nat) (ha : a < 256) :
    IsRotateRight a ((a >>> 1) ||| ((a <<< 7) % 256)) := by
  unfold IsRotateRight
  revert a
  decide

theorem execute_logical_carry (c : Intel8008) (o : Operand) (v : Nat) (i : Instruction)
    (ho : o.value c = some v)
    (hm : i.Mnemonic = "ND" ++ o.letter ∨ i.Mnemonic = "XR" ++ o.letter ∨
      i.Mnemonic = "OR" ++ o.letter) :
    (execute c i o).fault = none ∧ (execute c i o).cpu.Flags.Carry = c.Flags.Carry := by
  rcases hm with hm | hm | hm <;> cases o <;> simp [Operand.letter] at hm <;>
    simp [Operand.value] at ho <;>
    simp [execute, executeImplied, executeImmediate, hm, Outcome.ok, Outcome.read, ho,
      updateFlags]

/-! ## Claims C7 to C9 -/

/-- C7. Increment and decrement: for every register `r` among B, C, D, E, H, L
holding the byte `x`, `INr` ends with `r = (x + 1) mod 256` and `DCr` with
`r = (x - 1) mod 256`; Zero, Sign and Parity are those of the new value and
Carry is unchanged. -/
theorem increment_decrement_result (c : Intel8008) (o : Operand) (x : Nat) (i : Instruction)
    (ho : o ∈ indexRegisters) (hx : o.value c = some x) (hx256 : x < 256) :
    (i.Mnemonic = "IN" ++ o.letter → CountResult c o ((x + 1) % 256) (executeImplied c i)) ∧
    (i.Mnemonic = "DC" ++ o.letter →
      CountResult c o (((x : Int) - 1) % 256).toNat (executeImplied c i)) := by
  have hy : (((x : Int) - 1) % 256).toNat = (x + 255) % 256 := by omega
  rw [hy]
  have hlt : ∀ n : Nat, n % 256 < 256 := fun n => Nat.mod_lt _ (by decide)
  constructor <;> intro hm <;> fin_cases ho <;> simp [Operand.letter] at hm <;>
    simp [Operand.value] at hx <;> subst hx <;>
    refine ⟨?_, ?_, flagsOf_byte _ _ (hlt _) ?_ ?_ ?_, ?_⟩ <;>
    simp [executeImplied, hm, updateFlags, Outcome.ok, Operand.value]

/-- Witness for C7: `INB` with `B = 0x01`. -/
theorem increment_decrement_result_witness :
    Operand.B ∈ indexRegisters ∧ Operand.B.value sampleEngine = some 1 ∧
      CountResult sampleEngine Operand.B 2
        (executeImplied sampleEngine (Instruction.mk 0x08 "INB" .Implied 1 5)) :=
  ⟨by decide, rfl,
    (increment_decrement_result sampleEngine Operand.B 1 (Instruction.mk 0x08 "INB" .Implied 1 5)
      (by decide) rfl (by decide)).1 rfl⟩

/-- C8 fails on the code. `NDB` run on two engines that differ only in the
Carry flag ends with Carry set in the one and clear in the other: the logical
instructions pass Carry through instead of recomputing it. -/
theorem logical_carry_inherited :
    sampleEngineCarry = { sampleEngine with Flags := { sampleEngine.Flags with Carry := true } } ∧
    (executeImplied sampleEngine instructionNDB).fault = none ∧
    (executeImplied sampleEngineCarry instructionNDB).fault = none ∧
    (executeImplied sampleEngine instructionNDB).cpu.Flags.Carry = false ∧
    (executeImplied sampleEngineCarry instructionNDB).cpu.Flags.Carry = true := by
  refine ⟨rfl, ?_, ?_, ?_, ?_⟩ <;>
    simp [executeImplied, instructionNDB, updateFlags, Outcome.ok, sampleEngineCarry,
      sampleEngine, NewIntel8008]

/-- C9. Rotates touch only the accumulator and Carry.  `RLC` rotates `A` left
by one bit and copies old bit 7 to Carry; `RRC` rotates right and copies old
bit 0; `RAL` ends with `A = (A << 1 mod 256) | old Carry` and Carry = old bit 7;
`RAR` ends with `A = (A >> 1) | (old Carry << 7)` and Carry = old bit 0. -/
theorem rotate_result (c : Intel8008) (i : Instruction) (ha : c.A < 256) :
    (i.Mnemonic = "RLC" → ∃ r, IsRotateLeft c.A r ∧
      executeImplied c i =
        Outcome.ok { c with A := r, Flags := { c.Flags with Carry := c.A.testBit 7 } }) ∧
    (i.Mnemonic = "RRC" → ∃ r, IsRotateRight c.A r ∧
      executeImplied c i =
        Outcome.ok { c with A := r, Flags := { c.Flags with Carry := c.A.testBit 0 } }) ∧
    (i.Mnemonic = "RAL" →
      executeImplied c i =
        Outcome.ok { c with A := ((c.A <<< 1) % 256) ||| carryIn c,
                            Flags := { c.Flags with Carry := c.A.testBit 7 } }) ∧
    (i.Mnemonic = "RAR" →
      executeImplied c i =
        Outcome.ok { c with A := (c.A >>> 1) ||| (carryIn c <<< 7),
                            Flags := { c.Flags with Carry := c.A.testBit 0 } }) := by
  have h7 := sign_byte c.A ha
  have h0 := bit0_byte c.A ha
  refine ⟨fun hm => ⟨_, rotateLeft_byte c.A ha, ?_⟩, fun hm => ⟨_, rotateRight_byte c.A ha, ?_⟩,
    fun hm => ?_, fun hm => ?_⟩
  · simp [executeImplied, hm, Outcome.ok, ← h7]
  · simp [executeImplied, hm, Outcome.ok, ← h0]
  · cases hc : c.Flags.Carry <;> simp [executeImplied, hm, Outcome.ok, ← h7, carryIn, hc]
  · cases hc : c.Flags.Carry <;> simp [executeImplied, hm, Outcome.ok, ← h0, carryIn, hc]


/-- Witness for C9: `RAL` with `A = 0xFF` and Carry clear. -/
theorem rotate_result_witness :
    sampleEngine.A < 256 ∧
      executeImplied sampleEngine (Instruction.mk 0x12 "RAL" .Implied 1 5) =
        Outcome.ok { sampleEngine with A := 0xFE,
                                       Flags := { sampleEngine.Flags with Carry := true } } :=
  ⟨by decide,
    (rotate_result sampleEngine (Instruction.mk 0x12 "RAL" .Implied 1 5) (by decide)).2.2.1 rfl⟩

/-! ## Jumps and calls -/

theorem transfer_modes :
    ∀ e ∈ Intel8008Instructions, e.2.Mnemonic ∈ transferMnemonics →
      e.2.Mode = AddressingMode.Absolute ∧ e.2.Cycles = 11 := by
  decide

theorem address_of_bytes (t : Nat) (ht : t < 65536) :
    (t % 256) ||| (((t / 256) <<< 8) % 65536) = t := by
  have h1 : (t / 256) <<< 8 = 2 ^ 8 * (t / 256) := by
    rw [Nat.shiftLeft_eq, Nat.mul_comm]
  have h2 : t % 256 < 2 ^ 8 := Nat.mod_lt _ (by decide)
  have h3 : 2 ^ 8 * (t / 256) < 65536 := by omega
  rw [h1, Nat.mod_eq_of_lt h3, Nat.or_comm, ← Nat.mul_add_lt_is_or h2]
  omega

theorem ExecuteInstruction_transfer (c : Intel8008) (op t : Nat) (i : Instruction)
    (hI : c.Instructions = Intel8008Instructions)
    (hi : lookupInstruction Intel8008Instructions op = some i)
    (hop : c.Memory[c.PC]? = some op)
    (hlo : c.Memory[(c.PC + 1) % 65536]? = some (t % 256))
    (hhi : c.Memory[(c.PC + 2) % 65536]? = some (t / 256))
    (ht : t < 65536) (hm : i.Mnemonic ∈ transferMnemonics) :
    ExecuteInstruction c =
      Outcome.andThen (executeAbsolute { c with PC := (c.PC + 3) % 65536 } i t)
        fun c => Outcome.ok (WaitForCycles c 11) := by
  have hmodes := transfer_modes (op, i) (lookupInstruction_mem _ _ _ hi) hm
  rw [ExecuteInstruction_absolute c op i hop (hI ▸ hi) hmodes.1]
  have hcycles : i.Cycles = 11 := hmodes.2
  simp only [Outcome.read, hlo, hhi, address_of_bytes t ht, hcycles]

/-! ## Claim C10: jumps and conditional calls -/

/-- C10. Jumps and conditional calls, for a 16-bit target `t` and an
instruction at `PC = p`.  `JMP` ends with `PC = t`; `JTF` (`JFF`) ends with
`PC = t` when the flag `F` is true (false) and with `PC = p + 3` (16-bit)
otherwise; a jump changes nothing but `PC` and the cycle counter.  `CTF`
(`CFF`) with `F` true (false) pushes the return address `p + 3` and ends with
`PC = t`; otherwise it ends with `PC = p + 3`, and `SP` and memory unchanged.
The opcode and the two bytes of `t` are read from memory at `p`, `p + 1`,
`p + 2`; a taken call needs the two bytes below `SP` to lie inside memory. -/
theorem jump_call_result (c : Intel8008) (op t : Nat) (i : Instruction) (F : Flag)
    (hI : c.Instructions = Intel8008Instructions)
    (hi : lookupInstruction Intel8008Instructions op = some i)
    (hop : c.Memory[c.PC]? = some op)
    (hlo : c.Memory[(c.PC + 1) % 65536]? = some (t % 256))
    (hhi : c.Memory[(c.PC + 2) % 65536]? = some (t / 256))
    (ht : t < 65536) :
    (i.Mnemonic = "JMP" → ExecuteInstruction c = Outcome.ok (afterJump c t)) ∧
    (i.Mnemonic = "JT" ++ F.letter → ExecuteInstruction c =
      Outcome.ok (afterJump c (if F.get c.Flags then t else (c.PC + 3) % 65536))) ∧
    (i.Mnemonic = "JF" ++ F.letter → ExecuteInstruction c =
      Outcome.ok (afterJump c (if F.get c.Flags then (c.PC + 3) % 65536 else t))) ∧
    (i.Mnemonic = "CT" ++ F.letter →
      (F.get c.Flags = true → StackRoom c →
        ExecuteInstruction c = Outcome.ok (afterCall c t ((c.PC + 3) % 65536))) ∧
      (F.get c.Flags = false →
        ExecuteInstruction c = Outcome.ok (afterJump c ((c.PC + 3) % 65536)))) ∧
    (i.Mnemonic = "CF" ++ F.letter →
      (F.get c.Flags = false → StackRoom c →
        ExecuteInstruction c = Outcome.ok (afterCall c t ((c.PC + 3) % 65536))) ∧
      (F.get c.Flags = true →
        ExecuteInstruction c = Outcome.ok (afterJump c ((c.PC + 3) % 65536)))) := by
  have h1 : ((c.SP + 255) % 256 + 255) % 256 = (c.SP + 254) % 256 := by omega
  have h2 : (((c.PC + 3) % 65536) >>> 8) % 256 = (c.PC + 3) % 65536 / 256 := by
    rw [Nat.shiftRight_eq_div_pow]
    omega
  refine ⟨fun hm => ?_, fun hm => ?_, fun hm => ?_, fun hm => ⟨fun hF hroom => ?_, fun hF => ?_⟩,
    fun hm => ⟨fun hF hroom => ?_, fun hF => ?_⟩⟩
  · rw [ExecuteInstruction_transfer c op t i hI hi hop hlo hhi ht (by simp [hm, transferMnemonics])]
    simp [executeAbsolute, hm, Outcome.andThen, Outcome.ok, WaitForCycles, afterJump]
  · rw [ExecuteInstruction_transfer c op t i hI hi hop hlo hhi ht
      (by cases F <;> simp [hm, transferMnemonics, Flag.letter])]
    cases F <;> simp [Flag.letter] at hm <;>
      simp [executeAbsolute, hm, Outcome.andThen, Outcome.ok, WaitForCycles, afterJump, Flag.get] <;>
      split <;> simp_all
  · rw [ExecuteInstruction_transfer c op t i hI hi hop hlo hhi ht
      (by cases F <;> simp [hm, transferMnemonics, Flag.letter])]
    cases F <;> simp [Flag.letter] at hm <;>
      simp [executeAbsolute, hm, Outcome.andThen, Outcome.ok, WaitForCycles, afterJump, Flag.get] <;>
      split <;> simp_all
  · rw [ExecuteInstruction_transfer c op t i hI hi hop hlo hhi ht
      (by cases F <;> simp [hm, transferMnemonics, Flag.letter])]
    cases F <;> simp [Flag.letter] at hm <;> simp only [Flag.get] at hF <;>
      simp [executeAbsolute, hm, hF, Outcome.write, Outcome.andThen, Outcome.ok, WaitForCycles,
        afterCall, hroom.1, hroom.2, h1, h2]
  · rw [ExecuteInstruction_transfer c op t i hI hi hop hlo hhi ht
      (by cases F <;> simp [hm, transferMnemonics, Flag.letter])]
    cases F <;> simp [Flag.letter] at hm <;> simp only [Flag.get] at hF <;>
      simp [executeAbsolute, hm, hF, Outcome.andThen, Outcome.ok, WaitForCycles, afterJump]
  · rw [ExecuteInstruction_transfer c op t i hI hi hop hlo hhi ht
      (by cases F <;> simp [hm, transferMnemonics, Flag.letter])]
    cases F <;> simp [Flag.letter] at hm <;> simp only [Flag.get] at hF <;>
      simp [executeAbsolute, hm, hF, Outcome.write, Outcome.andThen, Outcome.ok, WaitForCycles,
        afterCall, hroom.1, hroom.2, h1, h2]
  · rw [ExecuteInstruction_transfer c op t i hI hi hop hlo hhi ht
      (by cases F <;> simp [hm, transferMnemonics, Flag.letter])]
    cases F <;> simp [Flag.letter] at hm <;> simp only [Flag.get] at hF <;>
      simp [executeAbsolute, hm, hF, Outcome.andThen, Outcome.ok, WaitForCycles, afterJump]


/-- Witness for C10: `CTC $0034` at address 0 with Carry set and `SP = 0xFF`. -/
theorem jump_call_result_witness :
    callEngine.Memory[callEngine.PC]? = some 0x62 ∧ StackRoom callEngine ∧
      ExecuteInstruction callEngine = Outcome.ok (afterCall callEngine 0x34 3) :=
  ⟨rfl, by unfold StackRoom; decide,
    ((jump_call_result callEngine 0x62 0x34 (Instruction.mk 0x62 "CTC" .Absolute 3 11) Flag.Carry
      rfl rfl rfl rfl rfl (by decide)).2.2.2.1 rfl).1 rfl (by unfold StackRoom; decide)⟩

/-! ## Claims C11 and C12: call and return -/

theorem return_modes :
    ∀ e ∈ Intel8008Instructions, e.2.Mnemonic = "RET" →
      e.2.Mode = AddressingMode.Implied ∧ e.2.Cycles = 5 := by
  decide

theorem ExecuteInstruction_CAL (c : Intel8008) (op t : Nat) (i : Instruction)
    (hI : c.Instructions = Intel8008Instructions)
    (hi : lookupInstruction Intel8008Instructions op = some i)
    (hm : i.Mnemonic = "CAL")
    (hop : c.Memory[c.PC]? = some op)
    (hlo : c.Memory[(c.PC + 1) % 65536]? = some (t % 256))
    (hhi : c.Memory[(c.PC + 2) % 65536]? = some (t / 256))
    (ht : t < 65536) (hmem : 256 ≤ c.Memory.length) :
    ExecuteInstruction c = Outcome.ok (afterCall c t ((c.PC + 3) % 65536)) := by
  have h1 : ((c.SP + 255) % 256 + 255) % 256 = (c.SP + 254) % 256 := by omega
  have h2 : (((c.PC + 3) % 65536) >>> 8) % 256 = (c.PC + 3) % 65536 / 256 := by
    rw [Nat.shiftRight_eq_div_pow]
    omega
  have h3 : (c.SP + 255) % 256 < c.Memory.length := by omega
  have h4 : (c.SP + 254) % 256 < c.Memory.length := by omega
  rw [ExecuteInstruction_transfer c op t i hI hi hop hlo hhi ht (by simp [hm, transferMnemonics])]
  simp [executeAbsolute, hm, Outcome.write, Outcome.andThen, Outcome.ok, WaitForCycles,
    afterCall, h1, h2, h3, h4]

/-- C11. `CAL` on an engine with at least 256 bytes of memory, fetched at
`PC = p` with stack pointer `s` and target `t`: afterwards `SP = (s - 2) mod 256`,
the byte at `(s - 1) mod 256` is the high byte and the byte at `(s - 2) mod 256`
the low byte of the return address `p + 3` (16-bit), `PC = t`, and no other
memory byte, no register and no flag has changed. -/
theorem call_result (c : Intel8008) (op t : Nat) (i : Instruction)
    (hI : c.Instructions = Intel8008Instructions)
    (hi : lookupInstruction Intel8008Instructions op = some i)
    (hm : i.Mnemonic = "CAL")
    (hop : c.Memory[c.PC]? = some op)
    (hlo : c.Memory[(c.PC + 1) % 65536]? = some (t % 256))
    (hhi : c.Memory[(c.PC + 2) % 65536]? = some (t / 256))
    (ht : t < 65536) (hmem : 256 ≤ c.Memory.length) :
    (ExecuteInstruction c).fault = none ∧ CallResult c t (ExecuteInstruction c).cpu := by
  rw [ExecuteInstruction_CAL c op t i hI hi hm hop hlo hhi ht hmem]
  have e1 : (((c.SP : Int) - 1) % 256).toNat = (c.SP + 255) % 256 := by omega
  have e2 : (((c.SP : Int) - 2) % 256).toNat = (c.SP + 254) % 256 := by omega
  have hne : (c.SP + 255) % 256 ≠ (c.SP + 254) % 256 := by omega
  have h3 : (c.SP + 255) % 256 < c.Memory.length := by omega
  have h4 : (c.SP + 254) % 256 < c.Memory.length := by omega
  refine ⟨rfl, ?_⟩
  simp only [CallResult, e1, e2, Outcome.ok, afterCall]
  refine ⟨trivial, ?_, ?_, trivial, ?_, ?_, trivial⟩
  · rw [List.getElem?_set_ne (Ne.symm hne), List.getElem?_set_self]
    simp [h3]
  · rw [List.getElem?_set_self]
    simp [h4]
  · simp
  · intro k hk1 hk2
    rw [List.getElem?_set_ne (Ne.symm hk2), List.getElem?_set_ne (Ne.symm hk1)]


/-- Witness for C11: `CAL $0003` at address 0 of a 256-byte engine. -/
theorem call_result_witness :
    256 ≤ callReturnEngine.Memory.length ∧
      (ExecuteInstruction callReturnEngine).fault = none ∧
      CallResult callReturnEngine 3 (ExecuteInstruction callReturnEngine).cpu :=
  ⟨by decide,
    call_result callReturnEngine 0x46 3 (Instruction.mk 0x46 "CAL" .Absolute 3 11)
      rfl rfl rfl rfl rfl rfl (by decide) (by decide)⟩

/-- C12. Call/return round trip on an engine with at least 256 bytes of
memory: `CAL t` fetched at `PC = p` with stack pointer `s` (any byte, also 0
and 1 where the pointer wraps), followed at once by the `RET` found at `t`,
ends with `PC = p + 3` (16-bit) and `SP = s`. -/
theorem call_return_round_trip (c : Intel8008) (op t rop : Nat) (i j : Instruction)
    (hI : c.Instructions = Intel8008Instructions)
    (hi : lookupInstruction Intel8008Instructions op = some i)
    (hm : i.Mnemonic = "CAL")
    (hop : c.Memory[c.PC]? = some op)
    (hlo : c.Memory[(c.PC + 1) % 65536]? = some (t % 256))
    (hhi : c.Memory[(c.PC + 2) % 65536]? = some (t / 256))
    (ht : t < 65536) (hmem : 256 ≤ c.Memory.length) (hs : c.SP < 256)
    (hret : (afterCall c t ((c.PC + 3) % 65536)).Memory[t]? = some rop)
    (hj : lookupInstruction Intel8008Instructions rop = some j)
    (hn : j.Mnemonic = "RET") :
    ∃ c₁ c₂, ExecuteInstruction c = Outcome.ok c₁ ∧ ExecuteInstruction c₁ = Outcome.ok c₂ ∧
      c₂.PC = (c.PC + 3) % 65536 ∧ c₂.SP = c.SP := by
  have hcall := ExecuteInstruction_CAL c op t i hI hi hm hop hlo hhi ht hmem
  have hmodes := return_modes (rop, j) (lookupInstruction_mem _ _ _ hj) hn
  have hne : (c.SP + 255) % 256 ≠ (c.SP + 254) % 256 := by omega
  have h3 : (c.SP + 255) % 256 < c.Memory.length := by omega
  have h4 : (c.SP + 254) % 256 < c.Memory.length := by omega
  have h5 : ((c.SP + 254) % 256 + 1) % 256 = (c.SP + 255) % 256 := by omega
  have h6 : ((c.SP + 254) % 256 + 2) % 256 = c.SP := by omega
  have hlow : (afterCall c t ((c.PC + 3) % 65536)).Memory[(c.SP + 254) % 256]? =
      some ((c.PC + 3) % 65536 % 256) := by
    simp only [afterCall]
    rw [List.getElem?_set_self]
    simp [h4]
  have hhigh : (afterCall c t ((c.PC + 3) % 65536)).Memory[(c.SP + 255) % 256]? =
      some ((c.PC + 3) % 65536 / 256) := by
    simp only [afterCall]
    rw [List.getElem?_set_ne (Ne.symm hne), List.getElem?_set_self]
    simp [h3]
  have haddr := address_of_bytes ((c.PC + 3) % 65536) (Nat.mod_lt _ (by decide))
  have hsp : (afterCall c t ((c.PC + 3) % 65536)).SP = (c.SP + 254) % 256 := rfl
  have hins : (afterCall c t ((c.PC + 3) % 65536)).Instructions = Intel8008Instructions := hI
  have hcycles : j.Cycles = 5 := hmodes.2
  have hpc : (afterCall c t ((c.PC + 3) % 65536)).PC = t := rfl
  generalize afterCall c t ((c.PC + 3) % 65536) = c₁ at hcall hret hlow hhigh hsp hins hpc
  rw [← hpc] at hret
  refine ⟨c₁, { c₁ with PC := (c.PC + 3) % 65536, SP := c.SP, Cycles := c₁.Cycles + 5 },
    hcall, ?_, rfl, rfl⟩
  rw [ExecuteInstruction_implied c₁ rop j hret (hins ▸ hj) hmodes.1]
  simp [executeImplied, hn, Outcome.read, Outcome.andThen, Outcome.ok, WaitForCycles, hsp, hlow,
    hhigh, h5, h6, haddr, hcycles]

/-- Witness for C12: `CAL $0003` at address 0, `RET` at address 3, `SP = 0xFF`. -/
theorem call_return_round_trip_witness :
    256 ≤ callReturnEngine.Memory.length ∧ callReturnEngine.SP < 256 ∧
      ∃ c₁ c₂, ExecuteInstruction callReturnEngine = Outcome.ok c₁ ∧
        ExecuteInstruction c₁ = Outcome.ok c₂ ∧ c₂.PC = 3 ∧ c₂.SP = 0xFF :=
  ⟨by decide, by decide,
    call_return_round_trip callReturnEngine 0x46 3 0x07
      (Instruction.mk 0x46 "CAL" .Absolute 3 11) (Instruction.mk 0x07 "RET" .Implied 1 5)
      rfl rfl rfl rfl rfl rfl (by decide) (by decide) (by decide) rfl rfl rfl⟩

/-! ## Claim C16: sizes, modes and cycles of the table -/

theorem table_sizes_all :
    ∀ e ∈ Intel8008Instructions,
      e.2.Size = modeSize e.2.Mode ∧ e.2.Mode ≠ AddressingMode.Relative ∧ 0 < e.2.Cycles ∧
      e.2.Opcode = e.1 := by
  decide

/-- C16. Every entry of the instruction table declares the size of its
addressing mode (Immediate 2, Absolute 3, Implied 1), none is Relative, every
cycle count is positive; and `ExecuteInstruction`, having decoded the entry `i`
at `PC`, runs the handler of its mode with `PC` advanced by `i.Size`. -/
theorem table_sizes (c : Intel8008) (op : Nat) (i : Instruction)
    (hI : c.Instructions = Intel8008Instructions)
    (hop : c.Memory[c.PC]? = some op)
    (hi : lookupInstruction Intel8008Instructions op = some i) :
    (∀ e ∈ Intel8008Instructions,
      e.2.Size = modeSize e.2.Mode ∧ e.2.Mode ≠ AddressingMode.Relative ∧ 0 < e.2.Cycles) ∧
    (i.Mode = AddressingMode.Implied →
      ExecuteInstruction c =
        Outcome.andThen (executeImplied { c with PC := (c.PC + i.Size) % 65536 } i)
          fun c => Outcome.ok (WaitForCycles c i.Cycles)) ∧
    (i.Mode = AddressingMode.Immediate →
      ExecuteInstruction c =
        Outcome.andThen
          (Outcome.read c ((c.PC + 1) % 65536) fun value =>
            executeImmediate { c with PC := (c.PC + i.Size) % 65536 } i value)
          fun c => Outcome.ok (WaitForCycles c i.Cycles)) ∧
    (i.Mode = AddressingMode.Absolute →
      ExecuteInstruction c =
        Outcome.andThen
          (Outcome.read c ((c.PC + 1) % 65536) fun low =>
            Outcome.read c ((c.PC + 2) % 65536) fun high =>
            executeAbsolute { c with PC := (c.PC + i.Size) % 65536 } i
              (low ||| ((high <<< 8) % 65536)))
          fun c => Outcome.ok (WaitForCycles c i.Cycles)) := by
  have hsize := (table_sizes_all (op, i) (lookupInstruction_mem _ _ _ hi)).1
  have hi' : lookupInstruction c.Instructions op = some i := hI ▸ hi
  refine ⟨fun e he => ⟨(table_sizes_all e he).1, (table_sizes_all e he).2.1,
    (table_sizes_all e he).2.2.1⟩, fun hmode => ?_, fun hmode => ?_, fun hmode => ?_⟩
  · have hs : i.Size = 1 := by simpa [hmode, modeSize] using hsize
    rw [hs]
    exact ExecuteInstruction_implied c op i hop hi' hmode
  · have hs : i.Size = 2 := by simpa [hmode, modeSize] using hsize
    rw [hs]
    exact ExecuteInstruction_immediate c op i hop hi' hmode
  · have hs : i.Size = 3 := by simpa [hmode, modeSize] using hsize
    rw [hs]
    exact ExecuteInstruction_absolute c op i hop hi' hmode

/-- Witness for C16: `CAL $0003` at address 0, an Absolute entry of size 3. -/
theorem table_sizes_witness :
    callReturnEngine.Memory[callReturnEngine.PC]? = some 0x46 ∧
      ExecuteInstruction callReturnEngine =
        Outcome.andThen
          (Outcome.read callReturnEngine 1 fun low =>
            Outcome.read callReturnEngine 2 fun high =>
            executeAbsolute { callReturnEngine with PC := 3 }
              (Instruction.mk 0x46 "CAL" .Absolute 3 11) (low ||| ((high <<< 8) % 65536)))
          fun c => Outcome.ok (WaitForCycles c 11) :=
  ⟨rfl, (table_sizes callReturnEngine 0x46 (Instruction.mk 0x46 "CAL" .Absolute 3 11)
    rfl rfl rfl).2.2.2 rfl⟩

/-! ## Frames of the handlers -/

theorem read_eq_dite (c : Intel8008) (index : Nat) (k : Nat → Outcome) :
    Outcome.read c index k =
      if h : index < c.Memory.length then k c.Memory[index]
      else Outcome.stop c (Fault.indexOutOfRange index) := by
  unfold Outcome.read
  split
  · next v hv =>
    obtain ⟨h, rfl⟩ := List.getElem?_eq_some_iff.mp hv
    simp [h]
  · next hv =>
    have h := List.getElem?_eq_none_iff.mp hv
    simp [Nat.not_lt.mpr h]

theorem executeImmediate_cycles (c : Intel8008) (i : Instruction) (v : Nat) :
    (executeImmediate c i v).cpu.Cycles = c.Cycles := by
  simp only [executeImmediate, read_eq_dite, Outcome.write, Outcome.ok, Outcome.stop,
    updateCompareFlags, apply_ite Outcome.cpu, apply_ite Intel8008.Cycles, ite_self]

theorem executeAbsolute_cycles (c : Intel8008) (i : Instruction) (v : Nat) :
    (executeAbsolute c i v).cpu.Cycles = c.Cycles := by
  simp only [executeAbsolute, read_eq_dite, Outcome.write, Outcome.ok, Outcome.stop,
    apply_ite Outcome.cpu, apply_ite Intel8008.Cycles, ite_self]

theorem executeImplied_cycles (c : Intel8008) (i : Instruction) :
    (executeImplied c i).cpu.Cycles = c.Cycles := by
  simp only [executeImplied, read_eq_dite, Outcome.write, Outcome.ok, Outcome.stop,
    updateCompareFlags, updateFlags, updateFlagsWithCarry, updateFlagsWithBorrow,
    apply_ite Outcome.cpu, apply_ite Intel8008.Cycles, apply_dite Outcome.cpu,
    apply_dite Intel8008.Cycles, ite_self, dite_eq_ite]

theorem executeImmediate_length (c : Intel8008) (i : Instruction) (v : Nat) :
    (executeImmediate c i v).cpu.Memory.length = c.Memory.length := by
  simp only [executeImmediate, read_eq_dite, Outcome.write, Outcome.ok, Outcome.stop,
    updateCompareFlags, apply_ite Outcome.cpu, apply_ite Intel8008.Memory, apply_ite List.length,
    List.length_set, ite_self]

theorem executeAbsolute_length (c : Intel8008) (i : Instruction) (v : Nat) :
    (executeAbsolute c i v).cpu.Memory.length = c.Memory.length := by
  simp only [executeAbsolute, read_eq_dite, Outcome.write, Outcome.ok, Outcome.stop,
    apply_ite Outcome.cpu, apply_ite Intel8008.Memory, apply_ite List.length,
    List.length_set, ite_self]

theorem executeImplied_length (c : Intel8008) (i : Instruction) :
    (executeImplied c i).cpu.Memory.length = c.Memory.length := by
  simp only [executeImplied, read_eq_dite, Outcome.write, Outcome.ok, Outcome.stop,
    updateCompareFlags, updateFlags, updateFlagsWithCarry, updateFlagsWithBorrow,
    apply_ite Outcome.cpu, apply_ite Intel8008.Memory, apply_ite List.length,
    apply_dite Outcome.cpu, apply_dite Intel8008.Memory, apply_dite List.length,
    List.length_set, ite_self, dite_eq_ite]

theorem address_lt (low high : Nat) (h : low < 256) :
    low ||| ((high <<< 8) % 65536) < 65536 := by
  have h1 : low < 2 ^ 16 := by omega
  have h2 : (high <<< 8) % 65536 < 2 ^ 16 := Nat.mod_lt _ (by decide)
  exact Nat.or_lt_two_pow h1 h2

theorem executeImmediate_pc (c : Intel8008) (i : Instruction) (v : Nat) (hpc : IsWord c.PC) :
    IsWord (executeImmediate c i v).cpu.PC := by
  simp only [executeImmediate, read_eq_dite, Outcome.write, Outcome.ok, Outcome.stop,
    updateCompareFlags, apply_ite Outcome.cpu, apply_ite Intel8008.PC, apply_ite IsWord, hpc,
    ite_self]

theorem executeAbsolute_pc (c : Intel8008) (i : Instruction) (v : Nat)
    (hpc : IsWord c.PC) (hv : IsWord v) :
    IsWord (executeAbsolute c i v).cpu.PC := by
  simp only [executeAbsolute, read_eq_dite, Outcome.write, Outcome.ok, Outcome.stop,
    apply_ite Outcome.cpu, apply_ite Intel8008.PC, apply_ite IsWord, hpc, hv, ite_self]

theorem executeImplied_pc (c : Intel8008) (i : Instruction) (hpc : IsWord c.PC)
    (hbytes : ∀ b ∈ c.Memory, b < 256) :
    IsWord (executeImplied c i).cpu.PC := by
  have hb : ∀ (k : Nat) (h : k < c.Memory.length) (high : Nat),
      IsWord (c.Memory[k] ||| ((high <<< 8) % 65536)) :=
    fun k h high => address_lt _ _ (hbytes _ (List.getElem_mem h))
  simp only [executeImplied, read_eq_dite, Outcome.write, Outcome.ok, Outcome.stop,
    updateCompareFlags, updateFlags, updateFlagsWithCarry, updateFlagsWithBorrow,
    apply_ite Outcome.cpu, apply_ite Intel8008.PC, apply_dite Outcome.cpu,
    apply_dite Intel8008.PC, apply_ite IsWord, apply_dite IsWord, hpc, hb, ite_self, dite_eq_ite]

theorem andThen_wait_pc (r : Outcome) (n : Nat) :
    (Outcome.andThen r fun c => Outcome.ok (WaitForCycles c n)).cpu.PC = r.cpu.PC := by
  unfold Outcome.andThen
  split <;> rfl

theorem andThen_wait_length (r : Outcome) (n : Nat) :
    (Outcome.andThen r fun c => Outcome.ok (WaitForCycles c n)).cpu.Memory.length =
      r.cpu.Memory.length := by
  unfold Outcome.andThen
  split <;> rfl

theorem andThen_wait_cycles (r : Outcome) (n : Nat) (h : r.fault = none) :
    (Outcome.andThen r fun c => Outcome.ok (WaitForCycles c n)).cpu.Cycles = r.cpu.Cycles + n := by
  unfold Outcome.andThen
  rw [h]
  rfl

theorem ExecuteInstruction_pc (c : Intel8008) (hpc : IsWord c.PC)
    (hbytes : ∀ b ∈ c.Memory, b < 256) :
    IsWord (ExecuteInstruction c).cpu.PC := by
  have hw : ∀ k : Nat, IsWord ((c.PC + k) % 65536) := fun k => Nat.mod_lt _ (by decide)
  unfold ExecuteInstruction
  rw [read_eq_dite]
  split
  · split
    · exact hpc
    · next instruction _ =>
      rw [andThen_wait_pc]
      split
      · rw [read_eq_dite]
        split
        · exact executeImmediate_pc _ _ _ (hw 2)
        · exact hpc
      · rw [read_eq_dite]
        split
        · next h1 =>
          rw [read_eq_dite]
          split
          · exact executeAbsolute_pc _ _ _ (hw 3)
              (address_lt _ _ (hbytes _ (List.getElem_mem h1)))
          · exact hpc
        · exact hpc
      · rw [read_eq_dite]
        split
        · exact hw 2
        · exact hpc
      · exact executeImplied_pc _ _ (hw 1) hbytes
  · exact hpc

theorem ExecuteInstruction_length (c : Intel8008) :
    (ExecuteInstruction c).cpu.Memory.length = c.Memory.length := by
  unfold ExecuteInstruction
  rw [read_eq_dite]
  split
  · split
    · rfl
    · next instruction _ =>
      rw [andThen_wait_length]
      split
      · rw [read_eq_dite]
        split
        · exact executeImmediate_length _ _ _
        · rfl
      · rw [read_eq_dite]
        split
        · rw [read_eq_dite]
          split
          · exact executeAbsolute_length _ _ _
          · rfl
        · rfl
      · rw [read_eq_dite]
        split <;> rfl
      · exact executeImplied_length _ _
  · rfl

/-! ## Claim C13: the program counter and the memory bounds -/

/-- C13, as stated, fails: the three-byte engine that holds `JMP $0010` at
address 0 has `PC = 0` inside its memory and a table opcode at `PC`, and after
`ExecuteInstruction` its `PC` is 16, outside the three bytes. -/
theorem pc_leaves_memory :
    jumpOutEngine.Memory.length = 3 ∧ jumpOutEngine.PC < jumpOutEngine.Memory.length ∧
    jumpOutEngine.Memory[jumpOutEngine.PC]? = some 0x44 ∧
    lookupInstruction jumpOutEngine.Instructions 0x44 =
      some (Instruction.mk 0x44 "JMP" .Absolute 3 11) ∧
    (ExecuteInstruction jumpOutEngine).fault = none ∧
    (ExecuteInstruction jumpOutEngine).cpu.PC = 16 ∧
    (ExecuteInstruction jumpOutEngine).cpu.Memory.length = 3 := by
  have h := ExecuteInstruction_absolute jumpOutEngine 0x44
    (Instruction.mk 0x44 "JMP" .Absolute 3 11) rfl rfl rfl
  refine ⟨rfl, by decide, rfl, rfl, ?_, ?_, ?_⟩ <;> rw [h] <;>
    simp [Outcome.read, jumpOutEngine, engineWith, NewIntel8008, executeAbsolute,
      Outcome.andThen, Outcome.ok, WaitForCycles]

/-- C13, amended. On an engine of 65536 bytes the program counter always
indexes within memory: for every state with `PC` inside the 65536 bytes,
`ExecuteInstruction` ends, whatever it decoded, with `PC` again inside memory,
whose size is still 65536. -/
theorem pc_within_full_memory (c : Intel8008) (hlen : c.Memory.length = 65536)
    (hpc : c.PC < c.Memory.length) (hbytes : ∀ b ∈ c.Memory, b < 256) :
    (ExecuteInstruction c).cpu.Memory.length = 65536 ∧
    (ExecuteInstruction c).cpu.PC < (ExecuteInstruction c).cpu.Memory.length := by
  have hl := ExecuteInstruction_length c
  have hp := ExecuteInstruction_pc c (by rw [hlen] at hpc; exact hpc) hbytes
  rw [hl, hlen]
  exact ⟨rfl, hp⟩



theorem oneByteEngine_length (opcode : Nat) : (oneByteEngine opcode).Memory.length = 65536 := by
  show ((List.replicate 65536 0).set 0 opcode).length = 65536
  rw [List.length_set, List.length_replicate]

theorem oneByteEngine_bytes (opcode : Nat) (h : opcode < 256) :
    ∀ b ∈ (oneByteEngine opcode).Memory, b < 256 := by
  intro b hb
  rcases List.mem_or_eq_of_mem_set hb with hb' | hb'
  · rw [(List.mem_replicate.mp hb').2]
    decide
  · rw [hb']
    exact h

theorem oneByteEngine_fetch (opcode : Nat) :
    (oneByteEngine opcode).Memory[(oneByteEngine opcode).PC]? = some opcode := by
  show ((List.replicate 65536 0).set 0 opcode)[0]? = some opcode
  rw [List.getElem?_set_self]
  rw [List.length_replicate]
  decide

/-- Witness for C13, amended: `NOP` at address 0 of a 65536-byte engine. -/
theorem pc_within_full_memory_witness :
    (oneByteEngine 0xC0).Memory.length = 65536 ∧
      (ExecuteInstruction (oneByteEngine 0xC0)).cpu.PC <
        (ExecuteInstruction (oneByteEngine 0xC0)).cpu.Memory.length :=
  ⟨oneByteEngine_length 0xC0, (pc_within_full_memory (oneByteEngine 0xC0)
    (oneByteEngine_length 0xC0) (by rw [oneByteEngine_length]; decide)
    (oneByteEngine_bytes 0xC0 (by decide))).2⟩

/-! ## Claim C17: table instructions without a handler case -/

theorem unhandled_modes :
    ∀ e ∈ Intel8008Instructions, e.2.Mnemonic ∈ unhandledMnemonics →
      e.2.Mode = AddressingMode.Implied := by
  decide

theorem executeImplied_unhandled (c : Intel8008) (i : Instruction)
    (hm : i.Mnemonic ∈ unhandledMnemonics) :
    executeImplied c i = Outcome.stop c (Fault.notImplemented i.Mnemonic) := by
  generalize hn : i.Mnemonic = m at hm
  fin_cases hm <;> simp [executeImplied, hn]

theorem ExecuteInstruction_unhandled (c : Intel8008) (op : Nat) (i : Instruction)
    (hI : c.Instructions = Intel8008Instructions)
    (hop : c.Memory[c.PC]? = some op)
    (hi : lookupInstruction Intel8008Instructions op = some i)
    (hm : i.Mnemonic ∈ unhandledMnemonics) :
    ExecuteInstruction c =
      Outcome.stop { c with PC := (c.PC + 1) % 65536 } (Fault.notImplemented i.Mnemonic) := by
  have hmode := unhandled_modes (op, i) (lookupInstruction_mem _ _ _ hi) hm
  rw [ExecuteInstruction_implied c op i hop (hI ▸ hi) hmode, executeImplied_unhandled _ i hm]
  rfl

/-- C17 fails on the code. On a fresh 65536-byte engine the table opcodes
`0xC0` (`NOP`), `0x41` (`INP`), `0x51` (`OUT`), `0x05` (`RST`) and `0x03` (`RFC`)
each send `ExecuteInstruction` into the "not implemented" branch of
`executeImplied`, with `PC` already advanced to 1. -/
theorem table_instructions_not_implemented :
    ExecuteInstruction (oneByteEngine 0xC0) =
      Outcome.stop { oneByteEngine 0xC0 with PC := 1 } (Fault.notImplemented "NOP") ∧
    ExecuteInstruction (oneByteEngine 0x41) =
      Outcome.stop { oneByteEngine 0x41 with PC := 1 } (Fault.notImplemented "INP") ∧
    ExecuteInstruction (oneByteEngine 0x51) =
      Outcome.stop { oneByteEngine 0x51 with PC := 1 } (Fault.notImplemented "OUT") ∧
    ExecuteInstruction (oneByteEngine 0x05) =
      Outcome.stop { oneByteEngine 0x05 with PC := 1 } (Fault.notImplemented "RST") ∧
    ExecuteInstruction (oneByteEngine 0x03) =
      Outcome.stop { oneByteEngine 0x03 with PC := 1 } (Fault.notImplemented "RFC") :=
  ⟨ExecuteInstruction_unhandled _ 0xC0 (Instruction.mk 0xC0 "NOP" .Implied 1 5) rfl
      (oneByteEngine_fetch _) rfl (by decide),
    ExecuteInstruction_unhandled _ 0x41 (Instruction.mk 0x41 "INP" .Implied 1 8) rfl
      (oneByteEngine_fetch _) rfl (by decide),
    ExecuteInstruction_unhandled _ 0x51 (Instruction.mk 0x51 "OUT" .Implied 1 6) rfl
      (oneByteEngine_fetch _) rfl (by decide),
    ExecuteInstruction_unhandled _ 0x05 (Instruction.mk 0x05 "RST" .Implied 1 5) rfl
      (oneByteEngine_fetch _) rfl (by decide),
    ExecuteInstruction_unhandled _ 0x03 (Instruction.mk 0x03 "RFC" .Implied 1 5) rfl
      (oneByteEngine_fetch _) rfl (by decide)⟩

/-! ## Claim C18: the cycle counter -/

theorem ExecuteInstruction_relative (c : Intel8008) (op : Nat) (i : Instruction)
    (hop : c.Memory[c.PC]? = some op) (hi : lookupInstruction c.Instructions op = some i)
    (hmode : i.Mode = AddressingMode.Relative) :
    ExecuteInstruction c =
      Outcome.andThen
        (Outcome.read c ((c.PC + 1) % 65536) fun b =>
          executeRelative { c with PC := (c.PC + 2) % 65536 } i
            (if b < 128 then (b : Int) else (b : Int) - 256))
        fun c => Outcome.ok (WaitForCycles c i.Cycles) := by
  simp [ExecuteInstruction, Outcome.read, hop, hi, hmode]

theorem ExecuteInstruction_decoded (c : Intel8008) (op : Nat) (i : Instruction)
    (hop : c.Memory[c.PC]? = some op) (hi : lookupInstruction c.Instructions op = some i) :
    ∃ r : Outcome, r.cpu.Cycles = c.Cycles ∧
      ExecuteInstruction c = Outcome.andThen r fun c => Outcome.ok (WaitForCycles c i.Cycles) := by
  cases hmode : i.Mode
  · refine ⟨_, ?_, ExecuteInstruction_immediate c op i hop hi hmode⟩
    rw [read_eq_dite]
    split
    · exact executeImmediate_cycles _ _ _
    · rfl
  · refine ⟨_, ?_, ExecuteInstruction_absolute c op i hop hi hmode⟩
    rw [read_eq_dite]
    split
    · rw [read_eq_dite]
      split
      · exact executeAbsolute_cycles _ _ _
      · rfl
    · rfl
  · refine ⟨_, ?_, ExecuteInstruction_relative c op i hop hi hmode⟩
    rw [read_eq_dite]
    split <;> rfl
  · exact ⟨executeImplied { c with PC := (c.PC + 1) % 65536 } i, executeImplied_cycles _ _,
      ExecuteInstruction_implied c op i hop hi hmode⟩

/-- C18. Whatever the engine state, the clock speed and the running mark: when
`ExecuteInstruction` runs the instruction decoded at `PC` to its end, the cycle
counter afterwards is the counter before plus the `Cycles` the table declares
for the fetched opcode. -/
theorem cycles_added (c : Intel8008) (op : Nat) (i : Instruction)
    (hop : c.Memory[c.PC]? = some op)
    (hi : lookupInstruction c.Instructions op = some i)
    (hok : (ExecuteInstruction c).fault = none) :
    (ExecuteInstruction c).cpu.Cycles = c.Cycles + i.Cycles := by
  obtain ⟨r, hr, he⟩ := ExecuteInstruction_decoded c op i hop hi
  rw [he] at hok ⊢
  rw [andThen_wait_fault] at hok
  rw [andThen_wait_cycles _ _ hok, hr]

/-- Witness for C18: `CAL $0003` at address 0 adds its 11 cycles. -/
theorem cycles_added_witness :
    (ExecuteInstruction callReturnEngine).fault = none ∧
      (ExecuteInstruction callReturnEngine).cpu.Cycles = callReturnEngine.Cycles + 11 :=
  have hok : (ExecuteInstruction callReturnEngine).fault = none :=
    congrArg Outcome.fault
      (ExecuteInstruction_CAL callReturnEngine 0x46 3 (Instruction.mk 0x46 "CAL" .Absolute 3 11)
        rfl rfl rfl rfl rfl rfl (by decide) (by decide))
  ⟨hok, cycles_added callReturnEngine 0x46 (Instruction.mk 0x46 "CAL" .Absolute 3 11)
    rfl rfl hok⟩

/-! ## Claim C20: opcodes absent from the table -/

theorem absent_lookup :
    ∀ op < 256, lookupInstruction Intel8008Instructions op = none ↔ op ∈ absentOpcodes := by
  decide

/-- C20. When the byte at `PC` is one of the six values absent from the table
(`0x22`, `0x2A`, `0x32`, `0x38`, `0x39`, `0x3A`; no other byte is absent),
`ExecuteInstruction` stops at the unknown-opcode failure with the engine exactly
as it was, and `Run` stops at the same failure with the engine as `CPU.Run`
left it: only the running mark and the reset cycle counter differ from before
the call; `PC`, `SP`, registers, flags and memory are untouched. -/
theorem unknown_opcode_fails (c : Intel8008) (op : Nat)
    (hI : c.Instructions = Intel8008Instructions)
    (hop : c.Memory[c.PC]? = some op) (habs : op ∈ absentOpcodes) :
    ExecuteInstruction c = Outcome.stop c (Fault.unknownOpcode op c.PC) ∧
    (∀ fuel, Run (fuel + 1) c =
      some (Outcome.stop { c with running := true, Cycles := 0 } (Fault.unknownOpcode op c.PC))) ∧
    (∀ b < 256, lookupInstruction Intel8008Instructions b = none ↔ b ∈ absentOpcodes) := by
  have hnone : lookupInstruction c.Instructions op = none := by
    rw [hI]
    fin_cases habs <;> rfl
  refine ⟨?_, fun fuel => ?_, absent_lookup⟩
  · simp [ExecuteInstruction, Outcome.read, hop, hnone]
  · simp [Run, runLoop, CPU.Run, hop, hnone, Outcome.andThen, Outcome.stop]

/-- Witness for C20: the byte `0x22` at address 0 of a four-byte memory. -/
theorem unknown_opcode_fails_witness :
    (engineWith [0x22, 0, 0, 0]).Memory[(engineWith [0x22, 0, 0, 0]).PC]? = some 0x22 ∧
      ExecuteInstruction (engineWith [0x22, 0, 0, 0]) =
        Outcome.stop (engineWith [0x22, 0, 0, 0]) (Fault.unknownOpcode 0x22 0) :=
  ⟨rfl, (unknown_opcode_fails (engineWith [0x22, 0, 0, 0]) 0x22 rfl rfl (by decide)).1⟩

/-! ## Claim C14: the mnemonic-to-opcode map -/

theorem exists_last_of_exists {α : Type} (p : α → Prop) (l : List α) (h : ∃ x ∈ l, p x) :
    ∃ pre e post, l = pre ++ e :: post ∧ p e ∧ ∀ x ∈ post, ¬ p x := by
  induction l with
  | nil => simp at h
  | cons a t ih =>
    by_cases ht : ∃ x ∈ t, p x
    · obtain ⟨pre, e, post, hl, he, hpost⟩ := ih ht
      exact ⟨a :: pre, e, post, by rw [hl]; rfl, he, hpost⟩
    · have ha : p a := by
        obtain ⟨x, hx, hpx⟩ := h
        rcases List.mem_cons.mp hx with rfl | hx'
        · exact hpx
        · exact absurd ⟨x, hx', hpx⟩ ht
      exact ⟨[], a, t, rfl, ha, fun x hx hpx => ht ⟨x, hx, hpx⟩⟩

theorem lookup_foldl_of_absent {β : Type} (f : Nat × Instruction → β) (m : String)
    (l : List (Nat × Instruction)) (acc : List (String × β))
    (h : ∀ x ∈ l, x.2.Mnemonic ≠ m) :
    (l.foldl (fun r e => (e.2.Mnemonic, f e) :: r) acc).lookup m = acc.lookup m := by
  induction l generalizing acc with
  | nil => rfl
  | cons a t ih =>
    have ha : a.2.Mnemonic ≠ m := h a (List.mem_cons_self _ _)
    have hb : (m == a.2.Mnemonic) = false := by
      simpa using fun heq => ha heq.symm
    rw [List.foldl_cons, ih _ (fun x hx => h x (List.mem_cons_of_mem _ hx)), List.lookup_cons, hb]

theorem lookup_foldl_last {β : Type} (f : Nat × Instruction → β)
    (pre post : List (Nat × Instruction)) (e : Nat × Instruction)
    (h : ∀ x ∈ post, x.2.Mnemonic ≠ e.2.Mnemonic) :
    ((pre ++ e :: post).foldl (fun r e => (e.2.Mnemonic, f e) :: r) []).lookup e.2.Mnemonic =
      some (f e) := by
  rw [List.foldl_append, List.foldl_cons, lookup_foldl_of_absent f _ post _ h,
    List.lookup_cons_self]

theorem GetOpcodes_last (pre post : List (Nat × Instruction)) (e : Nat × Instruction)
    (h : ∀ x ∈ post, x.2.Mnemonic ≠ e.2.Mnemonic) :
    (GetOpcodes (pre ++ e :: post)).lookup e.2.Mnemonic = some e.1 :=
  lookup_foldl_last (fun e => e.1) pre post e h

theorem GetInstrSizes_last (pre post : List (Nat × Instruction)) (e : Nat × Instruction)
    (h : ∀ x ∈ post, x.2.Mnemonic ≠ e.2.Mnemonic) :
    (GetInstrSizes (pre ++ e :: post)).lookup e.2.Mnemonic = some e.2.Size :=
  lookup_foldl_last (fun e => e.2.Size) pre post e h

theorem visited_last (order : List (Nat × Instruction)) (m : String)
    (hperm : order.Perm Intel8008Instructions)
    (hm : ∃ e ∈ Intel8008Instructions, e.2.Mnemonic = m) :
    ∃ pre e post, order = pre ++ e :: post ∧ e.2.Mnemonic = m ∧
      (∀ x ∈ post, x.2.Mnemonic ≠ m) ∧ e ∈ Intel8008Instructions := by
  obtain ⟨x, hx, hxm⟩ := hm
  obtain ⟨pre, e, post, hl, he, hpost⟩ :=
    exists_last_of_exists (fun y => y.2.Mnemonic = m) order ⟨x, hperm.mem_iff.mpr hx, hxm⟩
  refine ⟨pre, e, post, hl, he, hpost, hperm.mem_iff.mp ?_⟩
  rw [hl]
  simp

/-- C14, as stated, fails: when the table is visited in the order of the
source file, `GetOpcodes` maps `JMP` to `0x7C`, `HLT` to `0xFF` and `NOP` to
`0xF6`, while the table also holds `JMP` at `0x44`, `HLT` at `0x00` and `NOP`
at `0xC0`. -/
theorem GetOpcodes_not_lowest :
    List.Perm Intel8008Instructions Intel8008Instructions ∧
    (GetOpcodes Intel8008Instructions).lookup "JMP" = some 0x7C ∧
    (GetOpcodes Intel8008Instructions).lookup "HLT" = some 0xFF ∧
    (GetOpcodes Intel8008Instructions).lookup "NOP" = some 0xF6 ∧
    lookupInstruction Intel8008Instructions 0x44 = some (Instruction.mk 0x44 "JMP" .Absolute 3 11) ∧
    lookupInstruction Intel8008Instructions 0x00 = some (Instruction.mk 0x00 "HLT" .Implied 1 4) ∧
    lookupInstruction Intel8008Instructions 0xC0 = some (Instruction.mk 0xC0 "NOP" .Implied 1 5) := by
  refine ⟨List.Perm.refl _, ?_, ?_, ?_, rfl, rfl, rfl⟩ <;> decide

/-- C14, amended. In whatever order the table is visited, `GetOpcodes` maps
every mnemonic `m` of the table to the opcode of the entry with mnemonic `m`
that is visited last.  That is the lowest opcode among the entries with
mnemonic `m` when there is only one such entry; and every entry of the table is
the result for its mnemonic under some order of visit. -/
theorem GetOpcodes_last_visited (order : List (Nat × Instruction)) (m : String)
    (hperm : order.Perm Intel8008Instructions)
    (hm : ∃ e ∈ Intel8008Instructions, e.2.Mnemonic = m) :
    (∃ pre e post, order = pre ++ e :: post ∧ e.2.Mnemonic = m ∧
      (∀ x ∈ post, x.2.Mnemonic ≠ m) ∧ e ∈ Intel8008Instructions ∧
      (GetOpcodes order).lookup m = some e.1 ∧
      ((∀ x ∈ Intel8008Instructions, x.2.Mnemonic = m → x = e) →
        ∀ x ∈ Intel8008Instructions, x.2.Mnemonic = m → e.1 ≤ x.1)) ∧
    (∀ e ∈ Intel8008Instructions, ∃ order' : List (Nat × Instruction),
      order'.Perm Intel8008Instructions ∧ (GetOpcodes order').lookup e.2.Mnemonic = some e.1) := by
  constructor
  · obtain ⟨pre, e, post, hl, he, hpost, hmem⟩ := visited_last order m hperm hm
    refine ⟨pre, e, post, hl, he, hpost, hmem, ?_, ?_⟩
    · subst he
      rw [hl]
      exact GetOpcodes_last pre post e hpost
    · intro hone x hx hxm
      rw [hone x hx hxm]
  · intro e he
    obtain ⟨s, t, hst⟩ := List.append_of_mem he
    refine ⟨(s ++ t) ++ [e], ?_, GetOpcodes_last _ [] e (fun x hx => by simp at hx)⟩
    rw [hst]
    have h : (e :: (s ++ t)).Perm (s ++ e :: t) := List.perm_middle.symm
    exact List.perm_append_comm.trans h

/-- Witness for C14, amended: the table in the order of the source file, and
the mnemonic `JMP`, whose entry visited last is `0x7C`. -/
theorem GetOpcodes_last_visited_witness :
    List.Perm Intel8008Instructions Intel8008Instructions ∧
      ∃ pre e post, Intel8008Instructions = pre ++ e :: post ∧ e.2.Mnemonic = "JMP" ∧
        (∀ x ∈ post, x.2.Mnemonic ≠ "JMP") ∧ e ∈ Intel8008Instructions ∧
        (GetOpcodes Intel8008Instructions).lookup "JMP" = some e.1 ∧
        ((∀ x ∈ Intel8008Instructions, x.2.Mnemonic = "JMP" → x = e) →
          ∀ x ∈ Intel8008Instructions, x.2.Mnemonic = "JMP" → e.1 ≤ x.1) :=
  ⟨List.Perm.refl _,
    (GetOpcodes_last_visited Intel8008Instructions "JMP" (List.Perm.refl _)
      ⟨(0x44, Instruction.mk 0x44 "JMP" .Absolute 3 11), by decide, rfl⟩).1⟩

/-! ## The two maps under a change of the order of visit -/

theorem opcodes_of_table :
    ∀ e ∈ Intel8008Instructions, e.2.Mnemonic ∉ aliasMnemonics →
      (GetOpcodes Intel8008Instructions).lookup e.2.Mnemonic = some e.1 := by
  decide

theorem sizes_of_table :
    ∀ e ∈ Intel8008Instructions,
      (GetInstrSizes Intel8008Instructions).lookup e.2.Mnemonic = some e.2.Size := by
  decide

theorem halt_entries :
    ∀ e ∈ Intel8008Instructions, e.2.Mnemonic = "HLT" →
      e.1 ∈ [0x00, 0x01, 0xFF] ∧ e.2.Cycles = 4 := by
  decide

theorem lookup_foldl_none {β : Type} (f : Nat × Instruction → β) (m : String)
    (l : List (Nat × Instruction)) (h : ∀ x ∈ l, x.2.Mnemonic ≠ m) :
    (l.foldl (fun r e => (e.2.Mnemonic, f e) :: r) []).lookup m = none := by
  rw [lookup_foldl_of_absent f m l [] h]
  rfl

theorem GetOpcodes_order (order : List (Nat × Instruction)) (m : String)
    (hperm : order.Perm Intel8008Instructions) (hm : m ∉ aliasMnemonics) :
    (GetOpcodes order).lookup m = (GetOpcodes Intel8008Instructions).lookup m := by
  by_cases hex : ∃ e ∈ Intel8008Instructions, e.2.Mnemonic = m
  · obtain ⟨pre, e, post, hl, he, hpost, hmem⟩ := visited_last order m hperm hex
    subst he
    rw [hl, GetOpcodes_last pre post e hpost, opcodes_of_table e hmem hm]
  · have habs : ∀ x ∈ Intel8008Instructions, x.2.Mnemonic ≠ m :=
      fun x hx hxm => hex ⟨x, hx, hxm⟩
    have h1 : (GetOpcodes order).lookup m = none :=
      lookup_foldl_none (fun e => e.1) m order (fun x hx => habs x (hperm.mem_iff.mp hx))
    have h2 : (GetOpcodes Intel8008Instructions).lookup m = none :=
      lookup_foldl_none (fun e => e.1) m _ habs
    rw [h1, h2]

theorem GetInstrSizes_order (order : List (Nat × Instruction)) (m : String)
    (hperm : order.Perm Intel8008Instructions) :
    (GetInstrSizes order).lookup m = (GetInstrSizes Intel8008Instructions).lookup m := by
  by_cases hex : ∃ e ∈ Intel8008Instructions, e.2.Mnemonic = m
  · obtain ⟨pre, e, post, hl, he, hpost, hmem⟩ := visited_last order m hperm hex
    subst he
    rw [hl, GetInstrSizes_last pre post e hpost, sizes_of_table e hmem]
  · have habs : ∀ x ∈ Intel8008Instructions, x.2.Mnemonic ≠ m :=
      fun x hx hxm => hex ⟨x, hx, hxm⟩
    have h1 : (GetInstrSizes order).lookup m = none :=
      lookup_foldl_none (fun e => e.2.Size) m order (fun x hx => habs x (hperm.mem_iff.mp hx))
    have h2 : (GetInstrSizes Intel8008Instructions).lookup m = none :=
      lookup_foldl_none (fun e => e.2.Size) m _ habs
    rw [h1, h2]

/-! ## The passes depend on the maps through their lookups only -/

theorem firstPass_congr (s₁ s₂ : List (String × Nat))
    (hs : ∀ m, s₁.lookup m = s₂.lookup m) (lines : List String)
    (labels : List (String × Nat)) (address : Nat) :
    firstPass s₁ lines labels address = firstPass s₂ lines labels address := by
  induction lines generalizing labels address with
  | nil => rfl
  | cons text rest ih =>
    have hline : firstPassLine s₁ labels address text = firstPassLine s₂ labels address text := by
      simp only [firstPassLine, hs]
    simp only [firstPass, hline]
    split
    · exact ih _ _
    · rfl

theorem secondPassLine_congr (o₁ o₂ s₁ s₂ labels : List (String × Nat))
    (hs : ∀ m, s₁.lookup m = s₂.lookup m) (text : String)
    (ho : ∀ m, leadingMnemonic text = some m → o₁.lookup m = o₂.lookup m)
    (binary : List Nat) (address : Nat) :
    secondPassLine o₁ s₁ labels binary address text =
      secondPassLine o₂ s₂ labels binary address text := by
  unfold secondPassLine
  simp only [hs]
  split
  · rfl
  · next hskip =>
    have hlead : leadingMnemonic text =
        (Fields (match Index (TrimSpace text) ';' with
          | some idx => String.mk ((TrimSpace text).data.take idx)
          | none => TrimSpace text)).head? := by
      simp only [leadingMnemonic, hskip, if_false]
    generalize Fields (match Index (TrimSpace text) ';' with
          | some idx => String.mk ((TrimSpace text).data.take idx)
          | none => TrimSpace text) = parts at hlead
    cases parts with
    | nil => rfl
    | cons mnemonic operands =>
      have := ho mnemonic (by rw [hlead]; rfl)
      simp only [this]

theorem secondPass_congr (o₁ o₂ s₁ s₂ labels : List (String × Nat))
    (hs : ∀ m, s₁.lookup m = s₂.lookup m) (lines : List String)
    (ho : ∀ text ∈ lines, ∀ m, leadingMnemonic text = some m → o₁.lookup m = o₂.lookup m)
    (binary : List Nat) (address : Nat) :
    secondPass o₁ s₁ labels lines binary address = secondPass o₂ s₂ labels lines binary address := by
  induction lines generalizing binary address with
  | nil => rfl
  | cons text rest ih =>
    have hline := secondPassLine_congr o₁ o₂ s₁ s₂ labels hs text
      (ho text (List.mem_cons_self _ _)) binary address
    simp only [secondPass, hline]
    split
    · exact ih (fun t ht => ho t (List.mem_cons_of_mem _ ht)) _ _
    · rfl

theorem assemble_congr (o₁ s₁ o₂ s₂ : List (Nat × Instruction)) (lines : List String)
    (cpuType : String) (start : Nat)
    (hs : ∀ m, (GetInstrSizes s₁).lookup m = (GetInstrSizes s₂).lookup m)
    (ho : ∀ text ∈ lines, ∀ m, leadingMnemonic text = some m →
      (GetOpcodes o₁).lookup m = (GetOpcodes o₂).lookup m) :
    assemble o₁ s₁ lines cpuType start = assemble o₂ s₂ lines cpuType start := by
  unfold assemble
  split
  · simp only [firstPass_congr _ _ hs]
    split
    · rfl
    · simp only [secondPass_congr _ _ _ _ _ hs lines ho]
  · rfl

/-! ## Claim C15: determinism of the assembly -/

/-- C15, as stated, fails: the one-line source `HLT`, made of a mnemonic only,
assembles to the byte `0xFF` when `GetOpcodes` visits the table in the order of
the source file and to the byte `0x00` when it visits the table in the reverse
order. -/
theorem assemble_depends_on_order :
    List.Perm Intel8008Instructions Intel8008Instructions ∧
    List.Perm Intel8008Instructions.reverse Intel8008Instructions ∧
    assemble Intel8008Instructions Intel8008Instructions ["HLT"] "8008" 0x8000 =
      .ok ([0xFF], []) ∧
    assemble Intel8008Instructions.reverse Intel8008Instructions ["HLT"] "8008" 0x8000 =
      .ok ([0x00], []) :=
  ⟨List.Perm.refl _, List.reverse_perm _, rfl, rfl⟩

/-- C15, amended. Assembly is deterministic on sources without multi-opcode
mnemonics: when no line of the source has one of `JMP`, `CAL`, `RET`, `RST`,
`INP`, `OUT`, `NOP`, `HLT` as the mnemonic the second pass looks up, two runs of
`assemble` on the source and start address give the same result, whatever the
orders in which the two runs visit the instruction table. -/
theorem assemble_deterministic (o₁ s₁ o₂ s₂ : List (Nat × Instruction)) (lines : List String)
    (cpuType : String) (start : Nat)
    (ho₁ : o₁.Perm Intel8008Instructions) (hs₁ : s₁.Perm Intel8008Instructions)
    (ho₂ : o₂.Perm Intel8008Instructions) (hs₂ : s₂.Perm Intel8008Instructions)
    (hsrc : ∀ text ∈ lines, usesAlias text = false) :
    assemble o₁ s₁ lines cpuType start = assemble o₂ s₂ lines cpuType start := by
  refine assemble_congr o₁ s₁ o₂ s₂ lines cpuType start ?_ ?_
  · intro m
    rw [GetInstrSizes_order s₁ m hs₁, GetInstrSizes_order s₂ m hs₂]
  · intro text ht m hm
    have halias : m ∉ aliasMnemonics := by
      have h := hsrc text ht
      simp only [usesAlias, hm] at h
      simpa using h
    rw [GetOpcodes_order o₁ m ho₁ halias, GetOpcodes_order o₂ m ho₂ halias]

/-- Witness for C15, amended: the source `LAI #$05`, `ADB`, with the table
visited in the order of the source file in one run and in reverse in the other. -/
theorem assemble_deterministic_witness :
    (∀ text ∈ ["LAI #$05", "ADB"], usesAlias text = false) ∧
      assemble Intel8008Instructions Intel8008Instructions ["LAI #$05", "ADB"] "8008" 0x8000 =
        assemble Intel8008Instructions.reverse Intel8008Instructions.reverse
          ["LAI #$05", "ADB"] "8008" 0x8000 :=
  ⟨by decide,
    assemble_deterministic Intel8008Instructions Intel8008Instructions
      Intel8008Instructions.reverse Intel8008Instructions.reverse ["LAI #$05", "ADB"] "8008" 0x8000
      (List.Perm.refl _) (List.Perm.refl _) (List.reverse_perm _) (List.reverse_perm _)
      (by decide)⟩

/-! ## Claim C19: assemble, load and run the sample program -/

theorem firstPass_instructions (sizes : List (String × Nat)) (lines : List String)
    (h : ∀ text ∈ lines, isInstructionLine text = true)
    (labels : List (String × Nat)) (address : Nat) :
    ∃ a, firstPass sizes lines labels address = .ok (labels, a) := by
  induction lines generalizing address with
  | nil => exact ⟨address, rfl⟩
  | cons text rest ih =>
    have ht := h text (List.mem_cons_self _ _)
    simp only [isInstructionLine, Bool.and_eq_true, Bool.not_eq_true', Bool.or_eq_false_iff,
      decide_eq_false_iff_not] at ht
    obtain ⟨⟨⟨h1, h2⟩, h3⟩, h4⟩ := ht
    have hline : ∃ a, firstPassLine sizes labels address text = .ok (labels, a) := by
      unfold firstPassLine
      simp only [h1, h2, h3, false_or, if_false, Bool.false_eq_true]
      cases hf : Fields (TrimSpace text) with
      | nil => simp [hf] at h4
      | cons mnemonic _ => exact ⟨_, rfl⟩
    obtain ⟨a, ha⟩ := hline
    simp only [firstPass, ha]
    exact ih (fun t ht => h t (List.mem_cons_of_mem _ ht)) a

theorem assemble_sampleProgram (o s : List (Nat × Instruction))
    (ho : o.Perm Intel8008Instructions) (hs : s.Perm Intel8008Instructions) (start : Nat) :
    ∃ h, h ∈ [0x00, 0x01, 0xFF] ∧
      assemble o s sampleProgram "8008" start = .ok ([0x06, 0x05, 0x0E, 0x03, 0x81, h], []) := by
  obtain ⟨pre, e, post, hl, he, hpost, hmem⟩ :=
    visited_last o "HLT" ho ⟨(0x00, Instruction.mk 0x00 "HLT" .Implied 1 4), by decide, rfl⟩
  have hh := (halt_entries e hmem he).1
  have hHLT : (GetOpcodes o).lookup "HLT" = some e.1 := by
    rw [hl, ← he]
    exact GetOpcodes_last pre post e (by rw [he]; exact hpost)
  refine ⟨e.1, hh, ?_⟩
  obtain ⟨a, ha⟩ := firstPass_instructions (GetInstrSizes s) sampleProgram (by decide) [] start
  have hsecond : secondPass (GetOpcodes o) (GetInstrSizes s) [] sampleProgram [] 0x8000 =
      secondPass [("HLT", e.1), ("ADB", 0x81), ("LBI", 0x0E), ("LAI", 0x06)]
        (GetInstrSizes Intel8008Instructions) [] sampleProgram [] 0x8000 := by
    refine secondPass_congr _ _ _ _ _ (fun m => GetInstrSizes_order s m hs) _ ?_ _ _
    intro text ht m hm
    simp only [sampleProgram, List.mem_cons, List.mem_singleton, List.not_mem_nil, or_false] at ht
    rcases ht with rfl | rfl | rfl | rfl
    · have hmn : m = "LAI" := by
        have : leadingMnemonic "LAI #$05" = some "LAI" := by decide
        rw [this] at hm
        exact (Option.some.inj hm).symm
      subst hmn
      rw [GetOpcodes_order o _ ho (by decide)]
      rfl
    · have hmn : m = "LBI" := by
        have : leadingMnemonic "LBI #$03" = some "LBI" := by decide
        rw [this] at hm
        exact (Option.some.inj hm).symm
      subst hmn
      rw [GetOpcodes_order o _ ho (by decide)]
      rfl
    · have hmn : m = "ADB" := by
        have : leadingMnemonic "ADB" = some "ADB" := by decide
        rw [this] at hm
        exact (Option.some.inj hm).symm
      subst hmn
      rw [GetOpcodes_order o _ ho (by decide)]
      rfl
    · have hmn : m = "HLT" := by
        have : leadingMnemonic "HLT" = some "HLT" := by decide
        rw [this] at hm
        exact (Option.some.inj hm).symm
      subst hmn
      rw [hHLT]
      rfl
  unfold assemble
  simp only [if_true, ha, hsecond]
  simp only [List.mem_cons, List.mem_singleton, List.not_mem_nil, or_false] at hh
  rcases hh with h0 | h0 | h0 <;> rw [h0] <;> rfl

theorem sampleMemory_length (m : List Nat) (start h : Nat) :
    (sampleMemory m start h).length = m.length := by
  simp only [sampleMemory, List.length_set]

theorem sampleMemory_get (m : List Nat) (start h : Nat) (hm : m.length = 65536) :
    (sampleMemory m start h)[(start + 0) % 65536]? = some 0x06 ∧
    (sampleMemory m start h)[(start + 1) % 65536]? = some 0x05 ∧
    (sampleMemory m start h)[(start + 2) % 65536]? = some 0x0E ∧
    (sampleMemory m start h)[(start + 3) % 65536]? = some 0x03 ∧
    (sampleMemory m start h)[(start + 4) % 65536]? = some 0x81 ∧
    (sampleMemory m start h)[(start + 5) % 65536]? = some h := by
  have hlt : ∀ k : Nat, k % 65536 < m.length := fun k => by rw [hm]; exact Nat.mod_lt _ (by decide)
  have hself : ∀ (l : List Nat) (k v : Nat), l.length = m.length →
      (l.set (k % 65536) v)[k % 65536]? = some v := by
    intro l k v hl
    rw [List.getElem?_set_self]
    rw [hl]
    exact hlt k
  unfold sampleMemory
  refine ⟨?_, ?_, ?_, ?_, ?_, ?_⟩
  · rw [List.getElem?_set_ne (by omega), List.getElem?_set_ne (by omega),
      List.getElem?_set_ne (by omega), List.getElem?_set_ne (by omega),
      List.getElem?_set_ne (by omega)]
    exact hself _ _ _ rfl
  · rw [List.getElem?_set_ne (by omega), List.getElem?_set_ne (by omega),
      List.getElem?_set_ne (by omega), List.getElem?_set_ne (by omega)]
    exact hself _ _ _ (by simp only [List.length_set])
  · rw [List.getElem?_set_ne (by omega), List.getElem?_set_ne (by omega),
      List.getElem?_set_ne (by omega)]
    exact hself _ _ _ (by simp only [List.length_set])
  · rw [List.getElem?_set_ne (by omega), List.getElem?_set_ne (by omega)]
    exact hself _ _ _ (by simp only [List.length_set])
  · rw [List.getElem?_set_ne (by omega)]
    exact hself _ _ _ (by simp only [List.length_set])
  · exact hself _ _ _ (by simp only [List.length_set])

theorem loadProgram_sample (c : Intel8008) (start h : Nat) (hm : c.Memory.length = 65536) :
    loadProgram c [0x06, 0x05, 0x0E, 0x03, 0x81, h] start =
      Outcome.ok { c with PC := start, Memory := sampleMemory c.Memory start h } := by
  have hlt : ∀ k : Nat, k % 65536 < c.Memory.length :=
    fun k => by rw [hm]; exact Nat.mod_lt _ (by decide)
  simp only [loadProgram, writeProgram, Outcome.write, List.length_set, hlt, if_true,
    Outcome.andThen, Outcome.ok, sampleMemory, Nat.zero_mod, Nat.reduceAdd, Nat.reduceMod]

theorem runLoop_step (fuel : Nat) (c c' : Intel8008) (op : Nat) (i : Instruction)
    (hop : c.Memory[c.PC]? = some op) (hi : lookupInstruction c.Instructions op = some i)
    (hm : i.Mnemonic ≠ "HLT") (hex : ExecuteInstruction c = Outcome.ok c') :
    runLoop (fuel + 1) c = runLoop fuel c' := by
  simp [runLoop, hop, hi, hm, hex, Outcome.ok]

theorem runLoop_halt (fuel : Nat) (c : Intel8008) (op : Nat) (i : Instruction)
    (hop : c.Memory[c.PC]? = some op) (hi : lookupInstruction c.Instructions op = some i)
    (hm : i.Mnemonic = "HLT") :
    runLoop (fuel + 1) c = some (Outcome.ok (WaitForCycles c i.Cycles)) := by
  simp [runLoop, hop, hi, hm]

theorem Run_sample (c : Intel8008) (start h : Nat) (fuel : Nat)
    (hI : c.Instructions = Intel8008Instructions) (hpc : c.PC = start)
    (hh : h ∈ [0x00, 0x01, 0xFF])
    (h0 : c.Memory[(start + 0) % 65536]? = some 0x06)
    (h1 : c.Memory[(start + 1) % 65536]? = some 0x05)
    (h2 : c.Memory[(start + 2) % 65536]? = some 0x0E)
    (h3 : c.Memory[(start + 3) % 65536]? = some 0x03)
    (h4 : c.Memory[(start + 4) % 65536]? = some 0x81)
    (h5 : c.Memory[(start + 5) % 65536]? = some h)
    (hs : start < 65536) :
    Run (fuel + 4) c = some (Outcome.ok (sampleFinal c start)) := by
  have e0 : (start + 0) % 65536 = start := by omega
  have e1 : ((start + 2) % 65536 + 1) % 65536 = (start + 3) % 65536 := by omega
  have e2 : ((start + 2) % 65536 + 2) % 65536 = (start + 4) % 65536 := by omega
  have e3 : ((start + 4) % 65536 + 1) % 65536 = (start + 5) % 65536 := by omega
  rw [e0] at h0
  subst hpc
  obtain ⟨j, hj, hjm, hjc⟩ : ∃ j, lookupInstruction Intel8008Instructions h = some j ∧
      j.Mnemonic = "HLT" ∧ j.Cycles = 4 := by
    simp only [List.mem_cons, List.mem_singleton, List.not_mem_nil, or_false] at hh
    rcases hh with rfl | rfl | rfl
    · exact ⟨_, rfl, rfl, rfl⟩
    · exact ⟨_, rfl, rfl, rfl⟩
    · exact ⟨_, rfl, rfl, rfl⟩
  let c₁ : Intel8008 := { c with running := true, Cycles := 0 }
  let c₂ : Intel8008 := { c₁ with PC := (c.PC + 2) % 65536, A := 0x05, Cycles := 8 }
  let c₃ : Intel8008 := { c₂ with PC := (c.PC + 4) % 65536, B := 0x03, Cycles := 16 }
  let c₄ : Intel8008 := { c₃ with PC := (c.PC + 5) % 65536, A := 0x08,
                                  Flags := ⟨false, false, false, false⟩, Cycles := 21 }
  have s1 : ExecuteInstruction c₁ = Outcome.ok c₂ := by
    rw [ExecuteInstruction_immediate c₁ 0x06 (Instruction.mk 0x06 "LAI" .Immediate 2 8) h0
      (by rw [show c₁.Instructions = Intel8008Instructions from hI]; rfl) rfl]
    simp [c₁, c₂, Outcome.read, h1, executeImmediate, Outcome.andThen, Outcome.ok, WaitForCycles]
  have s2 : ExecuteInstruction c₂ = Outcome.ok c₃ := by
    rw [ExecuteInstruction_immediate c₂ 0x0E (Instruction.mk 0x0E "LBI" .Immediate 2 8) h2
      (by rw [show c₂.Instructions = Intel8008Instructions from hI]; rfl) rfl]
    simp [c₁, c₂, c₃, Outcome.read, h3, e1, e2, executeImmediate, Outcome.andThen, Outcome.ok,
      WaitForCycles]
  have hpar : calculateParity 8 = false := by decide
  have hand : (8 &&& 128 : Nat) = 0 := by decide
  have s3 : ExecuteInstruction c₃ = Outcome.ok c₄ := by
    rw [ExecuteInstruction_implied c₃ 0x81 (Instruction.mk 0x81 "ADB" .Implied 1 5) h4
      (by rw [show c₃.Instructions = Intel8008Instructions from hI]; rfl) rfl]
    simp [c₁, c₂, c₃, c₄, e3, executeImplied, updateFlagsWithCarry, updateFlags, hpar, hand,
      Outcome.andThen, Outcome.ok, WaitForCycles]
  have hrun : runLoop (fuel + 4) c₁ = some (Outcome.ok (WaitForCycles c₄ 4)) := by
    rw [runLoop_step (fuel + 3) c₁ c₂ 0x06 (Instruction.mk 0x06 "LAI" .Immediate 2 8) h0
      (by rw [show c₁.Instructions = Intel8008Instructions from hI]; rfl) (by decide) s1]
    rw [runLoop_step (fuel + 2) c₂ c₃ 0x0E (Instruction.mk 0x0E "LBI" .Immediate 2 8) h2
      (by rw [show c₂.Instructions = Intel8008Instructions from hI]; rfl) (by decide) s2]
    rw [runLoop_step (fuel + 1) c₃ c₄ 0x81 (Instruction.mk 0x81 "ADB" .Implied 1 5) h4
      (by rw [show c₃.Instructions = Intel8008Instructions from hI]; rfl) (by decide) s3]
    rw [runLoop_halt fuel c₄ h j h5
      (by rw [show c₄.Instructions = Intel8008Instructions from hI]; exact hj) hjm, hjc]
  show (runLoop (fuel + 4) c₁).map _ = _
  rw [hrun]
  simp [c₁, c₂, c₃, c₄, Outcome.andThen, Outcome.ok, WaitForCycles, CPU.Stop, sampleFinal]


/-- C19. End to end: in whatever orders the assembler visits the instruction
table, the source `LAI #$05`, `LBI #$03`, `ADB`, `HLT` assembles at any start
address to the six bytes `06 05 0E 03 81 h` with `h` one of the `HLT` opcodes
`0x00`, `0x01`, `0xFF`; loaded at the start address into a fresh engine of
65536 bytes, `Run` ends after four rounds of its loop without fault, with
`A = 0x08`, `B = 0x03`, Carry and Zero clear and 25 cycles counted. -/
theorem end_to_end (o s : List (Nat × Instruction)) (start speed : Nat)
    (ho : o.Perm Intel8008Instructions) (hs : s.Perm Intel8008Instructions)
    (hstart : start < 65536) :
    ∃ h, h ∈ [0x00, 0x01, 0xFF] ∧
      assemble o s sampleProgram "8008" start = .ok ([0x06, 0x05, 0x0E, 0x03, 0x81, h], []) ∧
      ∃ c₀, loadProgram (NewIntel8008 65536 speed) [0x06, 0x05, 0x0E, 0x03, 0x81, h] start =
          Outcome.ok c₀ ∧
        ∀ fuel, ∃ final, Run (fuel + 4) c₀ = some (Outcome.ok final) ∧
          final.A = 0x08 ∧ final.B = 0x03 ∧ final.Flags.Carry = false ∧
          final.Flags.Zero = false ∧ final.Cycles = 25 := by
  obtain ⟨h, hh, hasm⟩ := assemble_sampleProgram o s ho hs start
  have hlen : (NewIntel8008 65536 speed).Memory.length = 65536 := List.length_replicate _ _
  have hget := sampleMemory_get (NewIntel8008 65536 speed).Memory start h hlen
  refine ⟨h, hh, hasm, _, loadProgram_sample (NewIntel8008 65536 speed) start h hlen,
    fun fuel => ⟨_, Run_sample _ start h fuel rfl rfl hh hget.1 hget.2.1 hget.2.2.1 hget.2.2.2.1
      hget.2.2.2.2.1 hget.2.2.2.2.2 hstart, rfl, rfl, rfl, rfl, rfl⟩⟩

/-- Witness for C19: both maps built in the order of the source file, start
address `0x8000`. -/
theorem end_to_end_witness :
    0x8000 < 65536 ∧ ∃ h, h ∈ [0x00, 0x01, 0xFF] ∧
      assemble Intel8008Instructions Intel8008Instructions sampleProgram "8008" 0x8000 =
        .ok ([0x06, 0x05, 0x0E, 0x03, 0x81, h], []) ∧
      ∃ c₀, loadProgram (NewIntel8008 65536 0) [0x06, 0x05, 0x0E, 0x03, 0x81, h] 0x8000 =
          Outcome.ok c₀ ∧
        ∀ fuel, ∃ final, Run (fuel + 4) c₀ = some (Outcome.ok final) ∧
          final.A = 0x08 ∧ final.B = 0x03 ∧ final.Flags.Carry = false ∧
          final.Flags.Zero = false ∧ final.Cycles = 25 :=
  ⟨by decide, end_to_end Intel8008Instructions Intel8008Instructions 0x8000 0
    (List.Perm.refl _) (List.Perm.refl _) (by decide)⟩

/-! ## Claim C21: the halt signal of a single step -/

theorem halt_modes :
    ∀ e ∈ Intel8008Instructions, e.2.Mnemonic = "HLT" → e.2.Mode = AddressingMode.Implied := by
  decide

theorem ExecuteInstruction_HLT (c : Intel8008) (op : Nat) (i : Instruction)
    (hI : c.Instructions = Intel8008Instructions)
    (hop : c.Memory[c.PC]? = some op)
    (hi : lookupInstruction Intel8008Instructions op = some i)
    (hm : i.Mnemonic = "HLT") :
    ExecuteInstruction c = Outcome.stop { c with PC := (c.PC + 1) % 65536 } (Fault.exit 0) := by
  have hmode := halt_modes (op, i) (lookupInstruction_mem _ _ _ hi) hm
  rw [ExecuteInstruction_implied c op i hop (hI ▸ hi) hmode]
  simp [executeImplied, hm, Outcome.andThen, Outcome.stop]

theorem executeInstruction_halted (d : Debugger) :
    (d.executeInstruction).halted = true ↔
      (ExecuteInstruction d.cpu).fault = none ∧ (ExecuteInstruction d.cpu).cpu.PC = d.cpu.PC := by
  unfold Debugger.executeInstruction
  cases hop : d.cpu.Memory[d.cpu.PC]? with
  | none =>
    simp [ExecuteInstruction, Outcome.read, hop, Outcome.stop]
  | some op =>
    cases hf : (ExecuteInstruction d.cpu).fault with
    | some f => simp [hf]
    | none =>
      simp only [hf]
      split <;> simp_all

theorem executeInstruction_fault (d : Debugger) (op : Nat)
    (hop : d.cpu.Memory[d.cpu.PC]? = some op) :
    (d.executeInstruction).fault = (ExecuteInstruction d.cpu).fault := by
  unfold Debugger.executeInstruction
  simp only [hop]
  cases hf : (ExecuteInstruction d.cpu).fault with
  | some f => rfl
  | none =>
    simp only
    split <;> rfl

theorem executeInstruction_running (d : Debugger)
    (h : (d.executeInstruction).halted = true) :
    (d.executeInstruction).debugger.running = false := by
  unfold Debugger.executeInstruction at h ⊢
  cases hop : d.cpu.Memory[d.cpu.PC]? with
  | none => simp [hop] at h
  | some op =>
    simp only [hop] at h ⊢
    cases hf : (ExecuteInstruction d.cpu).fault with
    | some f => simp [hf] at h
    | none =>
      simp only [hf] at h ⊢
      split
      · rfl
      · next hne => simp [hne] at h

theorem ExecuteInstruction_selfJump :
    ExecuteInstruction selfJumpEngine = Outcome.ok (afterJump selfJumpEngine 0) := by
  rw [ExecuteInstruction_absolute selfJumpEngine 0x44
    (Instruction.mk 0x44 "JMP" .Absolute 3 11) rfl rfl rfl]
  simp [Outcome.read, selfJumpEngine, engineWith, NewIntel8008, executeAbsolute,
    Outcome.andThen, Outcome.ok, WaitForCycles, afterJump]

theorem ExecuteInstruction_reads (c : Intel8008) (h : (ExecuteInstruction c).fault = none) :
    ∃ op, c.Memory[c.PC]? = some op := by
  cases hop : c.Memory[c.PC]? with
  | some op => exact ⟨op, rfl⟩
  | none => simp [ExecuteInstruction, Outcome.read, hop, Outcome.stop] at h

theorem selfJump_runs :
    (ExecuteInstruction (Debugger.New selfJumpEngine).cpu).fault = none := by
  show (ExecuteInstruction selfJumpEngine).fault = none
  rw [ExecuteInstruction_selfJump]
  rfl

/-- C21, as stated, fails: on the engine that holds `JMP $0000` at address 0
the decoded mnemonic is `JMP`, `ExecuteInstruction` runs to its end and leaves
`PC` at 0, and the step reports a halt, the debugger no longer running. -/
theorem halt_signal_follows_pc :
    lookupInstruction selfJumpEngine.Instructions 0x44 =
      some (Instruction.mk 0x44 "JMP" .Absolute 3 11) ∧
    selfJumpEngine.Memory[selfJumpEngine.PC]? = some 0x44 ∧
    (ExecuteInstruction selfJumpEngine).fault = none ∧
    (ExecuteInstruction selfJumpEngine).cpu.PC = selfJumpEngine.PC ∧
    (Debugger.New selfJumpEngine).step.fault = none ∧
    (Debugger.New selfJumpEngine).step.halted = true ∧
    (Debugger.New selfJumpEngine).step.debugger.running = false := by
  have hrun : (ExecuteInstruction selfJumpEngine).fault = none ∧
      (ExecuteInstruction selfJumpEngine).cpu.PC = selfJumpEngine.PC := by
    rw [ExecuteInstruction_selfJump]
    exact ⟨rfl, rfl⟩
  have hhalt : (Debugger.New selfJumpEngine).step.halted = true :=
    (executeInstruction_halted (Debugger.New selfJumpEngine)).mpr hrun
  refine ⟨rfl, rfl, hrun.1, hrun.2, ?_, hhalt, executeInstruction_running _ hhalt⟩
  show ((Debugger.New selfJumpEngine).executeInstruction).fault = _
  rw [executeInstruction_fault (Debugger.New selfJumpEngine) 0x44 rfl]
  exact hrun.1

/-- C21, amended. The halt signal of a step follows the program counter.  When
`ExecuteInstruction` runs to its end, so does the step; the step reports a halt
exactly when the instruction has left `PC` at the value it had before the step;
and a step that reports a halt leaves the debugger not running. -/
theorem step_halt_signal (d : Debugger)
    (hrun : (ExecuteInstruction d.cpu).fault = none) :
    d.step.fault = none ∧
    (d.step.halted = true ↔ (ExecuteInstruction d.cpu).cpu.PC = d.cpu.PC) ∧
    (d.step.halted = true → d.step.debugger.running = false) := by
  obtain ⟨op, hop⟩ := ExecuteInstruction_reads d.cpu hrun
  refine ⟨?_, ?_, executeInstruction_running d⟩
  · show (d.executeInstruction).fault = none
    rw [executeInstruction_fault d op hop, hrun]
  · show (d.executeInstruction).halted = true ↔ _
    rw [executeInstruction_halted d]
    exact ⟨fun h => h.2, fun h => ⟨hrun, h⟩⟩

/-- Witness for C21, amended: the debugger on the engine that holds `JMP $0000`
at address 0. -/
theorem step_halt_signal_witness :
    (ExecuteInstruction (Debugger.New selfJumpEngine).cpu).fault = none ∧
    (Debugger.New selfJumpEngine).step.fault = none ∧
    ((Debugger.New selfJumpEngine).step.halted = true ↔
      (ExecuteInstruction (Debugger.New selfJumpEngine).cpu).cpu.PC =
        (Debugger.New selfJumpEngine).cpu.PC) ∧
    ((Debugger.New selfJumpEngine).step.halted = true →
      (Debugger.New selfJumpEngine).step.debugger.running = false) :=
  ⟨selfJump_runs, step_halt_signal (Debugger.New selfJumpEngine) selfJump_runs⟩

/-! ## The library functions on lines -/

theorem fieldsFrom_ne_nil (word l : List Char)
    (h : word ≠ [] ∨ ∃ ch ∈ l, isSpace ch = false) : fieldsFrom word l ≠ [] := by
  induction l generalizing word with
  | nil =>
    rcases h with h | ⟨ch, hch, _⟩
    · cases word with
      | nil => exact absurd rfl h
      | cons a w => simp [fieldsFrom]
    · cases hch
  | cons ch rest ih =>
    unfold fieldsFrom
    by_cases hs : isSpace ch = true
    · simp only [hs, if_true]
      cases word with
      | nil =>
        simp only [List.isEmpty_nil, if_true]
        apply ih
        right
        rcases h with h | ⟨x, hx, hxs⟩
        · exact absurd rfl h
        · rcases List.mem_cons.mp hx with rfl | hx'
          · rw [hs] at hxs
            cases hxs
          · exact ⟨x, hx', hxs⟩
      | cons a w => simp
    · simp only [hs, if_false]
      exact ih _ (Or.inl (List.cons_ne_nil _ _))

theorem TrimSpace_nonspace (text : String) (h : TrimSpace text ≠ "") :
    ∃ ch ∈ (TrimSpace text).data, isSpace ch = false := by
  unfold TrimSpace at h ⊢
  generalize (text.data.dropWhile isSpace).reverse = l at h ⊢
  cases hq : l.dropWhile isSpace with
  | nil =>
    rw [hq] at h
    exact absurd rfl h
  | cons a q =>
    refine ⟨a, ?_, ?_⟩
    · simp
    · have := List.head_dropWhile_not isSpace l (by rw [hq]; exact List.cons_ne_nil _ _)
      simp only [hq, List.head_cons] at this
      simpa using this

theorem Fields_TrimSpace_ne_nil (text : String) (h : TrimSpace text ≠ "") :
    Fields (TrimSpace text) ≠ [] :=
  fieldsFrom_ne_nil [] _ (Or.inr (TrimSpace_nonspace text h))

/-! ## The first pass -/

theorem tableSize_lookup (s : List (Nat × Instruction)) (hs : s.Perm Intel8008Instructions)
    (m : String) : ((GetInstrSizes s).lookup m).getD 0 = tableSize m := by
  rw [GetInstrSizes_order s m hs]
  unfold tableSize
  cases hf : Intel8008Instructions.find? (fun e => e.2.Mnemonic == m) with
  | some e =>
    have hmem := List.mem_of_find?_eq_some hf
    have hm : e.2.Mnemonic = m := by
      have := List.find?_some hf
      simpa using this
    have := sizes_of_table e hmem
    rw [hm] at this
    rw [this]
    rfl
  | none =>
    have habs : ∀ x ∈ Intel8008Instructions, x.2.Mnemonic ≠ m := by
      intro x hx hxm
      have := List.find?_eq_none.mp hf x hx
      simp [hxm] at this
    have : (GetInstrSizes Intel8008Instructions).lookup m = none :=
      lookup_foldl_none (fun e => e.2.Size) m _ habs
    rw [this]
    rfl

theorem firstPassLine_eq (s : List (Nat × Instruction)) (hs : s.Perm Intel8008Instructions)
    (labels : List (String × Nat)) (a : Nat) (ha : a < 65536) (text : String) :
    firstPassLine (GetInstrSizes s) labels a text =
      .ok (if isLabelLine text then (labelName text, a) :: labels else labels,
        (a + lineSize text) % 65536) := by
  unfold firstPassLine isLabelLine lineSize isInstructionLine labelName
  by_cases h1 : TrimSpace text = ""
  · simp [h1, Nat.mod_eq_of_lt ha]
  · by_cases h2 : HasPrefix (TrimSpace text) ";" = true
    · simp [h1, h2, Nat.mod_eq_of_lt ha]
    · by_cases h3 : HasSuffix (TrimSpace text) ":" = true
      · simp [h1, h2, h3, Nat.mod_eq_of_lt ha]
      · have hf := Fields_TrimSpace_ne_nil text h1
        cases hp : Fields (TrimSpace text) with
        | nil => exact absurd hp hf
        | cons mnemonic rest =>
          simp only [h1, h2, h3, hp, tableSize_lookup s hs]
          simp

theorem firstPass_append (sizes : List (String × Nat)) (l₁ l₂ : List String)
    (labels : List (String × Nat)) (a : Nat) :
    firstPass sizes (l₁ ++ l₂) labels a =
      match firstPass sizes l₁ labels a with
      | .ok (labels, a) => firstPass sizes l₂ labels a
      | .error f => .error f := by
  induction l₁ generalizing labels a with
  | nil => rfl
  | cons text rest ih =>
    simp only [List.cons_append, firstPass]
    cases firstPassLine sizes labels a text with
    | error f => rfl
    | ok r => exact ih r.1 r.2

theorem addressAfter_lt (start : Nat) (before : List String) : addressAfter start before < 65536 :=
  Nat.mod_lt _ (by decide)

theorem addressAfter_cons (a : Nat) (text : String) (rest : List String) :
    addressAfter ((a + lineSize text) % 65536) rest = addressAfter a (text :: rest) := by
  unfold addressAfter
  simp only [List.map_cons, List.sum_cons]
  omega

theorem firstPass_eq (s : List (Nat × Instruction)) (hs : s.Perm Intel8008Instructions)
    (lines : List String) (labels : List (String × Nat)) (a : Nat) (ha : a < 65536) :
    ∃ labels', firstPass (GetInstrSizes s) lines labels a = .ok (labels', addressAfter a lines) ∧
      (∀ k, k ∉ definedLabels lines → labels'.lookup k = labels.lookup k) ∧
      (∀ k v, labels'.lookup k = some v → v < 65536 ∨ labels.lookup k = some v) := by
  induction lines generalizing labels a with
  | nil =>
    refine ⟨labels, ?_, fun _ _ => rfl, fun _ _ h => Or.inr h⟩
    simp [firstPass, addressAfter, Nat.mod_eq_of_lt ha]
  | cons text rest ih =>
    simp only [firstPass, firstPassLine_eq s hs labels a ha text]
    obtain ⟨labels', h1, h2, h3⟩ := ih
      (if isLabelLine text then (labelName text, a) :: labels else labels)
      ((a + lineSize text) % 65536) (Nat.mod_lt _ (by decide))
    refine ⟨labels', ?_, ?_, ?_⟩
    · rw [h1, addressAfter_cons]
    · intro k hk
      have hk' : k ∉ definedLabels rest := by
        intro hmem
        apply hk
        unfold definedLabels at hmem ⊢
        by_cases hl : isLabelLine text = true
        · simp only [List.filter_cons, hl, if_true, List.map_cons, List.mem_cons]
          exact Or.inr hmem
        · simp only [List.filter_cons, hl, if_false]
          exact hmem
      rw [h2 k hk']
      by_cases hl : isLabelLine text = true
      · simp only [hl, if_true]
        have hne : k ≠ labelName text := by
          intro heq
          apply hk
          unfold definedLabels
          simp only [List.filter_cons, hl, if_true, List.map_cons, List.mem_cons]
          exact Or.inl heq
        rw [List.lookup_cons]
        have : (k == labelName text) = false := by simpa using hne
        simp only [this]
      · simp only [hl, if_false, Bool.false_eq_true]
    · intro k v hkv
      rcases h3 k v hkv with hv | hv
      · exact Or.inl hv
      · by_cases hl : isLabelLine text = true
        · simp only [hl, if_true] at hv
          rw [List.lookup_cons] at hv
          by_cases hk : (k == labelName text) = true
          · simp only [hk] at hv
            left
            have := Option.some.inj hv
            omega
          · simp only [hk] at hv
            exact Or.inr hv
        · simp only [hl, if_false, Bool.false_eq_true] at hv
          exact Or.inr hv

/-! ## Claim C22: the addresses of the labels -/

/-- C22 fails on the code: the first loop of `assemble` looks up the first
blank-separated word of an instruction line without removing a comment.  In the
source `ADB;x`, `end:` the leading mnemonic of the first line is `ADB`, of table
size 1, and the second loop emits its byte `0x81`; the first loop looks up the
word `ADB;x`, which the size table does not have, adds 0 and binds `end` to
`0x8000`, where the line `ADB` gives `0x8001`. -/
theorem first_pass_keeps_comment :
    lineTokens "ADB;x" = some ["ADB"] ∧ leadingMnemonic "ADB;x" = some "ADB" ∧
    tableSize "ADB" = 1 ∧
    Fields (TrimSpace "ADB;x") = ["ADB;x"] ∧
    (GetInstrSizes Intel8008Instructions).lookup "ADB;x" = none ∧
    firstPass (GetInstrSizes Intel8008Instructions) ["ADB;x", "end:"] [] 0x8000 =
      .ok ([("end", 0x8000)], 0x8000) ∧
    firstPass (GetInstrSizes Intel8008Instructions) ["ADB", "end:"] [] 0x8000 =
      .ok ([("end", 0x8001)], 0x8001) ∧
    assemble Intel8008Instructions Intel8008Instructions ["ADB;x", "end:"] "8008" 0x8000 =
      .ok ([0x81], [("end", 0x8000)]) ∧
    assemble Intel8008Instructions Intel8008Instructions ["ADB", "end:"] "8008" 0x8000 =
      .ok ([0x81], [("end", 0x8001)]) :=
  ⟨by decide, by decide, by decide, by decide, by decide, rfl, rfl, rfl, rfl⟩

/-! ## The second pass -/

theorem secondPass_append (o s labels : List (String × Nat)) (l₁ l₂ : List String)
    (binary : List Nat) (a : Nat) :
    secondPass o s labels (l₁ ++ l₂) binary a =
      match secondPass o s labels l₁ binary a with
      | .ok (binary, a) => secondPass o s labels l₂ binary a
      | .error f => .error f := by
  induction l₁ generalizing binary a with
  | nil => rfl
  | cons text rest ih =>
    simp only [List.cons_append, secondPass]
    cases secondPassLine o s labels binary a text with
    | error f => rfl
    | ok r => exact ih r.1 r.2

theorem leadingMnemonic_tokens (text tok : String) (h : leadingMnemonic text = some tok) :
    ∃ operands, lineTokens text = some (tok :: operands) := by
  unfold leadingMnemonic at h
  unfold lineTokens
  by_cases hskip : TrimSpace text = "" ∨ HasPrefix (TrimSpace text) ";" = true ∨
      HasSuffix (TrimSpace text) ":" = true
  · simp [hskip] at h
  · simp only [hskip, if_false] at h ⊢
    cases hidx : Index (TrimSpace text) ';' with
    | none =>
      simp only [hidx] at h ⊢
      cases hp : Fields (TrimSpace text) with
      | nil => simp [hp] at h
      | cons m ops =>
        simp only [hp, List.head?_cons, Option.some.injEq] at h
        exact ⟨ops, by rw [h]⟩
    | some idx =>
      simp only [hidx] at h ⊢
      cases hp : Fields (String.mk ((TrimSpace text).data.take idx)) with
      | nil => simp [hp] at h
      | cons m ops =>
        simp only [hp, List.head?_cons, Option.some.injEq] at h
        exact ⟨ops, by rw [h]⟩

theorem secondPassLine_skip (o s labels : List (String × Nat)) (binary : List Nat) (a : Nat)
    (text : String) (h : lineTokens text = none) :
    secondPassLine o s labels binary a text = .ok (binary, a) := by
  unfold lineTokens at h
  unfold secondPassLine
  by_cases hskip : TrimSpace text = "" ∨ HasPrefix (TrimSpace text) ";" = true ∨
      HasSuffix (TrimSpace text) ":" = true
  · simp only [hskip, if_true]
  · simp [hskip] at h

theorem secondPassLine_operand (o s labels : List (String × Nat)) (binary : List Nat) (a : Nat)
    (text m operand : String) (rest : List String)
    (h : lineTokens text = some (m :: operand :: rest)) :
    secondPassLine o s labels binary a text =
      match o.lookup m with
      | none => .error (AssemblyFault.unknownMnemonic m)
      | some opcode =>
        match handle8008Operand m operand labels a (binary ++ [opcode]) with
        | .ok binary => .ok (binary, (a + ((s.lookup m).getD 0) % 65536) % 65536)
        | .error f => .error f := by
  unfold lineTokens at h
  unfold secondPassLine
  by_cases hskip : TrimSpace text = "" ∨ HasPrefix (TrimSpace text) ";" = true ∨
      HasSuffix (TrimSpace text) ":" = true
  · simp [hskip] at h
  · simp only [hskip, if_false, Option.some.injEq] at h ⊢
    cases hidx : Index (TrimSpace text) ';' with
    | none =>
      simp only [hidx] at h ⊢
      simp only [h]
    | some idx =>
      simp only [hidx] at h ⊢
      simp only [h]

theorem secondPassLine_bare (o s labels : List (String × Nat)) (binary : List Nat) (a : Nat)
    (text m : String) (h : lineTokens text = some [m]) :
    secondPassLine o s labels binary a text =
      match o.lookup m with
      | none => .error (AssemblyFault.unknownMnemonic m)
      | some opcode => .ok (binary ++ [opcode], (a + ((s.lookup m).getD 0) % 65536) % 65536) := by
  unfold lineTokens at h
  unfold secondPassLine
  by_cases hskip : TrimSpace text = "" ∨ HasPrefix (TrimSpace text) ";" = true ∨
      HasSuffix (TrimSpace text) ":" = true
  · simp [hskip] at h
  · simp only [hskip, if_false, Option.some.injEq] at h ⊢
    cases hidx : Index (TrimSpace text) ';' with
    | none =>
      simp only [hidx] at h ⊢
      simp only [h]
    | some idx =>
      simp only [hidx] at h ⊢
      simp only [h]

theorem secondPassLine_unknown (o s labels : List (String × Nat)) (binary : List Nat) (a : Nat)
    (text m : String) (operands : List String) (h : lineTokens text = some (m :: operands))
    (hu : o.lookup m = none) :
    secondPassLine o s labels binary a text = .error (AssemblyFault.unknownMnemonic m) := by
  cases operands with
  | nil => simp only [secondPassLine_bare o s labels binary a text m h, hu]
  | cons operand rest =>
    simp only [secondPassLine_operand o s labels binary a text m operand rest h, hu]

theorem lookup_opcode_none (o : List (Nat × Instruction)) (ho : o.Perm Intel8008Instructions)
    (tok : String) (hu : ∀ e ∈ Intel8008Instructions, e.2.Mnemonic ≠ tok) :
    (GetOpcodes o).lookup tok = none :=
  lookup_foldl_none (fun e => e.1) tok o (fun x hx => hu x (ho.mem_iff.mp hx))

theorem assemble_passTwo (o s : List (Nat × Instruction)) (hs : s.Perm Intel8008Instructions)
    (lines : List String) (start : Nat) (hstart : start < 65536) :
    ∃ labels, firstPass (GetInstrSizes s) lines [] start = .ok (labels, addressAfter start lines) ∧
      (∀ part, passTwo o s lines start part =
        secondPass (GetOpcodes o) (GetInstrSizes s) labels part [] 0x8000) ∧
      assemble o s lines "8008" start =
        match secondPass (GetOpcodes o) (GetInstrSizes s) labels lines [] 0x8000 with
        | .error f => .error f
        | .ok (binary, _) => .ok (binary, labels) := by
  obtain ⟨labels, h1, _, _⟩ := firstPass_eq s hs lines [] start hstart
  refine ⟨labels, h1, ?_, ?_⟩
  · intro part
    simp only [passTwo, h1]
  · simp only [assemble, if_true, h1]

/-! ## Claim C23: a word that is no mnemonic -/

theorem secondPass_unknown (o s labels : List (String × Nat)) (before after : List String)
    (text tok : String) (ht : leadingMnemonic text = some tok) (hu : o.lookup tok = none) :
    secondPass o s labels (before ++ text :: after) [] 0x8000 =
      match secondPass o s labels before [] 0x8000 with
      | .ok _ => .error (AssemblyFault.unknownMnemonic tok)
      | .error f => .error f := by
  obtain ⟨operands, htok⟩ := leadingMnemonic_tokens text tok ht
  rw [secondPass_append]
  cases secondPass o s labels before [] 0x8000 with
  | error f => rfl
  | ok r =>
    simp only [secondPass, secondPassLine_unknown o s labels r.1 r.2 text tok operands htok hu]

/-- C23, as stated, fails on the kind of the error: the source `LHI #$1FF`,
`ZZZ` has the instruction line `ZZZ`, whose leading word is no mnemonic of the
table, and its assembly fails at the first line with the oversize-immediate
error, not with the unknown-mnemonic error. -/
theorem unknown_mnemonic_after_other_error :
    leadingMnemonic "ZZZ" = some "ZZZ" ∧
    (Intel8008Instructions.find? fun e => e.2.Mnemonic == "ZZZ") = none ∧
    assemble Intel8008Instructions Intel8008Instructions ["LHI #$1FF", "ZZZ"] "8008" 0x8000 =
      .error (AssemblyFault.oversizeImmediate "LHI" 0x1FF) ∧
    AssemblyFault.oversizeImmediate "LHI" 0x1FF ≠ AssemblyFault.unknownMnemonic "ZZZ" :=
  ⟨by decide, by decide, rfl, by decide⟩

/-- C23, amended. A source with an instruction line whose leading word is no
mnemonic of the table never assembles: `assemble` fails and returns no bytes.
The failure is the unknown-mnemonic error for that word when the second pass
gets through the lines before it, and the error of the earlier line otherwise. -/
theorem unknown_mnemonic_fails (o s : List (Nat × Instruction))
    (ho : o.Perm Intel8008Instructions) (hs : s.Perm Intel8008Instructions)
    (before after : List String) (text tok : String) (start : Nat) (hstart : start < 65536)
    (ht : leadingMnemonic text = some tok)
    (hu : ∀ e ∈ Intel8008Instructions, e.2.Mnemonic ≠ tok) :
    (∃ f, assemble o s (before ++ text :: after) "8008" start = .error f) ∧
    assemble o s (before ++ text :: after) "8008" start =
      match passTwo o s (before ++ text :: after) start before with
      | .ok _ => .error (AssemblyFault.unknownMnemonic tok)
      | .error f => .error f := by
  obtain ⟨labels, _, hpart, hasm⟩ := assemble_passTwo o s hs (before ++ text :: after) start hstart
  have hsec := secondPass_unknown (GetOpcodes o) (GetInstrSizes s) labels before after text tok ht
    (lookup_opcode_none o ho tok hu)
  rw [hasm, hpart, hsec]
  cases secondPass (GetOpcodes o) (GetInstrSizes s) labels before [] 0x8000 with
  | error f => exact ⟨⟨f, rfl⟩, rfl⟩
  | ok r => exact ⟨⟨_, rfl⟩, rfl⟩

/-- Witness for C23, amended: the source `LAI #$05`, `ZZZ`, `HLT` fails with the
unknown-mnemonic error for `ZZZ`. -/
theorem unknown_mnemonic_fails_witness :
    0x8000 < 65536 ∧ leadingMnemonic "ZZZ" = some "ZZZ" ∧
      assemble Intel8008Instructions Intel8008Instructions (["LAI #$05"] ++ "ZZZ" :: ["HLT"])
          "8008" 0x8000 =
        match passTwo Intel8008Instructions Intel8008Instructions
            (["LAI #$05"] ++ "ZZZ" :: ["HLT"]) 0x8000 ["LAI #$05"] with
        | .ok _ => .error (AssemblyFault.unknownMnemonic "ZZZ")
        | .error f => .error f :=
  ⟨by decide, by decide,
    (unknown_mnemonic_fails Intel8008Instructions Intel8008Instructions (List.Perm.refl _)
      (List.Perm.refl _) ["LAI #$05"] ["HLT"] "ZZZ" "ZZZ" 0x8000 (by decide) (by decide)
      (by decide)).2⟩

/-! ## The operand handler, branch by branch -/

theorem handle_literal (m operand : String) (labels : List (String × Nat)) (a : Nat)
    (binary : List Nat) (hfam : isJumpCall m = true) (hlit : HasPrefix operand "$" = true) :
    handle8008Operand m operand labels a binary =
      .ok (binary ++
        [((ParseUint (String.mk (operand.data.drop 1))).1 % 65536 &&& 0xFF) % 256,
          (((ParseUint (String.mk (operand.data.drop 1))).1 % 65536) >>> 8) % 256]) := by
  unfold isJumpCall at hfam
  unfold handle8008Operand
  rw [if_pos hfam, if_pos hlit]

theorem handle_label (m operand : String) (labels : List (String × Nat)) (a : Nat)
    (binary : List Nat) (hfam : isJumpCall m = true) (hlit : HasPrefix operand "$" = false) :
    handle8008Operand m operand labels a binary =
      match labels.lookup operand with
      | some addr => .ok (binary ++ [(addr &&& 0xFF) % 256, (addr >>> 8) % 256])
      | none => .error (AssemblyFault.unknownLabel operand) := by
  unfold isJumpCall at hfam
  unfold handle8008Operand
  rw [if_pos hfam, if_neg (by rw [hlit]; exact Bool.false_ne_true)]

theorem lookup_undefined (s : List (Nat × Instruction)) (hs : s.Perm Intel8008Instructions)
    (lines : List String) (start : Nat) (hstart : start < 65536) (labels : List (String × Nat))
    (a : Nat) (h : firstPass (GetInstrSizes s) lines [] start = .ok (labels, a)) (k : String)
    (hk : k ∉ definedLabels lines) : labels.lookup k = none := by
  obtain ⟨labels', h1, h2, _⟩ := firstPass_eq s hs lines [] start hstart
  rw [h1] at h
  have : labels' = labels := by
    have := Except.ok.inj h
    exact (Prod.mk.inj this).1
  rw [← this, h2 k hk]
  rfl

/-! ## Claim C24: operands of jumps and calls -/

/-- C24, as stated, fails on operands that begin with `$`: the error of
`strconv.ParseUint` is dropped.  The line `JMP $ZZZZ`, whose operand is no
hexadecimal number, assembles to the opcode and the address `0x0000`; the line
`JMP $12345`, whose operand does not fit in 16 bits, assembles to the opcode
and the address `0xFFFF`. -/
theorem invalid_literal_assembles :
    isJumpCall "JMP" = true ∧
    ParseUint "ZZZZ" = (0, true) ∧ ParseUint "12345" = (0xFFFF, true) ∧
    definedLabels ["JMP $ZZZZ"] = [] ∧ definedLabels ["JMP $12345"] = [] ∧
    assemble Intel8008Instructions Intel8008Instructions ["JMP $ZZZZ"] "8008" 0x8000 =
      .ok ([0x7C, 0x00, 0x00], []) ∧
    assemble Intel8008Instructions Intel8008Instructions ["JMP $12345"] "8008" 0x8000 =
      .ok ([0x7C, 0xFF, 0xFF], []) :=
  ⟨by decide, by decide, by decide, by decide, by decide, rfl, rfl⟩

/-- C24, amended. A jump/call-family line whose operand does not begin with
`$` and is no label defined in the source never assembles: `assemble` fails and
returns no bytes, with the unknown-label error for the operand when the second
pass gets through the lines before it and the mnemonic is in the table.  An
operand that begins with `$` is never rejected: whatever follows the `$`, the
handler appends two bytes. -/
theorem unknown_label_fails (o s : List (Nat × Instruction))
    (hs : s.Perm Intel8008Instructions) (before after : List String)
    (text m operand : String) (rest : List String) (start : Nat) (hstart : start < 65536)
    (ht : lineTokens text = some (m :: operand :: rest))
    (hfam : isJumpCall m = true) (hlit : HasPrefix operand "$" = false)
    (hlab : operand ∉ definedLabels (before ++ text :: after)) :
    (∃ f, assemble o s (before ++ text :: after) "8008" start = .error f) ∧
    assemble o s (before ++ text :: after) "8008" start =
      (match passTwo o s (before ++ text :: after) start before with
      | .error f => .error f
      | .ok _ =>
        match (GetOpcodes o).lookup m with
        | none => .error (AssemblyFault.unknownMnemonic m)
        | some _ => .error (AssemblyFault.unknownLabel operand)) ∧
    ∀ literal labels a binary, HasPrefix literal "$" = true →
      ∃ low high, handle8008Operand m literal labels a binary = .ok (binary ++ [low, high]) := by
  obtain ⟨labels, hfirst, hpart, hasm⟩ :=
    assemble_passTwo o s hs (before ++ text :: after) start hstart
  have hnone := lookup_undefined s hs _ start hstart labels _ hfirst operand hlab
  have hsec : secondPass (GetOpcodes o) (GetInstrSizes s) labels (before ++ text :: after) []
        0x8000 =
      match secondPass (GetOpcodes o) (GetInstrSizes s) labels before [] 0x8000 with
      | .error f => .error f
      | .ok _ =>
        match (GetOpcodes o).lookup m with
        | none => .error (AssemblyFault.unknownMnemonic m)
        | some _ => .error (AssemblyFault.unknownLabel operand) := by
    rw [secondPass_append]
    cases secondPass (GetOpcodes o) (GetInstrSizes s) labels before [] 0x8000 with
    | error f => rfl
    | ok r =>
      simp only [secondPass, secondPassLine_operand _ _ labels r.1 r.2 text m operand rest ht]
      cases (GetOpcodes o).lookup m with
      | none => rfl
      | some opcode =>
        simp only [handle_label m operand labels r.2 (r.1 ++ [opcode]) hfam hlit, hnone]
  refine ⟨?_, ?_, ?_⟩
  · rw [hasm, hsec]
    cases secondPass (GetOpcodes o) (GetInstrSizes s) labels before [] 0x8000 with
    | error f => exact ⟨f, rfl⟩
    | ok r =>
      cases (GetOpcodes o).lookup m with
      | none => exact ⟨_, rfl⟩
      | some opcode => exact ⟨_, rfl⟩
  · rw [hasm, hpart, hsec]
    cases secondPass (GetOpcodes o) (GetInstrSizes s) labels before [] 0x8000 with
    | error f => rfl
    | ok r =>
      cases (GetOpcodes o).lookup m with
      | none => rfl
      | some opcode => rfl
  · intro literal labels a binary hl
    exact ⟨_, _, handle_literal m literal labels a binary hfam hl⟩

/-- Witness for C24, amended: the source `LAI #$05`, `JMP nowhere`, with no
label line, fails with the unknown-label error for `nowhere`. -/
theorem unknown_label_fails_witness :
    0x8000 < 65536 ∧ lineTokens "JMP nowhere" = some ["JMP", "nowhere"] ∧
      isJumpCall "JMP" = true ∧ HasPrefix "nowhere" "$" = false ∧
      "nowhere" ∉ definedLabels (["LAI #$05"] ++ "JMP nowhere" :: []) ∧
      ∃ f, assemble Intel8008Instructions Intel8008Instructions
        (["LAI #$05"] ++ "JMP nowhere" :: []) "8008" 0x8000 = .error f :=
  ⟨by decide, by decide, by decide, by decide, by decide,
    (unknown_label_fails Intel8008Instructions Intel8008Instructions (List.Perm.refl _)
      ["LAI #$05"] [] "JMP nowhere" "JMP" "nowhere" [] 0x8000 (by decide) (by decide) (by decide)
      (by decide) (by decide)).1⟩

/-! ## Claim C25: lines without an operand -/

/-- C25 fails on the code: a line without its operand is assembled.  The
one-line source `LAI`, an immediate-family mnemonic of table size 2, gives the
single byte `0x06`, and the one-line source `JMP`, a jump-family mnemonic of
table size 3, the single opcode byte.  Both address counters still advance by
the table size: the source `LAI`, `end:`, `JMP end` gives the four bytes
`06 7C 02 80` with `end` bound to `0x8002` and both counters at `0x8005`, while
the byte after the label is the second byte.  An operand that is present is
checked: `LAI 5` fails with the invalid-immediate error. -/
theorem missing_operand_assembles :
    lineTokens "LAI" = some ["LAI"] ∧ HasSuffix "LAI" "I" = true ∧ tableSize "LAI" = 2 ∧
    assemble Intel8008Instructions Intel8008Instructions ["LAI"] "8008" 0x8000 =
      .ok ([0x06], []) ∧
    lineTokens "JMP" = some ["JMP"] ∧ isJumpCall "JMP" = true ∧ tableSize "JMP" = 3 ∧
    assemble Intel8008Instructions Intel8008Instructions ["JMP"] "8008" 0x8000 =
      .ok ([0x7C], []) ∧
    assemble Intel8008Instructions Intel8008Instructions ["LAI", "end:", "JMP end"] "8008"
      0x8000 = .ok ([0x06, 0x7C, 0x02, 0x80], [("end", 0x8002)]) ∧
    assembleCounters Intel8008Instructions Intel8008Instructions ["LAI", "end:", "JMP end"]
      "8008" 0x8000 = .ok (0x8005, 0x8005) ∧
    assemble Intel8008Instructions Intel8008Instructions ["LAI 5"] "8008" 0x8000 =
      .error (AssemblyFault.invalidImmediate "LAI" "5") :=
  ⟨by decide, by decide, by decide, rfl, by decide, by decide, by decide, rfl, rfl, rfl, rfl⟩

/-! ## Claim C26: oversize immediates of `LHI` and `LLI` -/

theorem hexValueFrom_ge (n : Nat) (digits : List Char) : n ≤ hexValueFrom n digits := by
  induction digits generalizing n with
  | nil => exact Nat.le_refl _
  | cons ch rest ih =>
    have h := ih (n * 16 + (hexDigit ch).getD 0)
    have : hexValueFrom n (ch :: rest) = hexValueFrom (n * 16 + (hexDigit ch).getD 0) rest := rfl
    rw [this]
    omega

theorem parseUintFrom_value (n : Nat) (digits : List Char) (hn : n ≤ 0xFFFF)
    (hd : ∀ ch ∈ digits, (hexDigit ch).isSome = true) :
    (parseUintFrom n digits).1 = min (hexValueFrom n digits) 0xFFFF := by
  induction digits generalizing n with
  | nil =>
    show n = min n 0xFFFF
    omega
  | cons ch rest ih =>
    have hch := hd ch (List.mem_cons_self _ _)
    cases hx : hexDigit ch with
    | none => simp [hx] at hch
    | some d =>
      have hv : hexValueFrom n (ch :: rest) = hexValueFrom (n * 16 + d) rest := by
        show hexValueFrom (n * 16 + (hexDigit ch).getD 0) rest = _
        rw [hx]
        rfl
      rw [hv]
      unfold parseUintFrom
      simp only [hx]
      by_cases hbig : n * 16 + d > 0xFFFF
      · rw [if_pos hbig]
        have := hexValueFrom_ge (n * 16 + d) rest
        show 0xFFFF = _
        omega
      · rw [if_neg hbig]
        exact ih (n * 16 + d) (by omega) (fun c hc => hd c (List.mem_cons_of_mem _ hc))

theorem ParseUint_value (digits : List Char) (hd : isHexDigits digits = true) :
    (ParseUint (String.mk digits)).1 = min (hexValue digits) 0xFFFF := by
  unfold isHexDigits at hd
  simp only [Bool.and_eq_true, Bool.not_eq_true', List.all_eq_true] at hd
  unfold ParseUint
  simp only [hd.1]
  exact parseUintFrom_value 0 digits (by decide) hd.2

theorem handle_oversize (m : String) (digits : List Char) (labels : List (String × Nat))
    (a : Nat) (binary : List Nat) (hm : m = "LHI" ∨ m = "LLI")
    (hd : isHexDigits digits = true) (hv : hexValue digits > 0xFF) :
    handle8008Operand m (String.mk ('#' :: '$' :: digits)) labels a binary =
      .error (AssemblyFault.oversizeImmediate m (min (hexValue digits) 0xFFFF)) := by
  have hfam : (HasPrefix m "J" || HasPrefix m "CA" || HasPrefix m "CF" || HasPrefix m "CT") =
      false := by
    rcases hm with rfl | rfl <;> decide
  have himm : HasSuffix m "I" = true := by
    rcases hm with rfl | rfl <;> decide
  have hfmt : HasPrefix (String.mk ('#' :: '$' :: digits)) "#$" = true := by
    simp [HasPrefix, List.isPrefixOf]
  have hval := ParseUint_value digits hd
  unfold handle8008Operand
  rw [if_neg (by rw [hfam]; exact Bool.false_ne_true), if_pos himm, if_pos hfmt]
  have hdrop : (String.mk ('#' :: '$' :: digits)).data.drop 2 = digits := rfl
  simp only [hdrop, hval]
  rw [if_pos ⟨hm, by omega⟩]

theorem opcode_LHI_LLI (o : List (Nat × Instruction)) (ho : o.Perm Intel8008Instructions)
    (m : String) (hm : m = "LHI" ∨ m = "LLI") : ∃ opcode, (GetOpcodes o).lookup m = some opcode := by
  rcases hm with rfl | rfl
  · exact ⟨0x2E, by rw [GetOpcodes_order o _ ho (by decide)]; decide⟩
  · exact ⟨0x36, by rw [GetOpcodes_order o _ ho (by decide)]; decide⟩

/-- C26. `LHI` and `LLI` reject an immediate above `0xFF`.  On a line whose
mnemonic is `LHI` or `LLI` and whose operand is `#$` followed by hexadecimal
digits of value above `0xFF`, the operand handler ends with the
oversize-immediate error and appends no byte; `assemble` fails and returns no
bytes for every source with such a line, and the failure is the
oversize-immediate error when the second pass gets through the lines before
it.  The value reported is the one `strconv.ParseUint` returns: the value of
the digits, or `0xFFFF` when that does not fit in 16 bits. -/
theorem oversize_immediate_rejected (o s : List (Nat × Instruction))
    (ho : o.Perm Intel8008Instructions) (hs : s.Perm Intel8008Instructions)
    (before after : List String) (text m : String) (digits : List Char) (rest : List String)
    (start : Nat) (hstart : start < 65536)
    (ht : lineTokens text = some (m :: String.mk ('#' :: '$' :: digits) :: rest))
    (hm : m = "LHI" ∨ m = "LLI") (hd : isHexDigits digits = true)
    (hv : hexValue digits > 0xFF) :
    (∀ labels a binary, handle8008Operand m (String.mk ('#' :: '$' :: digits)) labels a binary =
      .error (AssemblyFault.oversizeImmediate m (min (hexValue digits) 0xFFFF))) ∧
    (∃ f, assemble o s (before ++ text :: after) "8008" start = .error f) ∧
    assemble o s (before ++ text :: after) "8008" start =
      match passTwo o s (before ++ text :: after) start before with
      | .error f => .error f
      | .ok _ => .error (AssemblyFault.oversizeImmediate m (min (hexValue digits) 0xFFFF)) := by
  obtain ⟨labels, hfirst, hpart, hasm⟩ :=
    assemble_passTwo o s hs (before ++ text :: after) start hstart
  obtain ⟨opcode, hop⟩ := opcode_LHI_LLI o ho m hm
  have hsec : secondPass (GetOpcodes o) (GetInstrSizes s) labels (before ++ text :: after) []
        0x8000 =
      match secondPass (GetOpcodes o) (GetInstrSizes s) labels before [] 0x8000 with
      | .error f => .error f
      | .ok _ => .error (AssemblyFault.oversizeImmediate m (min (hexValue digits) 0xFFFF)) := by
    rw [secondPass_append]
    cases secondPass (GetOpcodes o) (GetInstrSizes s) labels before [] 0x8000 with
    | error f => rfl
    | ok r =>
      simp only [secondPass, secondPassLine_operand _ _ labels r.1 r.2 text m _ rest ht, hop,
        handle_oversize m digits labels r.2 (r.1 ++ [opcode]) hm hd hv]
  refine ⟨fun labels a binary => handle_oversize m digits labels a binary hm hd hv, ?_, ?_⟩
  · rw [hasm, hsec]
    cases secondPass (GetOpcodes o) (GetInstrSizes s) labels before [] 0x8000 with
    | error f => exact ⟨f, rfl⟩
    | ok r => exact ⟨_, rfl⟩
  · rw [hasm, hpart, hsec]
    cases secondPass (GetOpcodes o) (GetInstrSizes s) labels before [] 0x8000 with
    | error f => rfl
    | ok r => rfl

/-- Witness for C26: the source `LAI #$05`, `LHI #$1FF` fails with the
oversize-immediate error for the value `0x1FF`. -/
theorem oversize_immediate_rejected_witness :
    0x8000 < 65536 ∧
      lineTokens "LHI #$1FF" = some ("LHI" :: String.mk ('#' :: '$' :: ['1', 'F', 'F']) :: []) ∧
      isHexDigits ['1', 'F', 'F'] = true ∧ hexValue ['1', 'F', 'F'] > 0xFF ∧
      assemble Intel8008Instructions Intel8008Instructions (["LAI #$05"] ++ "LHI #$1FF" :: [])
          "8008" 0x8000 =
        match passTwo Intel8008Instructions Intel8008Instructions
            (["LAI #$05"] ++ "LHI #$1FF" :: []) 0x8000 ["LAI #$05"] with
        | .error f => .error f
        | .ok _ => .error (AssemblyFault.oversizeImmediate "LHI"
            (min (hexValue ['1', 'F', 'F']) 0xFFFF)) :=
  ⟨by decide, by decide, by decide, by decide,
    (oversize_immediate_rejected Intel8008Instructions Intel8008Instructions (List.Perm.refl _)
      (List.Perm.refl _) ["LAI #$05"] [] "LHI #$1FF" "LHI" ['1', 'F', 'F'] [] 0x8000 (by decide)
      (by decide) (Or.inl rfl) (by decide) (by decide)).2.2⟩

/-! ## Claim C27: the address the second pass starts from -/

/-- C27 fails on the code: the second loop of `assemble` starts from the
constant `0x8000`, not from the start address.  On the empty source, where no
line moves the counters, the first loop ends at the start address and the
second at `0x8000`, whatever the start address; on the four-line sample program
assembled at `0x0100` the first loop ends at `0x0106` and the second at
`0x8006`. -/
theorem second_pass_starts_at_constant :
    (∀ start, assembleCounters Intel8008Instructions Intel8008Instructions [] "8008" start =
      .ok (start, 0x8000)) ∧
    assembleCounters Intel8008Instructions Intel8008Instructions [] "8008" 0x0100 =
      .ok (0x0100, 0x8000) ∧
    assembleCounters Intel8008Instructions Intel8008Instructions sampleProgram "8008" 0x0100 =
      .ok (0x0106, 0x8006) ∧
    assemble Intel8008Instructions Intel8008Instructions sampleProgram "8008" 0x0100 =
      .ok ([0x06, 0x05, 0x0E, 0x03, 0x81, 0xFF], []) :=
  ⟨fun _ => rfl, rfl, rfl, rfl⟩

/-! ## Claim C28: the bytes of a label operand -/

theorem handle_extends (m operand : String) (labels : List (String × Nat)) (a : Nat)
    (binary result : List Nat) (h : handle8008Operand m operand labels a binary = .ok result) :
    ∃ ext, result = binary ++ ext := by
  unfold handle8008Operand at h
  split at h
  · split at h
    · exact ⟨_, (Except.ok.inj h).symm⟩
    · split at h
      · exact ⟨_, (Except.ok.inj h).symm⟩
      · cases h
  · split at h
    · split at h
      · simp only at h
        split at h
        · cases h
        · exact ⟨_, (Except.ok.inj h).symm⟩
      · cases h
    · cases h

theorem secondPassLine_extends (o s labels : List (String × Nat)) (binary : List Nat) (a : Nat)
    (text : String) (result : List Nat) (a' : Nat)
    (h : secondPassLine o s labels binary a text = .ok (result, a')) :
    ∃ ext, result = binary ++ ext := by
  cases htok : lineTokens text with
  | none =>
    rw [secondPassLine_skip o s labels binary a text htok] at h
    exact ⟨[], by rw [(Prod.mk.inj (Except.ok.inj h)).1, List.append_nil]⟩
  | some tokens =>
    cases tokens with
    | nil =>
      unfold lineTokens at htok
      unfold secondPassLine at h
      by_cases hskip : TrimSpace text = "" ∨ HasPrefix (TrimSpace text) ";" = true ∨
          HasSuffix (TrimSpace text) ":" = true
      · simp [hskip] at htok
      · simp only [hskip, if_false, Option.some.injEq] at htok h
        cases hidx : Index (TrimSpace text) ';' with
        | none =>
          simp only [hidx] at htok h
          simp [htok] at h
        | some idx =>
          simp only [hidx] at htok h
          simp [htok] at h
    | cons m operands =>
      cases operands with
      | nil =>
        rw [secondPassLine_bare o s labels binary a text m htok] at h
        cases hop : o.lookup m with
        | none => simp [hop] at h
        | some opcode =>
          simp only [hop] at h
          exact ⟨[opcode], ((Prod.mk.inj (Except.ok.inj h)).1).symm⟩
      | cons operand rest =>
        rw [secondPassLine_operand o s labels binary a text m operand rest htok] at h
        cases hop : o.lookup m with
        | none => simp [hop] at h
        | some opcode =>
          simp only [hop] at h
          cases hh : handle8008Operand m operand labels a (binary ++ [opcode]) with
          | error f => simp [hh] at h
          | ok b =>
            simp only [hh] at h
            obtain ⟨ext, hext⟩ := handle_extends m operand labels a _ b hh
            refine ⟨[opcode] ++ ext, ?_⟩
            rw [← (Prod.mk.inj (Except.ok.inj h)).1, hext, List.append_assoc]

theorem secondPass_extends (o s labels : List (String × Nat)) (lines : List String)
    (binary : List Nat) (a : Nat) (result : List Nat) (a' : Nat)
    (h : secondPass o s labels lines binary a = .ok (result, a')) :
    ∃ ext, result = binary ++ ext := by
  induction lines generalizing binary a with
  | nil =>
    simp only [secondPass] at h
    exact ⟨[], by rw [(Prod.mk.inj (Except.ok.inj h)).1, List.append_nil]⟩
  | cons text rest ih =>
    simp only [secondPass] at h
    cases hl : secondPassLine o s labels binary a text with
    | error f => simp [hl] at h
    | ok r =>
      simp only [hl] at h
      obtain ⟨e₁, h1⟩ := secondPassLine_extends o s labels binary a text r.1 r.2 hl
      obtain ⟨e₂, h2⟩ := ih r.1 r.2 h
      exact ⟨e₁ ++ e₂, by rw [h2, h1, List.append_assoc]⟩

theorem low_high_bytes (address : Nat) (h : address < 65536) :
    (address &&& 0xFF) % 256 = address % 256 ∧ (address >>> 8) % 256 = address / 256 := by
  have h1 : address &&& 0xFF = address % 256 := Nat.and_pow_two_sub_one_eq_mod address 8
  have h2 : address >>> 8 = address / 256 := Nat.shiftRight_eq_div_pow address 8
  rw [h1, h2]
  omega

/-- C28. The second pass encodes the address the first pass bound.  When a
source assembles at a 16-bit start address, and one of its lines is a
jump/call-family instruction whose operand `L` is a label (it does not begin
with `$`): the label table that `assemble` returns is the table of the first
pass, it binds `L` to a 16-bit address, and the bytes of the line in the binary,
right after the bytes of the lines before it, are the opcode, the low byte of
that address and its high byte. -/
theorem label_operand_bytes (o s : List (Nat × Instruction))
    (hs : s.Perm Intel8008Instructions) (before after : List String)
    (text m L : String) (rest : List String) (start : Nat) (hstart : start < 65536)
    (binary : List Nat) (labels : List (String × Nat))
    (hasm : assemble o s (before ++ text :: after) "8008" start = .ok (binary, labels))
    (ht : lineTokens text = some (m :: L :: rest))
    (hfam : isJumpCall m = true) (hlit : HasPrefix L "$" = false) :
    firstPass (GetInstrSizes s) (before ++ text :: after) [] start =
      .ok (labels, addressAfter start (before ++ text :: after)) ∧
    ∃ address opcode front back a,
      labels.lookup L = some address ∧ address < 65536 ∧
      (GetOpcodes o).lookup m = some opcode ∧
      passTwo o s (before ++ text :: after) start before = .ok (front, a) ∧
      binary = front ++ [opcode, address % 256, address / 256] ++ back ∧
      address % 256 + 256 * (address / 256) = address ∧ address / 256 < 256 := by
  obtain ⟨labels₁, hfirst, hpart, hasm₁⟩ :=
    assemble_passTwo o s hs (before ++ text :: after) start hstart
  obtain ⟨_, hfirst', _, hword⟩ := firstPass_eq s hs (before ++ text :: after) [] start hstart
  rw [hasm₁] at hasm
  cases hsec : secondPass (GetOpcodes o) (GetInstrSizes s) labels₁ (before ++ text :: after) []
      0x8000 with
  | error f => simp [hsec] at hasm
  | ok r =>
    simp only [hsec] at hasm
    have hpair := Prod.mk.inj (Except.ok.inj hasm)
    have hbin : r.1 = binary := hpair.1
    have hlab : labels₁ = labels := hpair.2
    subst hlab
    rw [secondPass_append] at hsec
    cases hbefore : secondPass (GetOpcodes o) (GetInstrSizes s) labels₁ before [] 0x8000 with
    | error f => simp [hbefore] at hsec
    | ok p =>
      simp only [hbefore, secondPass,
        secondPassLine_operand _ _ labels₁ p.1 p.2 text m L rest ht] at hsec
      cases hop : (GetOpcodes o).lookup m with
      | none => simp [hop] at hsec
      | some opcode =>
        simp only [hop, handle_label m L labels₁ p.2 (p.1 ++ [opcode]) hfam hlit] at hsec
        cases hlook : labels₁.lookup L with
        | none => simp [hlook] at hsec
        | some address =>
          simp only [hlook] at hsec
          have hlt : address < 65536 := by
            rw [hfirst] at hfirst'
            have hsame := (Prod.mk.inj (Except.ok.inj hfirst')).1
            rcases hword L address (by rw [← hsame]; exact hlook) with h | h
            · exact h
            · cases h
          obtain ⟨back, hback⟩ := secondPass_extends _ _ _ after _ _ r.1 r.2 hsec
          have hbytes := low_high_bytes address hlt
          refine ⟨hfirst, address, opcode, p.1, back, p.2, rfl, hlt, rfl, ?_, ?_, ?_, ?_⟩
          · rw [hpart, hbefore]
          · rw [← hbin, hback, hbytes.1, hbytes.2]
            simp
          · omega
          · omega

/-- Witness for C28: the source `JMP end`, `end:`, `HLT` assembled at `0x8000`
binds `end` to `0x8003` and encodes the operand as `03 80`. -/
theorem label_operand_bytes_witness :
    0x8000 < 65536 ∧
      assemble Intel8008Instructions Intel8008Instructions ([] ++ "JMP end" :: ["end:", "HLT"])
        "8008" 0x8000 = .ok ([0x7C, 0x03, 0x80, 0xFF], [("end", 0x8003)]) ∧
      lineTokens "JMP end" = some ("JMP" :: "end" :: []) ∧ isJumpCall "JMP" = true ∧
      HasPrefix "end" "$" = false ∧
      ∃ address opcode front back a,
        List.lookup "end" [("end", 0x8003)] = some address ∧ address < 65536 ∧
        (GetOpcodes Intel8008Instructions).lookup "JMP" = some opcode ∧
        passTwo Intel8008Instructions Intel8008Instructions ([] ++ "JMP end" :: ["end:", "HLT"])
          0x8000 [] = .ok (front, a) ∧
        [0x7C, 0x03, 0x80, 0xFF] = front ++ [opcode, address % 256, address / 256] ++ back ∧
        address % 256 + 256 * (address / 256) = address ∧ address / 256 < 256 :=
  ⟨by decide, rfl, by decide, by decide, by decide,
    (label_operand_bytes Intel8008Instructions Intel8008Instructions (List.Perm.refl _)
      [] ["end:", "HLT"] "JMP end" "JMP" "end" [] 0x8000 (by decide) [0x7C, 0x03, 0x80, 0xFF]
      [("end", 0x8003)] rfl (by decide) (by decide) (by decide)).2⟩

/-! ## Claim C29: comments after a label or an instruction -/

/-- C29 fails on the code: both loops of `assemble` test the end of the line
for `:` before any comment is removed, and the first loop removes none.  The
source `start:`, `JMP start` assembles with `start` bound to `0x8000`; with the
comment `; entry` after the label the first line is no label line any more and
the assembly fails at the word `start:`.  The line `ADB` assembles to `0x81`,
and so does `ADB ; add`; with the comment `; note:` the line is taken for a
label line, no byte is emitted and a label is bound. -/
theorem comment_changes_assembly :
    assemble Intel8008Instructions Intel8008Instructions ["start:", "JMP start"] "8008" 0x8000 =
      .ok ([0x7C, 0x00, 0x80], [("start", 0x8000)]) ∧
    assemble Intel8008Instructions Intel8008Instructions ["start: ; entry", "JMP start"] "8008"
      0x8000 = .error (AssemblyFault.unknownMnemonic "start:") ∧
    assemble Intel8008Instructions Intel8008Instructions ["ADB"] "8008" 0x8000 =
      .ok ([0x81], []) ∧
    assemble Intel8008Instructions Intel8008Instructions ["ADB ; add"] "8008" 0x8000 =
      .ok ([0x81], []) ∧
    assemble Intel8008Instructions Intel8008Instructions ["ADB ; note:"] "8008" 0x8000 =
      .ok ([], [("ADB ; note", 0x8000)]) :=
  ⟨rfl, rfl, rfl, rfl, rfl⟩

/-! ## Claim C30: the encoder and the decoder of an absolute operand -/

theorem hexChar_facts (d : Nat) (h : d < 16) :
    hexDigit (hexChar d) = some d ∧ isSpace (hexChar d) = false ∧ hexChar d ≠ ';' ∧
      hexChar d ≠ ':' := by
  interval_cases d <;> decide

theorem lineTokens_jump (c₃ c₂ c₁ c₀ : Char)
    (h₃ : isSpace c₃ = false) (h₂ : isSpace c₂ = false) (h₁ : isSpace c₁ = false)
    (h₀ : isSpace c₀ = false) (k₃ : c₃ ≠ ';') (k₂ : c₂ ≠ ';') (k₁ : c₁ ≠ ';') (k₀ : c₀ ≠ ';')
    (hcolon : c₀ ≠ ':') :
    lineTokens (String.mk ['J', 'M', 'P', ' ', '$', c₃, c₂, c₁, c₀]) =
      some ["JMP", String.mk ['$', c₃, c₂, c₁, c₀]] := by
  have sJ : isSpace 'J' = false := by decide
  have sM : isSpace 'M' = false := by decide
  have sP : isSpace 'P' = false := by decide
  have sS : isSpace ' ' = true := by decide
  have sD : isSpace '$' = false := by decide
  have htrim : TrimSpace (String.mk ['J', 'M', 'P', ' ', '$', c₃, c₂, c₁, c₀]) =
      String.mk ['J', 'M', 'P', ' ', '$', c₃, c₂, c₁, c₀] := by
    simp [TrimSpace, List.dropWhile, sJ, h₀]
  have hne : String.mk ['J', 'M', 'P', ' ', '$', c₃, c₂, c₁, c₀] ≠ "" := by
    intro h
    have := congrArg String.data h
    simp at this
  have hpre : HasPrefix (String.mk ['J', 'M', 'P', ' ', '$', c₃, c₂, c₁, c₀]) ";" = false := by
    simp [HasPrefix, List.isPrefixOf]
  have hsuf : HasSuffix (String.mk ['J', 'M', 'P', ' ', '$', c₃, c₂, c₁, c₀]) ":" = false := by
    simp [HasSuffix, List.isPrefixOf, hcolon.symm]
  have hidx : Index (String.mk ['J', 'M', 'P', ' ', '$', c₃, c₂, c₁, c₀]) ';' = none := by
    simp [Index, k₃.symm, k₂.symm, k₁.symm, k₀.symm]
  have hfields : Fields (String.mk ['J', 'M', 'P', ' ', '$', c₃, c₂, c₁, c₀]) =
      ["JMP", String.mk ['$', c₃, c₂, c₁, c₀]] := by
    simp [Fields, fieldsFrom, sJ, sM, sP, sS, sD, h₃, h₂, h₁, h₀]
  unfold lineTokens
  simp only [htrim, hne, hpre, hsuf, hidx, hfields, false_or, if_false, Bool.false_eq_true]


theorem lineTokens_jumpLine (t : Nat) :
    lineTokens (jumpLine t) = some ["JMP", String.mk ('$' :: hex4 t)] := by
  have f₃ := hexChar_facts (t / 4096 % 16) (Nat.mod_lt _ (by decide))
  have f₂ := hexChar_facts (t / 256 % 16) (Nat.mod_lt _ (by decide))
  have f₁ := hexChar_facts (t / 16 % 16) (Nat.mod_lt _ (by decide))
  have f₀ := hexChar_facts (t % 16) (Nat.mod_lt _ (by decide))
  exact lineTokens_jump _ _ _ _ f₃.2.1 f₂.2.1 f₁.2.1 f₀.2.1 f₃.2.2.1 f₂.2.2.1 f₁.2.2.1 f₀.2.2.1
    f₀.2.2.2

theorem isLabelLine_of_tokens (text : String) (tokens : List String)
    (h : lineTokens text = some tokens) : isLabelLine text = false := by
  unfold lineTokens at h
  unfold isLabelLine
  by_cases hskip : TrimSpace text = "" ∨ HasPrefix (TrimSpace text) ";" = true ∨
      HasSuffix (TrimSpace text) ":" = true
  · simp [hskip] at h
  · simp only [not_or] at hskip
    simp [hskip.2.2]

theorem ParseUint_hex4 (t : Nat) (ht : t < 65536) : (ParseUint (String.mk (hex4 t))).1 = t := by
  have f₃ := hexChar_facts (t / 4096 % 16) (Nat.mod_lt _ (by decide))
  have f₂ := hexChar_facts (t / 256 % 16) (Nat.mod_lt _ (by decide))
  have f₁ := hexChar_facts (t / 16 % 16) (Nat.mod_lt _ (by decide))
  have f₀ := hexChar_facts (t % 16) (Nat.mod_lt _ (by decide))
  have hd : isHexDigits (hex4 t) = true := by
    simp [isHexDigits, hex4, f₃.1, f₂.1, f₁.1, f₀.1]
  have hv : hexValue (hex4 t) = t := by
    simp only [hexValue, hexValueFrom, hex4, List.foldl, f₃.1, f₂.1, f₁.1, f₀.1, Option.getD_some]
    omega
  rw [ParseUint_value _ hd, hv]
  omega

theorem jump_entries :
    ∀ e ∈ Intel8008Instructions, e.2.Mnemonic = "JMP" →
      lookupInstruction Intel8008Instructions e.1 = some e.2 := by
  decide

theorem ExecuteInstruction_JMP (c : Intel8008) (op t : Nat) (i : Instruction)
    (hI : c.Instructions = Intel8008Instructions)
    (hi : lookupInstruction Intel8008Instructions op = some i)
    (hop : c.Memory[c.PC]? = some op)
    (hlo : c.Memory[(c.PC + 1) % 65536]? = some (t % 256))
    (hhi : c.Memory[(c.PC + 2) % 65536]? = some (t / 256))
    (ht : t < 65536) (hm : i.Mnemonic = "JMP") :
    ExecuteInstruction c = Outcome.ok (afterJump c t) := by
  rw [ExecuteInstruction_transfer c op t i hI hi hop hlo hhi ht (by simp [hm, transferMnemonics])]
  simp [executeAbsolute, hm, Outcome.andThen, Outcome.ok, WaitForCycles, afterJump]

theorem assemble_jumpLine (o s : List (Nat × Instruction))
    (ho : o.Perm Intel8008Instructions) (hs : s.Perm Intel8008Instructions)
    (t start : Nat) (ht : t < 65536) (hstart : start < 65536) :
    ∃ e ∈ Intel8008Instructions, e.2.Mnemonic = "JMP" ∧
      assemble o s [jumpLine t] "8008" start = .ok ([e.1, t % 256, t / 256], []) := by
  obtain ⟨pre, e, post, hl, he, hpost, hmem⟩ :=
    visited_last o "JMP" ho ⟨(0x44, Instruction.mk 0x44 "JMP" .Absolute 3 11), by decide, rfl⟩
  have hop : (GetOpcodes o).lookup "JMP" = some e.1 := by
    rw [hl, ← he]
    exact GetOpcodes_last pre post e (by rw [he]; exact hpost)
  refine ⟨e, hmem, he, ?_⟩
  have htok := lineTokens_jumpLine t
  have hfirst : firstPass (GetInstrSizes s) [jumpLine t] [] start =
      .ok ([], (start + lineSize (jumpLine t)) % 65536) := by
    simp only [firstPass, firstPassLine_eq s hs [] start hstart,
      isLabelLine_of_tokens _ _ htok, Bool.false_eq_true, if_false]
  have hlit : HasPrefix (String.mk ('$' :: hex4 t)) "$" = true := by
    simp [HasPrefix, List.isPrefixOf]
  have hdrop : (String.mk ('$' :: hex4 t)).data.drop 1 = hex4 t := rfl
  have hbytes := low_high_bytes t ht
  simp only [assemble, if_true, hfirst, secondPass,
    secondPassLine_operand _ _ [] [] 0x8000 (jumpLine t) "JMP" _ [] htok, hop,
    handle_literal "JMP" _ [] 0x8000 ([] ++ [e.1]) (by decide) hlit, hdrop, ParseUint_hex4 t ht,
    Nat.mod_eq_of_lt ht, hbytes.1, hbytes.2]
  rfl

theorem loadProgram_three (c : Intel8008) (b₀ b₁ b₂ p : Nat) (hm : c.Memory.length = 65536)
    (hp : p < 65536) :
    ∃ c₁, loadProgram c [b₀, b₁, b₂] p = Outcome.ok c₁ ∧ c₁.PC = p ∧
      c₁.Instructions = c.Instructions ∧ c₁.Memory[p]? = some b₀ ∧
      c₁.Memory[(p + 1) % 65536]? = some b₁ ∧ c₁.Memory[(p + 2) % 65536]? = some b₂ := by
  have hlt : ∀ k : Nat, k % 65536 < c.Memory.length :=
    fun k => by rw [hm]; exact Nat.mod_lt _ (by decide)
  have hself : ∀ (l : List Nat) (k v : Nat), l.length = c.Memory.length →
      (l.set (k % 65536) v)[k % 65536]? = some v := by
    intro l k v hl
    rw [List.getElem?_set_self]
    rw [hl]
    exact hlt k
  refine ⟨{ c with PC := p, Memory := ((c.Memory.set ((p + 0) % 65536) b₀).set
    ((p + 1) % 65536) b₁).set ((p + 2) % 65536) b₂ }, ?_, rfl, rfl, ?_, ?_, ?_⟩
  · simp only [loadProgram, writeProgram, Outcome.write, List.length_set, hlt, if_true,
      Outcome.andThen, Outcome.ok, Nat.zero_mod, Nat.reduceAdd, Nat.reduceMod]
  · show (((c.Memory.set ((p + 0) % 65536) b₀).set ((p + 1) % 65536) b₁).set
      ((p + 2) % 65536) b₂)[p]? = some b₀
    rw [List.getElem?_set_ne (by omega), List.getElem?_set_ne (by omega)]
    have := hself c.Memory (p + 0) b₀ rfl
    rw [Nat.add_zero, Nat.mod_eq_of_lt hp] at this
    rw [Nat.add_zero, Nat.mod_eq_of_lt hp]
    exact this
  · show (((c.Memory.set ((p + 0) % 65536) b₀).set ((p + 1) % 65536) b₁).set
      ((p + 2) % 65536) b₂)[(p + 1) % 65536]? = some b₁
    rw [List.getElem?_set_ne (by omega)]
    exact hself _ _ _ (by simp only [List.length_set])
  · exact hself _ _ _ (by simp only [List.length_set])

/-- C30. The engine decodes what the assembler encodes.  For every 16-bit
address `t`, in whatever orders the assembler visits the instruction table and
at any start address, the one-line source `JMP $HHHH`, with `HHHH` the four
hexadecimal digits of `t`, assembles to three bytes: a `JMP` opcode of the
table, the low byte of `t` and its high byte.  Loaded at any address `p` into
any engine of 65536 bytes, with `PC = p`, these bytes make `ExecuteInstruction`
run to its end with `PC = t`. -/
theorem absolute_operand_round_trip (o s : List (Nat × Instruction))
    (ho : o.Perm Intel8008Instructions) (hs : s.Perm Intel8008Instructions)
    (c : Intel8008) (t p start : Nat) (hI : c.Instructions = Intel8008Instructions)
    (hlen : c.Memory.length = 65536) (ht : t < 65536) (hp : p < 65536)
    (hstart : start < 65536) :
    ∃ opcode, assemble o s [jumpLine t] "8008" start = .ok ([opcode, t % 256, t / 256], []) ∧
      ∃ c₁, loadProgram c [opcode, t % 256, t / 256] p = Outcome.ok c₁ ∧ c₁.PC = p ∧
        (ExecuteInstruction c₁).fault = none ∧ (ExecuteInstruction c₁).cpu.PC = t := by
  obtain ⟨e, hmem, he, hasm⟩ := assemble_jumpLine o s ho hs t start ht hstart
  obtain ⟨c₁, hload, hpc, hins, h0, h1, h2⟩ :=
    loadProgram_three c e.1 (t % 256) (t / 256) p hlen hp
  have hex := ExecuteInstruction_JMP c₁ e.1 t e.2 (by rw [hins, hI]) (jump_entries e hmem he)
    (by rw [hpc]; exact h0) (by rw [hpc]; exact h1) (by rw [hpc]; exact h2) ht he
  refine ⟨e.1, hasm, c₁, hload, hpc, ?_, ?_⟩
  · rw [hex]
    rfl
  · rw [hex]
    rfl

/-- Witness for C30: the address `0x1234`, the line `JMP $1234` assembled with
the table in the order of the source file and loaded at `0x8000` into a fresh
engine of 65536 bytes. -/
theorem absolute_operand_round_trip_witness :
    (NewIntel8008 65536 0).Memory.length = 65536 ∧ jumpLine 0x1234 = "JMP $1234" ∧
      ∃ opcode, assemble Intel8008Instructions Intel8008Instructions [jumpLine 0x1234] "8008"
          0x8000 = .ok ([opcode, 0x1234 % 256, 0x1234 / 256], []) ∧
        ∃ c₁, loadProgram (NewIntel8008 65536 0) [opcode, 0x1234 % 256, 0x1234 / 256] 0x8000 =
            Outcome.ok c₁ ∧ c₁.PC = 0x8000 ∧
          (ExecuteInstruction c₁).fault = none ∧ (ExecuteInstruction c₁).cpu.PC = 0x1234 :=
  ⟨List.length_replicate _ _, by decide,
    absolute_operand_round_trip Intel8008Instructions Intel8008Instructions (List.Perm.refl _)
      (List.Perm.refl _) (NewIntel8008 65536 0) 0x1234 0x8000 0x8000 rfl
      (List.length_replicate _ _) (by decide) (by decide) (by decide)⟩

/-! ## Claim C36: the two maps of the assembler and the table -/

theorem table_keys :
    ∀ e ∈ Intel8008Instructions, lookupInstruction Intel8008Instructions e.1 = some e.2 := by
  decide

theorem alias_shape :
    ∀ e ∈ Intel8008Instructions,
      (Intel8008Instructions.find? fun x => x.2.Mnemonic == e.2.Mnemonic).map
          (fun x => (x.2.Mode, x.2.Size, x.2.Cycles)) =
        some (e.2.Mode, e.2.Size, e.2.Cycles) := by
  decide

theorem alias_same (e x : Nat × Instruction) (he : e ∈ Intel8008Instructions)
    (hx : x ∈ Intel8008Instructions) (h : x.2.Mnemonic = e.2.Mnemonic) :
    x.2.Mode = e.2.Mode ∧ x.2.Size = e.2.Size ∧ x.2.Cycles = e.2.Cycles := by
  have h1 := alias_shape e he
  have h2 := alias_shape x hx
  rw [h] at h2
  rw [h1] at h2
  have := Option.some.inj h2
  simp only [Prod.mk.injEq] at this
  exact ⟨this.1.symm, this.2.1.symm, this.2.2.symm⟩

/-- C36. The maps of the assembler agree with the table under every order of
visit.  For every mnemonic `m` of the table, `GetOpcodes` maps `m` to the opcode
of a table entry with mnemonic `m`, `GetInstrSizes` maps `m` to the `Size` of
that entry, the engine decodes the opcode to that entry, and every table entry
with mnemonic `m` has the same mode, size and cycle count. -/
theorem maps_agree_with_table (o s : List (Nat × Instruction))
    (ho : o.Perm Intel8008Instructions) (hs : s.Perm Intel8008Instructions) (m : String)
    (hm : ∃ e ∈ Intel8008Instructions, e.2.Mnemonic = m) :
    ∃ e ∈ Intel8008Instructions, e.2.Mnemonic = m ∧
      (GetOpcodes o).lookup m = some e.1 ∧
      (GetInstrSizes s).lookup m = some e.2.Size ∧
      lookupInstruction Intel8008Instructions e.1 = some e.2 ∧
      ∀ x ∈ Intel8008Instructions, x.2.Mnemonic = m →
        x.2.Mode = e.2.Mode ∧ x.2.Size = e.2.Size ∧ x.2.Cycles = e.2.Cycles := by
  obtain ⟨pre, e, post, hl, he, hpost, hmem⟩ := visited_last o m ho hm
  refine ⟨e, hmem, he, ?_, ?_, table_keys e hmem, ?_⟩
  · rw [hl, ← he]
    exact GetOpcodes_last pre post e (by rw [he]; exact hpost)
  · rw [GetInstrSizes_order s m hs, ← he]
    exact sizes_of_table e hmem
  · intro x hx hxm
    exact alias_same e x hmem hx (by rw [hxm, he])

/-- Witness for C36: the mnemonic `HLT`, with the table visited in the order of
the source file by one map and in reverse by the other. -/
theorem maps_agree_with_table_witness :
    ∃ e ∈ Intel8008Instructions, e.2.Mnemonic = "HLT" ∧
      (GetOpcodes Intel8008Instructions).lookup "HLT" = some e.1 ∧
      (GetInstrSizes Intel8008Instructions.reverse).lookup "HLT" = some e.2.Size ∧
      lookupInstruction Intel8008Instructions e.1 = some e.2 ∧
      ∀ x ∈ Intel8008Instructions, x.2.Mnemonic = "HLT" →
        x.2.Mode = e.2.Mode ∧ x.2.Size = e.2.Size ∧ x.2.Cycles = e.2.Cycles :=
  maps_agree_with_table Intel8008Instructions Intel8008Instructions.reverse (List.Perm.refl _)
    (List.reverse_perm _) "HLT" ⟨(0x00, Instruction.mk 0x00 "HLT" .Implied 1 4), by decide, rfl⟩

/-! ## Claim C37: the operand families and the addressing modes -/

theorem family_modes :
    ∀ e ∈ Intel8008Instructions,
      (isJumpCall e.2.Mnemonic = true ↔ e.2.Mode = AddressingMode.Absolute) ∧
      (isJumpCall e.2.Mnemonic = false →
        (HasSuffix e.2.Mnemonic "I" = true ↔ e.2.Mode = AddressingMode.Immediate)) ∧
      (isJumpCall e.2.Mnemonic = false → HasSuffix e.2.Mnemonic "I" = false →
        e.2.Mode = AddressingMode.Implied) := by
  decide

theorem handle_no_operand (m operand : String) (labels : List (String × Nat)) (a : Nat)
    (binary : List Nat) (hfam : isJumpCall m = false) (himm : HasSuffix m "I" = false) :
    handle8008Operand m operand labels a binary =
      .error (AssemblyFault.cannotAssemble m operand) := by
  unfold isJumpCall at hfam
  unfold handle8008Operand
  rw [if_neg (by rw [hfam]; exact Bool.false_ne_true),
    if_neg (by rw [himm]; exact Bool.false_ne_true)]

/-- C37. The operand shapes of `handle8008Operand` agree with the table.  For
every entry of the table: its mnemonic begins with `J`, `CA`, `CF` or `CT`
exactly when its mode is Absolute; outside that family its mnemonic ends in `I`
exactly when its mode is Immediate; and a mnemonic of neither shape is Implied,
the handler refusing every operand for it. -/
theorem operand_shape_matches_table (e : Nat × Instruction)
    (he : e ∈ Intel8008Instructions) :
    (isJumpCall e.2.Mnemonic = true ↔ e.2.Mode = AddressingMode.Absolute) ∧
    (isJumpCall e.2.Mnemonic = false →
      (HasSuffix e.2.Mnemonic "I" = true ↔ e.2.Mode = AddressingMode.Immediate)) ∧
    (isJumpCall e.2.Mnemonic = false → HasSuffix e.2.Mnemonic "I" = false →
      e.2.Mode = AddressingMode.Implied ∧
      ∀ operand labels a binary, handle8008Operand e.2.Mnemonic operand labels a binary =
        .error (AssemblyFault.cannotAssemble e.2.Mnemonic operand)) := by
  have h := family_modes e he
  refine ⟨h.1, h.2.1, fun h1 h2 => ⟨h.2.2 h1 h2, fun operand labels a binary =>
    handle_no_operand _ operand labels a binary h1 h2⟩⟩

/-- Witness for C37: the entry `CPI` at `0x3C`, which begins with `C` but is
outside the jump/call family and ends in `I`. -/
theorem operand_shape_matches_table_witness :
    (0x3C, Instruction.mk 0x3C "CPI" .Immediate 2 8) ∈ Intel8008Instructions ∧
      isJumpCall "CPI" = false ∧
      (HasSuffix "CPI" "I" = true ↔ AddressingMode.Immediate = AddressingMode.Immediate) :=
  ⟨by decide, by decide,
    (operand_shape_matches_table (0x3C, Instruction.mk 0x3C "CPI" .Immediate 2 8)
      (by decide)).2.1 (by decide)⟩

/-! ## Claim C38: the immediate and the register form of the accumulator group -/

/-- C38. The immediate form and the register form of each accumulator family
do the same.  For every engine, every value `v` and every family among add, add
with carry, subtract, subtract with borrow, and, exclusive or, or and compare:
the immediate instruction with the literal `v` and the register instruction on
`B`, run from the same engine with `B = v`, both run to their end and leave the
same engine, hence the same accumulator and the same four flags. -/
theorem immediate_register_equivalent (c : Intel8008) (v : Nat) (family : String)
    (i j : Instruction) (hf : family ∈ aluFamilies) (hi : i.Mnemonic = family ++ "I")
    (hj : j.Mnemonic = family ++ "B") (hB : c.B = v) :
    (executeImmediate c i v).fault = none ∧
    executeImmediate c i v = executeImplied c j ∧
    (executeImmediate c i v).cpu.A = (executeImplied c j).cpu.A ∧
    (executeImmediate c i v).cpu.Flags = (executeImplied c j).cpu.Flags := by
  have heq : (executeImmediate c i v).fault = none ∧
      executeImmediate c i v = executeImplied c j := by
    subst hB
    unfold aluFamilies at hf
    fin_cases hf <;> simp at hi hj <;>
      simp [executeImmediate, executeImplied, hi, hj, Outcome.ok, updateFlagsWithCarry,
        updateFlagsWithBorrow, updateFlags, updateCompareFlags]
  exact ⟨heq.1, heq.2, by rw [heq.2], by rw [heq.2]⟩

/-- Witness for C38: `ADI` with the literal 3 and `ADB` with `B = 3`. -/
theorem immediate_register_equivalent_witness :
    "AD" ∈ aluFamilies ∧ ({ sampleEngine with B := 3 } : Intel8008).B = 3 ∧
      executeImmediate { sampleEngine with B := 3 } (Instruction.mk 0x04 "ADI" .Immediate 2 8) 3 =
        executeImplied { sampleEngine with B := 3 } (Instruction.mk 0x81 "ADB" .Implied 1 5) :=
  ⟨by decide, rfl,
    (immediate_register_equivalent { sampleEngine with B := 3 } 3 "AD"
      (Instruction.mk 0x04 "ADI" .Immediate 2 8) (Instruction.mk 0x81 "ADB" .Implied 1 5)
      (by decide) rfl rfl rfl).2.1⟩

/-! ## Claim C39: rotating there and back -/

/-- C39. Rotating there and back.  For every engine with a byte in the
accumulator: `RAL` followed by `RAR`, and `RAR` followed by `RAL`, run to the
end and leave the engine as it was, accumulator and Carry included; `RLC`
followed by `RRC`, and `RRC` followed by `RLC`, run to the end with the
accumulator as it was, and nothing but Carry changed (it holds the bit that went
round: bit 7 after `RLC`, `RRC`, bit 0 after `RRC`, `RLC`). -/
theorem rotate_round_trip (c : Intel8008) (ral rar rlc rrc : Instruction) (ha : c.A < 256)
    (hral : ral.Mnemonic = "RAL") (hrar : rar.Mnemonic = "RAR")
    (hrlc : rlc.Mnemonic = "RLC") (hrrc : rrc.Mnemonic = "RRC") :
    Outcome.andThen (executeImplied c ral) (fun c => executeImplied c rar) = Outcome.ok c ∧
    Outcome.andThen (executeImplied c rar) (fun c => executeImplied c ral) = Outcome.ok c ∧
    Outcome.andThen (executeImplied c rlc) (fun c => executeImplied c rrc) =
      Outcome.ok { c with Flags := { c.Flags with Carry := c.A.testBit 7 } } ∧
    Outcome.andThen (executeImplied c rrc) (fun c => executeImplied c rlc) =
      Outcome.ok { c with Flags := { c.Flags with Carry := c.A.testBit 0 } } := by
  obtain ⟨name, ins, pc, sp, mem, cyc, speed, run, verb, a, b, rc, d, e, h, l, ⟨fc, fz, fs, fp⟩⟩ := c
  simp only at ha
  refine ⟨?_, ?_, ?_, ?_⟩
  · cases fc <;> simp [executeImplied, hral, hrar, Outcome.andThen, Outcome.ok] <;> split <;>
      simp <;> revert a <;> decide
  · cases fc <;> simp [executeImplied, hral, hrar, Outcome.andThen, Outcome.ok] <;> split <;>
      simp <;> revert a <;> decide
  · simp [executeImplied, hrlc, hrrc, Outcome.andThen, Outcome.ok]
    revert a
    decide
  · simp [executeImplied, hrlc, hrrc, Outcome.andThen, Outcome.ok]
    revert a
    decide

/-- Witness for C39: the sample engine, `A = 0xFF` with Carry clear. -/
theorem rotate_round_trip_witness :
    sampleEngine.A < 256 ∧
      Outcome.andThen
          (executeImplied sampleEngine (Instruction.mk 0x12 "RAL" .Implied 1 5))
          (fun c => executeImplied c (Instruction.mk 0x1A "RAR" .Implied 1 5)) =
        Outcome.ok sampleEngine :=
  ⟨by decide,
    (rotate_round_trip sampleEngine (Instruction.mk 0x12 "RAL" .Implied 1 5)
      (Instruction.mk 0x1A "RAR" .Implied 1 5) (Instruction.mk 0x02 "RLC" .Implied 1 5)
      (Instruction.mk 0x0A "RRC" .Implied 1 5) (by decide) rfl rfl rfl rfl).1⟩

/-! ## Claim C32: the halt test of the debugger's run -/

theorem runLoop_HLT (fuel : Nat) (d : Debugger) (op : Nat) (i : Instruction)
    (hb : (d.breakpoints.lookup d.cpu.PC).getD false = false)
    (hI : d.cpu.Instructions = Intel8008Instructions)
    (hop : d.cpu.Memory[d.cpu.PC]? = some op) (hne : op ≠ 0x00)
    (hi : lookupInstruction Intel8008Instructions op = some i) (hm : i.Mnemonic = "HLT") :
    (Debugger.runLoop (fuel + 1) d).map RunOutcome.ending =
      some (RunEnd.fault (Fault.exit 0)) := by
  have hf : (d.executeInstruction).fault = some (Fault.exit 0) := by
    rw [executeInstruction_fault d op hop, ExecuteInstruction_HLT d.cpu op i hI hop hi hm]
    rfl
  simp [Debugger.runLoop, hb, hop, hne, hf]

/-- C32 fails on the code: `Debugger.run` tests the opcode at `PC` against
`0x00` only.  With no breakpoints, on the `HLT` opcode `0x00` the run reports
"Program halted" and returns with the engine untouched; on the `HLT` opcodes
`0x01` and `0xFF` of the table it reports nothing and goes on to
`executeInstruction`, where the process ends with `os.Exit(0)`. -/
theorem run_misses_halt_aliases :
    lookupInstruction Intel8008Instructions 0x00 = some (Instruction.mk 0x00 "HLT" .Implied 1 4) ∧
    lookupInstruction Intel8008Instructions 0x01 = some (Instruction.mk 0x01 "HLT" .Implied 1 4) ∧
    lookupInstruction Intel8008Instructions 0xFF = some (Instruction.mk 0xFF "HLT" .Implied 1 4) ∧
    (∀ fuel, (debuggerAt 0x00).run (fuel + 1) =
      some ⟨debuggerAt 0x00, RunEnd.programHalted⟩) ∧
    (∀ fuel, ((debuggerAt 0x01).run (fuel + 1)).map RunOutcome.ending =
      some (RunEnd.fault (Fault.exit 0))) ∧
    (∀ fuel, ((debuggerAt 0xFF).run (fuel + 1)).map RunOutcome.ending =
      some (RunEnd.fault (Fault.exit 0))) := by
  refine ⟨rfl, rfl, rfl, fun fuel => rfl, fun fuel => ?_, fun fuel => ?_⟩
  · exact runLoop_HLT fuel _ 0x01 (Instruction.mk 0x01 "HLT" .Implied 1 4) rfl rfl rfl
      (by decide) rfl rfl
  · exact runLoop_HLT fuel _ 0xFF (Instruction.mk 0xFF "HLT" .Implied 1 4) rfl rfl rfl
      (by decide) rfl rfl

/-! ## Claim C33: continue at a breakpoint -/

/-- C33 fails on the code: `continueExecution` is `run`, and `run` tests the
breakpoint at `PC` before it executes anything.  The debugger stopped at a
breakpoint on address 0, where the valid instruction `LAB` stands, reports the
same breakpoint again on continue and leaves the engine as it was: no
instruction is executed, however often continue is called.  Without the
breakpoint the same continue executes `LAB` and halts at the next address. -/
theorem continue_stays_at_breakpoint :
    stoppedDebugger.cpu.Memory[stoppedDebugger.cpu.PC]? = some 0xC1 ∧
    lookupInstruction Intel8008Instructions 0xC1 = some (Instruction.mk 0xC1 "LAB" .Implied 1 5) ∧
    (∀ fuel, stoppedDebugger.continueExecution (fuel + 1) =
      some ⟨stoppedDebugger, RunEnd.breakpointHit 0⟩) ∧
    (∀ fuel, (freeDebugger.continueExecution (fuel + 2)).map
        (fun r : RunOutcome => (r.ending, r.debugger.cpu.PC)) =
      some (RunEnd.programHalted, 1)) := by
  refine ⟨rfl, rfl, fun fuel => rfl, fun fuel => ?_⟩
  have hex : ExecuteInstruction (engineWith [0xC1, 0x00]) =
      Outcome.ok { engineWith [0xC1, 0x00] with PC := 1, A := 0, Cycles := 5 } := by
    rw [ExecuteInstruction_implied (engineWith [0xC1, 0x00]) 0xC1
      (Instruction.mk 0xC1 "LAB" .Implied 1 5) rfl rfl rfl]
    simp [executeImplied, Outcome.andThen, Outcome.ok, WaitForCycles, engineWith, NewIntel8008]
  simp [Debugger.continueExecution, Debugger.run, Debugger.runLoop, freeDebugger,
    Debugger.New, Debugger.executeInstruction, hex, Outcome.ok]
  simp [engineWith, NewIntel8008]

/-! ## Claim C35: the range loop of `parseAddressSpec` -/

theorem rangeLoop_top (fuel addr : Nat) (addresses : List Nat) (h : addr ≤ 0xFFFF) :
    rangeLoop fuel addr 0xFFFF addresses = none := by
  induction fuel generalizing addr addresses with
  | zero => rfl
  | succ n ih =>
    unfold rangeLoop
    rw [if_pos h]
    exact ih _ _ (by omega)

/-- C35 fails on the code: the counter of the range loop is a `uint16`, so the
test `addr <= end` never fails when `end` is `0xFFFF` and the increment wraps to
0.  On the specification `FFF0-FFFF` the loop of `parseAddressSpec` does not
end, whatever the number of rounds; on `FFF0-FFFE` it ends after the fifteen
addresses. -/
theorem range_loop_never_ends :
    Split "FFF0-FFFF" '-' = ["FFF0", "FFFF"] ∧
    parseHexAddr "FFF0" 0 = .ok 0xFFF0 ∧ parseHexAddr "FFFF" 0 = .ok 0xFFFF ∧
    (∀ fuel addresses, rangeLoop fuel 0xFFF0 0xFFFF addresses = none) ∧
    (∀ fuel, parseAddressSpec fuel "FFF0-FFFF" = none) ∧
    parseAddressSpec 16 "FFF0-FFFE" =
      some (.ok [0xFFF0, 0xFFF1, 0xFFF2, 0xFFF3, 0xFFF4, 0xFFF5, 0xFFF6, 0xFFF7, 0xFFF8, 0xFFF9,
        0xFFFA, 0xFFFB, 0xFFFC, 0xFFFD, 0xFFFE]) := by
  refine ⟨by decide, rfl, rfl, fun fuel addresses => rangeLoop_top fuel _ _ (by decide), ?_, rfl⟩
  intro fuel
  have h : parseAddressSpec fuel "FFF0-FFFF" =
      match rangeLoop fuel 0xFFF0 0xFFFF [] with
      | none => none
      | some addresses => parseParts fuel [] addresses := rfl
  rw [h, rangeLoop_top fuel _ _ (by decide)]

/-! ## Claim C31: the addresses of a specification -/

theorem hexDigit_not_sep (ch : Char) (h : (hexDigit ch).isSome = true) :
    ch ≠ ',' ∧ ch ≠ '-' ∧ ch ≠ 'x' := by
  refine ⟨?_, ?_, ?_⟩ <;> rintro rfl <;> revert h <;> decide

theorem hexDigits_all (digits : List Char) (h : isHexDigits digits = true) :
    digits ≠ [] ∧ ∀ ch ∈ digits, (hexDigit ch).isSome = true := by
  unfold isHexDigits at h
  simp only [Bool.and_eq_true, Bool.not_eq_true', List.all_eq_true] at h
  refine ⟨?_, h.2⟩
  intro hnil
  rw [hnil] at h
  simp at h

theorem parseUintFrom_ok (n : Nat) (digits : List Char)
    (hd : ∀ ch ∈ digits, (hexDigit ch).isSome = true) (hv : hexValueFrom n digits ≤ 0xFFFF) :
    parseUintFrom n digits = (hexValueFrom n digits, false) := by
  induction digits generalizing n with
  | nil => rfl
  | cons ch rest ih =>
    have hch := hd ch (List.mem_cons_self _ _)
    cases hx : hexDigit ch with
    | none => simp [hx] at hch
    | some d =>
      have hstep : hexValueFrom n (ch :: rest) = hexValueFrom (n * 16 + d) rest := by
        show hexValueFrom (n * 16 + (hexDigit ch).getD 0) rest = _
        rw [hx]
        rfl
      rw [hstep] at hv ⊢
      have hge := hexValueFrom_ge (n * 16 + d) rest
      unfold parseUintFrom
      simp only [hx]
      rw [if_neg (by omega)]
      exact ih (n * 16 + d) (fun c hc => hd c (List.mem_cons_of_mem _ hc)) hv

theorem parseUintFrom_error (n : Nat) (digits : List Char) (hn : n ≤ 0xFFFF)
    (h : (parseUintFrom n digits).2 = false) :
    (∀ ch ∈ digits, (hexDigit ch).isSome = true) ∧ hexValueFrom n digits ≤ 0xFFFF := by
  induction digits generalizing n with
  | nil => exact ⟨fun _ hc => (by cases hc), hn⟩
  | cons ch rest ih =>
    unfold parseUintFrom at h
    cases hx : hexDigit ch with
    | none => simp [hx] at h
    | some d =>
      simp only [hx] at h
      by_cases hbig : n * 16 + d > 0xFFFF
      · rw [if_pos hbig] at h
        cases h
      · rw [if_neg hbig] at h
        obtain ⟨h1, h2⟩ := ih (n * 16 + d) (by omega) h
        have hstep : hexValueFrom n (ch :: rest) = hexValueFrom (n * 16 + d) rest := by
          show hexValueFrom (n * 16 + (hexDigit ch).getD 0) rest = _
          rw [hx]
          rfl
        refine ⟨?_, by rw [hstep]; exact h2⟩
        intro c hc
        rcases List.mem_cons.mp hc with rfl | hc'
        · rw [hx]
          rfl
        · exact h1 c hc'

theorem TrimPrefix_digits (digits : List Char)
    (hd : ∀ ch ∈ digits, (hexDigit ch).isSome = true) :
    TrimPrefix (String.mk digits) "0x" = String.mk digits := by
  have hp : HasPrefix (String.mk digits) "0x" = false := by
    match digits, hd with
    | [], _ => rfl
    | [_], _ => simp [HasPrefix, List.isPrefixOf]
    | c₀ :: c₁ :: rest, hd =>
      have h1 := (hexDigit_not_sep c₁ (hd c₁ (by simp))).2.2
      simp [HasPrefix, List.isPrefixOf, h1.symm]
  unfold TrimPrefix
  rw [hp]
  rfl

theorem parseHexAddr_address (digits : List Char) (h : isAddress digits = true) :
    parseHexAddr (String.mk digits) 0 = .ok (hexValue digits) := by
  unfold isAddress at h
  simp only [Bool.and_eq_true, decide_eq_true_eq] at h
  obtain ⟨hne, hall⟩ := hexDigits_all digits h.1
  have hs : String.mk digits ≠ "" := by
    intro heq
    exact hne (congrArg String.data heq)
  have hparse : ParseUint (String.mk digits) = (hexValue digits, false) := by
    unfold ParseUint
    have : (String.mk digits).data.isEmpty = false := by
      cases digits with
      | nil => exact absurd rfl hne
      | cons a l => rfl
    rw [this]
    exact parseUintFrom_ok 0 digits hall h.2
  unfold parseHexAddr
  rw [if_neg hs]
  simp only [TrimPrefix_digits digits hall, hparse]
  rw [Nat.mod_eq_of_lt (by omega)]
  rfl

theorem parseHexAddr_invalid (digits : List Char) (hne : digits ≠ [])
    (hp : HasPrefix (String.mk digits) "0x" = false) (h : isAddress digits = false) :
    parseHexAddr (String.mk digits) 0 = .error (AddressFault.parse (String.mk digits)) := by
  have hs : String.mk digits ≠ "" := by
    intro heq
    exact hne (congrArg String.data heq)
  have htrim : TrimPrefix (String.mk digits) "0x" = String.mk digits := by
    unfold TrimPrefix
    rw [hp]
    rfl
  have herr : (ParseUint (String.mk digits)).2 = true := by
    cases hflag : (ParseUint (String.mk digits)).2 with
    | true => rfl
    | false =>
      exfalso
      unfold ParseUint at hflag
      have hemp : (String.mk digits).data.isEmpty = false := by
        cases digits with
        | nil => exact absurd rfl hne
        | cons a l => rfl
      rw [hemp] at hflag
      obtain ⟨h1, h2⟩ := parseUintFrom_error 0 digits (by decide) hflag
      have : isAddress digits = true := by
        unfold isAddress isHexDigits
        simp only [Bool.and_eq_true, Bool.not_eq_true', List.all_eq_true, decide_eq_true_eq]
        refine ⟨⟨?_, h1⟩, h2⟩
        cases digits with
        | nil => exact absurd rfl hne
        | cons a l => rfl
      rw [this] at h
      cases h
  unfold parseHexAddr
  rw [if_neg hs]
  simp only [htrim, herr, if_true]

theorem rangeLoop_below_top (fuel a b : Nat) (addresses : List Nat) (hab : a ≤ b + 1)
    (hb : b < 0xFFFF) (hfuel : b + 2 - a ≤ fuel) :
    rangeLoop fuel a b addresses = some (addresses ++ List.range' a (b + 1 - a)) := by
  induction fuel generalizing a addresses with
  | zero => omega
  | succ n ih =>
    unfold rangeLoop
    by_cases hle : a ≤ b
    · rw [if_pos hle, Nat.mod_eq_of_lt (by omega), ih (a + 1) _ (by omega) (by omega)]
      have : b + 1 - a = (b + 1 - (a + 1)) + 1 := by omega
      rw [this, List.range'_succ, List.append_assoc]
      rfl
    · rw [if_neg hle]
      have : b + 1 - a = 0 := by omega
      rw [this]
      simp

theorem splitFrom_sep (sep : Char) (piece l rest : List Char) (h : ∀ ch ∈ l, ch ≠ sep) :
    splitFrom sep piece (l ++ sep :: rest) =
      String.mk (piece.reverse ++ l) :: splitFrom sep [] rest := by
  induction l generalizing piece with
  | nil => simp [splitFrom]
  | cons ch l ih =>
    have hch : ch ≠ sep := h ch (List.mem_cons_self _ _)
    simp only [List.cons_append, splitFrom, hch, if_false, List.append_eq]
    rw [ih (ch :: piece) (fun c hc => h c (List.mem_cons_of_mem _ hc))]
    simp

theorem splitFrom_end (sep : Char) (piece l : List Char) (h : ∀ ch ∈ l, ch ≠ sep) :
    splitFrom sep piece l = [String.mk (piece.reverse ++ l)] := by
  induction l generalizing piece with
  | nil => simp [splitFrom]
  | cons ch l ih =>
    have hch : ch ≠ sep := h ch (List.mem_cons_self _ _)
    simp only [splitFrom, hch, if_false]
    rw [ih (ch :: piece) (fun c hc => h c (List.mem_cons_of_mem _ hc))]
    simp

theorem address_chars (digits : List Char) (h : isAddress digits = true) :
    ∀ ch ∈ digits, ch ≠ ',' ∧ ch ≠ '-' := by
  unfold isAddress at h
  simp only [Bool.and_eq_true] at h
  intro ch hch
  have := hexDigit_not_sep ch ((hexDigits_all digits h.1).2 ch hch)
  exact ⟨this.1, this.2.1⟩

theorem Contains_digits (digits : List Char) (h : ∀ ch ∈ digits, ch ≠ '-') :
    Contains (String.mk digits) '-' = false := by
  unfold Contains
  cases hc : (String.mk digits).data.contains '-' with
  | false => rfl
  | true =>
    have hmem : '-' ∈ digits := by simpa using hc
    exact absurd rfl (h '-' hmem)

theorem parseParts_single (fuel : Nat) (digits : List Char) (more : List String)
    (addresses : List Nat) (h : isAddress digits = true) :
    parseParts fuel (String.mk digits :: more) addresses =
      parseParts fuel more (addresses ++ [hexValue digits]) := by
  have hc := Contains_digits digits (fun ch hch => (address_chars digits h ch hch).2)
  rw [parseParts]
  simp only [hc, Bool.false_eq_true, if_false, parseHexAddr_address digits h]

theorem Split_range (first last : List Char) (hf : ∀ ch ∈ first, ch ≠ '-')
    (hl : ∀ ch ∈ last, ch ≠ '-') :
    Split (String.mk (first ++ '-' :: last)) '-' = [String.mk first, String.mk last] := by
  unfold Split
  show splitFrom '-' [] (first ++ '-' :: last) = _
  rw [splitFrom_sep '-' [] first last hf, splitFrom_end '-' [] last hl]
  rfl

theorem Contains_range (first last : List Char) :
    Contains (String.mk (first ++ '-' :: last)) '-' = true := by
  unfold Contains
  simp

theorem parseParts_range (fuel : Nat) (first last : List Char) (more : List String)
    (addresses : List Nat) (hf : isAddress first = true) (hl : isAddress last = true)
    (hle : hexValue first ≤ hexValue last) (htop : hexValue last < 0xFFFF)
    (hfuel : 65536 ≤ fuel) :
    parseParts fuel (String.mk (first ++ '-' :: last) :: more) addresses =
      parseParts fuel more
        (addresses ++ List.range' (hexValue first) (hexValue last + 1 - hexValue first)) := by
  have hsplit := Split_range first last (fun ch hch => (address_chars first hf ch hch).2)
    (fun ch hch => (address_chars last hl ch hch).2)
  rw [parseParts]
  simp only [Contains_range, if_true, hsplit, parseHexAddr_address first hf,
    parseHexAddr_address last hl]
  rw [if_neg (by omega),
    rangeLoop_below_top fuel _ _ addresses (by omega) htop (by omega)]

theorem parseParts_reversed (fuel : Nat) (first last : List Char) (more : List String)
    (addresses : List Nat) (hf : isAddress first = true) (hl : isAddress last = true)
    (hgt : hexValue first > hexValue last) :
    parseParts fuel (String.mk (first ++ '-' :: last) :: more) addresses =
      some (.error AddressFault.startAfterEnd) := by
  have hsplit := Split_range first last (fun ch hch => (address_chars first hf ch hch).2)
    (fun ch hch => (address_chars last hl ch hch).2)
  rw [parseParts]
  simp only [Contains_range, if_true, hsplit, parseHexAddr_address first hf,
    parseHexAddr_address last hl]
  rw [if_pos hgt]

theorem parseParts_invalid (fuel : Nat) (digits : List Char) (more : List String)
    (addresses : List Nat) (hne : digits ≠ []) (hsep : ∀ ch ∈ digits, ch ≠ '-')
    (hp : HasPrefix (String.mk digits) "0x" = false) (h : isAddress digits = false) :
    parseParts fuel (String.mk digits :: more) addresses =
      some (.error (AddressFault.parse (String.mk digits))) := by
  rw [parseParts]
  simp only [Contains_digits digits hsep, Bool.false_eq_true, if_false,
    parseHexAddr_invalid digits hne hp h]

theorem part_chars (p : AddressPart) (h : p.wellFormed = true) : ∀ ch ∈ p.text, ch ≠ ',' := by
  cases p with
  | single digits =>
    exact fun ch hch => (address_chars digits h ch hch).1
  | range first last =>
    simp only [AddressPart.wellFormed, Bool.and_eq_true] at h
    intro ch hch
    simp only [AddressPart.text, List.mem_append, List.mem_cons] at hch
    rcases hch with hch | rfl | hch
    · exact (address_chars first h.1.1 ch hch).1
    · decide
    · exact (address_chars last h.1.2 ch hch).1

theorem parseParts_part (fuel : Nat) (p : AddressPart) (more : List String)
    (addresses : List Nat) (h : p.wellFormed = true) (htop : p.belowTop = true)
    (hfuel : 65536 ≤ fuel) :
    parseParts fuel (String.mk p.text :: more) addresses =
      parseParts fuel more (addresses ++ p.addresses) := by
  cases p with
  | single digits => exact parseParts_single fuel digits more addresses h
  | range first last =>
    simp only [AddressPart.wellFormed, Bool.and_eq_true, decide_eq_true_eq] at h
    simp only [AddressPart.belowTop, decide_eq_true_eq] at htop
    exact parseParts_range fuel first last more addresses h.1.1 h.1.2 h.2 htop hfuel

theorem Split_spec_cons (p q : AddressPart) (rest : List AddressPart)
    (h : ∀ ch ∈ p.text, ch ≠ ',') :
    Split (specText (p :: q :: rest)) ',' = String.mk p.text :: Split (specText (q :: rest)) ',' := by
  unfold Split specText
  show splitFrom ',' [] (p.text ++ ',' :: specChars (q :: rest)) = _
  rw [splitFrom_sep ',' [] p.text _ h]
  rfl

theorem Split_spec_last (p : AddressPart) (h : ∀ ch ∈ p.text, ch ≠ ',') :
    Split (specText [p]) ',' = [String.mk p.text] := by
  unfold Split specText
  show splitFrom ',' [] p.text = _
  rw [splitFrom_end ',' [] p.text h]
  rfl

theorem specAddresses_cons (p : AddressPart) (rest : List AddressPart) :
    specAddresses (p :: rest) = p.addresses ++ specAddresses rest := by
  simp [specAddresses]

theorem parseParts_good (fuel : Nat) (hfuel : 65536 ≤ fuel) (good : List AddressPart)
    (hgood : ∀ p ∈ good, p.wellFormed = true ∧ p.belowTop = true) (bad : AddressPart)
    (rest : List AddressPart) (addresses : List Nat) :
    parseParts fuel (Split (specText (good ++ bad :: rest)) ',') addresses =
      parseParts fuel (Split (specText (bad :: rest)) ',') (addresses ++ specAddresses good) := by
  induction good generalizing addresses with
  | nil => simp [specAddresses]
  | cons p good ih =>
    have hp := hgood p (List.mem_cons_self _ _)
    have hrest : ∀ x ∈ good, x.wellFormed = true ∧ x.belowTop = true :=
      fun x hx => hgood x (List.mem_cons_of_mem _ hx)
    have hshape : ∃ q tail, good ++ bad :: rest = q :: tail := by
      cases good with
      | nil => exact ⟨bad, rest, rfl⟩
      | cons q tail => exact ⟨q, tail ++ bad :: rest, rfl⟩
    obtain ⟨q, tail, hq⟩ := hshape
    rw [List.cons_append, hq, Split_spec_cons p q tail (part_chars p hp.1),
      parseParts_part fuel p _ addresses hp.1 hp.2 hfuel, ← hq, ih hrest,
      specAddresses_cons, List.append_assoc]

theorem parseParts_all (fuel : Nat) (hfuel : 65536 ≤ fuel) (parts : List AddressPart)
    (hne : parts ≠ []) (hparts : ∀ p ∈ parts, p.wellFormed = true ∧ p.belowTop = true)
    (addresses : List Nat) :
    parseParts fuel (Split (specText parts) ',') addresses =
      some (.ok (addresses ++ specAddresses parts)) := by
  induction parts generalizing addresses with
  | nil => exact absurd rfl hne
  | cons p rest ih =>
    have hp := hparts p (List.mem_cons_self _ _)
    cases rest with
    | nil =>
      rw [Split_spec_last p (part_chars p hp.1),
        parseParts_part fuel p _ addresses hp.1 hp.2 hfuel]
      simp [parseParts, specAddresses]
    | cons q tail =>
      rw [Split_spec_cons p q tail (part_chars p hp.1),
        parseParts_part fuel p _ addresses hp.1 hp.2 hfuel,
        ih (List.cons_ne_nil _ _) (fun x hx => hparts x (List.mem_cons_of_mem _ hx))]
      simp only [specAddresses_cons, List.append_assoc]

theorem Split_spec_head (p : AddressPart) (rest : List AddressPart)
    (h : ∀ ch ∈ p.text, ch ≠ ',') :
    ∃ more, Split (specText (p :: rest)) ',' = String.mk p.text :: more := by
  cases rest with
  | nil => exact ⟨[], Split_spec_last p h⟩
  | cons q tail => exact ⟨_, Split_spec_cons p q tail h⟩

/-- C31, as stated, fails on an empty part: `parseHexAddr` returns the default
0 for the empty text.  The specification `8000,` has the parts `8000` and the
empty text, which is no hexadecimal number (`strconv.ParseUint` refuses it), and
`parseAddressSpec` returns the addresses `0x8000`, `0x0000` and no error. -/
theorem empty_part_reads_as_zero :
    Split "8000," ',' = ["8000", ""] ∧ isAddress "".data = false ∧
    ParseUint "" = (0, true) ∧ parseHexAddr "" 0 = .ok 0 ∧
    ∀ fuel, parseAddressSpec fuel "8000," = some (.ok [0x8000, 0x0000]) :=
  ⟨by decide, by decide, by decide, rfl, fun _ => rfl⟩

/-- C31, amended. For a specification that lists, with commas between them,
single addresses and ranges `a-b` in hexadecimal, each address of 16 bits, with
`a ≤ b` and `b` below `0xFFFF`: `parseAddressSpec` returns, in the order of the
parts, each single address and every address from `a` to `b`, both included.
After parts of that kind, a range of two addresses with `a > b` gives the error
"start > end", and a part that is not empty, has no `-` nor `,`, does not begin
with `0x` and is no 16-bit hexadecimal number gives the error of the parse.  (An
empty part, or an empty side of a range, reads as address 0.) -/
theorem address_spec_result (fuel : Nat) (hfuel : 65536 ≤ fuel) (parts : List AddressPart)
    (hparts : ∀ p ∈ parts, p.wellFormed = true ∧ p.belowTop = true) :
    (parts ≠ [] → parseAddressSpec fuel (specText parts) = some (.ok (specAddresses parts))) ∧
    (∀ first last rest, isAddress first = true → isAddress last = true →
      hexValue first > hexValue last →
      parseAddressSpec fuel (specText (parts ++ AddressPart.range first last :: rest)) =
        some (.error AddressFault.startAfterEnd)) ∧
    (∀ digits rest, digits ≠ [] → (∀ ch ∈ digits, ch ≠ '-' ∧ ch ≠ ',') →
      HasPrefix (String.mk digits) "0x" = false → isAddress digits = false →
      parseAddressSpec fuel (specText (parts ++ AddressPart.single digits :: rest)) =
        some (.error (AddressFault.parse (String.mk digits)))) := by
  refine ⟨fun hne => ?_, fun first last rest hf hl hgt => ?_,
    fun digits rest hne hsep hp hbad => ?_⟩
  · have := parseParts_all fuel hfuel parts hne hparts []
    simpa [parseAddressSpec] using this
  · have htext : ∀ ch ∈ (AddressPart.range first last).text, ch ≠ ',' := by
      intro ch hch
      simp only [AddressPart.text, List.mem_append, List.mem_cons] at hch
      rcases hch with hch | rfl | hch
      · exact (address_chars first hf ch hch).1
      · decide
      · exact (address_chars last hl ch hch).1
    obtain ⟨more, hmore⟩ := Split_spec_head (AddressPart.range first last) rest htext
    unfold parseAddressSpec
    rw [parseParts_good fuel hfuel parts hparts, hmore]
    exact parseParts_reversed fuel first last more _ hf hl hgt
  · have htext : ∀ ch ∈ (AddressPart.single digits).text, ch ≠ ',' :=
      fun ch hch => (hsep ch hch).2
    obtain ⟨more, hmore⟩ := Split_spec_head (AddressPart.single digits) rest htext
    unfold parseAddressSpec
    rw [parseParts_good fuel hfuel parts hparts, hmore]
    exact parseParts_invalid fuel digits more _ hne (fun ch hch => (hsep ch hch).1) hp hbad

/-- Witness for C31, amended: the specification `8000,8010-8020` gives `0x8000`
and the seventeen addresses from `0x8010` to `0x8020`. -/
theorem address_spec_result_witness :
    65536 ≤ 65536 ∧
      specText [AddressPart.single "8000".data, AddressPart.range "8010".data "8020".data] =
        "8000,8010-8020" ∧
      specAddresses [AddressPart.single "8000".data, AddressPart.range "8010".data "8020".data] =
        0x8000 :: List.range' 0x8010 17 ∧
      parseAddressSpec 65536 (specText
          [AddressPart.single "8000".data, AddressPart.range "8010".data "8020".data]) =
        some (.ok (specAddresses
          [AddressPart.single "8000".data, AddressPart.range "8010".data "8020".data])) :=
  ⟨by decide, by decide, by decide,
    (address_spec_result 65536 (by decide)
      [AddressPart.single "8000".data, AddressPart.range "8010".data "8020".data]
      (by decide)).1 (by decide)⟩

/-! ## Claim C34: the length of the binary -/

/-- C34 fails on the code: the first loop of `assemble` counts nothing for an
instruction line whose mnemonic is followed at once by a comment.  The source
`ADB;x`, `end:`, `JMP end` consists of the mnemonic `ADB`, which takes no
operand, a label, and `JMP` with its operand; it assembles to four bytes, the
sum of the table sizes 1 and 3, but `end` is bound to the start address
`0x8000`, while the second loop has emitted one byte for the line before the
label, so the byte after the label is at offset 1.  Without the comment the
label is bound to `0x8001`. -/
theorem label_misses_output_offset :
    lineTokens "ADB;x" = some ["ADB"] ∧ isJumpCall "ADB" = false ∧ HasSuffix "ADB" "I" = false ∧
    tableSize "ADB" = 1 ∧
    lineTokens "JMP end" = some ["JMP", "end"] ∧ isJumpCall "JMP" = true ∧ tableSize "JMP" = 3 ∧
    assemble Intel8008Instructions Intel8008Instructions ["ADB;x", "end:", "JMP end"] "8008"
      0x8000 = .ok ([0x81, 0x7C, 0x00, 0x80], [("end", 0x8000)]) ∧
    passTwo Intel8008Instructions Intel8008Instructions ["ADB;x", "end:", "JMP end"] 0x8000
      ["ADB;x", "end:"] = .ok ([0x81], 0x8001) ∧
    assemble Intel8008Instructions Intel8008Instructions ["ADB", "end:", "JMP end"] "8008"
      0x8000 = .ok ([0x81, 0x7C, 0x01, 0x80], [("end", 0x8001)]) :=
  ⟨by decide, by decide, by decide, by decide, by decide, by decide, by decide, rfl, rfl, rfl⟩

/-! ## Claim C40: no index outside a memory of 65536 bytes -/

theorem inBounds_ok (c : Intel8008) : InBounds (Outcome.ok c) := by
  intro index h
  cases h

theorem inBounds_notImplemented (c : Intel8008) (m : String) :
    InBounds (Outcome.stop c (Fault.notImplemented m)) := by
  intro index h
  cases h

theorem inBounds_exit (c : Intel8008) (code : Nat) :
    InBounds (Outcome.stop c (Fault.exit code)) := by
  intro index h
  cases h

theorem inBounds_unknownOpcode (c : Intel8008) (opcode pc : Nat) :
    InBounds (Outcome.stop c (Fault.unknownOpcode opcode pc)) := by
  intro index h
  cases h

theorem pair_address_lt (high low : Nat) (h : low < 256) :
    ((high <<< 8) % 65536) ||| low < 65536 := by
  rw [Nat.or_comm]
  exact address_lt low high h

theorem executeImmediate_inBounds (c : Intel8008) (i : Instruction) (v : Nat)
    (hHL : ((c.H <<< 8) % 65536) ||| c.L < c.Memory.length) :
    InBounds (executeImmediate c i v) := by
  simp only [executeImmediate, read_eq_dite, Outcome.write, updateCompareFlags, hHL, if_true,
    dite_true, apply_ite InBounds, inBounds_ok, inBounds_notImplemented, ite_self]

theorem executeAbsolute_inBounds (c : Intel8008) (i : Instruction) (v : Nat)
    (hSP : ∀ k : Nat, k % 256 < c.Memory.length) :
    InBounds (executeAbsolute c i v) := by
  simp only [executeAbsolute, read_eq_dite, Outcome.write, hSP, List.length_set, if_true,
    dite_true, apply_ite InBounds, inBounds_ok, inBounds_notImplemented, ite_self]

theorem executeImplied_inBounds (c : Intel8008) (i : Instruction)
    (hHL : ((c.H <<< 8) % 65536) ||| c.L < c.Memory.length)
    (hSP : c.SP < c.Memory.length) (hSP1 : (c.SP + 1) % 256 < c.Memory.length) :
    InBounds (executeImplied c i) := by
  simp only [executeImplied, read_eq_dite, Outcome.write, updateCompareFlags, updateFlags,
    updateFlagsWithCarry, updateFlagsWithBorrow, hHL, hSP, hSP1, if_true, dite_true,
    apply_ite InBounds, inBounds_ok, inBounds_notImplemented, inBounds_exit, ite_self]


theorem andThen_wait_inBounds (r : Outcome) (n : Nat) (h : InBounds r) :
    InBounds (Outcome.andThen r fun c => Outcome.ok (WaitForCycles c n)) := by
  intro index
  rw [andThen_wait_fault]
  exact h index

theorem ExecuteInstruction_inBounds (c : Intel8008) (hlen : c.Memory.length = 65536)
    (hpc : c.PC < 65536) (hsp : c.SP < 256) (hl : c.L < 256) :
    InBounds (ExecuteInstruction c) := by
  have hword : ∀ k : Nat, k % 65536 < c.Memory.length :=
    fun k => by rw [hlen]; exact Nat.mod_lt _ (by decide)
  have hbyte : ∀ k : Nat, k % 256 < c.Memory.length :=
    fun k => by rw [hlen]; have := Nat.mod_lt k (show 0 < 256 by decide); omega
  have hHL : ((c.H <<< 8) % 65536) ||| c.L < c.Memory.length := by
    rw [hlen]
    exact pair_address_lt c.H c.L hl
  have hSP : c.SP < c.Memory.length := by rw [hlen]; omega
  have hPC : c.PC < c.Memory.length := by rw [hlen]; exact hpc
  unfold ExecuteInstruction
  rw [read_eq_dite, dif_pos hPC]
  split
  · exact inBounds_unknownOpcode _ _ _
  · next instruction _ =>
    apply andThen_wait_inBounds
    split
    · rw [read_eq_dite, dif_pos (hword _)]
      exact executeImmediate_inBounds _ _ _ hHL
    · rw [read_eq_dite, dif_pos (hword _), read_eq_dite, dif_pos (hword _)]
      exact executeAbsolute_inBounds _ _ _ hbyte
    · rw [read_eq_dite, dif_pos (hword _)]
      exact inBounds_notImplemented _ _
    · exact executeImplied_inBounds _ _ hHL hSP (hbyte _)

/-- C40. An engine of 65536 bytes never indexes outside its memory.  For every
engine with a memory of 65536 bytes, a 16-bit `PC` and bytes in `SP` and `L`,
whatever the memory holds and whatever `H`, the other registers and the flags
are: `ExecuteInstruction` does not stop at an index outside memory, neither in
the fetch of the opcode and of the operand bytes, nor in an access through
`H:L`, nor in the stack accesses of a call or a return. -/
theorem no_index_out_of_range (c : Intel8008) (hlen : c.Memory.length = 65536)
    (hpc : c.PC < 65536) (hsp : c.SP < 256) (hl : c.L < 256) :
    ∀ index, (ExecuteInstruction c).fault ≠ some (Fault.indexOutOfRange index) :=
  ExecuteInstruction_inBounds c hlen hpc hsp hl

/-- Witness for C40: `RET` (opcode `0x07`) at address 0 of a fresh engine of
65536 bytes, whose `SP` is `0xFF`, so that the second stack access is at
`(SP + 1) mod 256 = 0`. -/
theorem no_index_out_of_range_witness :
    (oneByteEngine 0x07).Memory.length = 65536 ∧ (oneByteEngine 0x07).SP = 0xFF ∧
      ∀ index, (ExecuteInstruction (oneByteEngine 0x07)).fault ≠
        some (Fault.indexOutOfRange index) :=
  ⟨oneByteEngine_length 0x07, rfl,
    no_index_out_of_range (oneByteEngine 0x07) (oneByteEngine_length 0x07) (by decide)
      (by decide) (by decide)⟩

end G8b
